import Mathlib

/-!
Shallow embedding of the remove-export transform
(packages/remove-export/src/lib.rs): a fixed-point dead-code-elimination
pass over an ECMAScript module AST fragment.  The embedding covers the
AST constructors actually inspected by the source (identifier, literal,
call, member, function expressions; function/variable declarations;
identifier/array/object/rest/invalid patterns; import declarations;
export declarations; named exports; default exports) and translates the
two `Fold` implementations (`Analyzer` and `RemoveExportsExprs`) plus
the `Repeated` driver function by function.  Stateful folds are written
as functions returning a `node × State` pair.
-/

set_option linter.unusedVariables false

/-- Embeds swc `Ident`: symbol plus syntax context (the resolver-assigned
scope marker). Spans are not modelled. -/
structure Ident where
  sym : String
  ctxt : Nat
deriving DecidableEq, Repr

/-- Embeds swc `Id = (JsWord, SyntaxContext)`. -/
abbrev BindingId := String × Nat

def Ident.toId (i : Ident) : BindingId := (i.sym, i.ctxt)

/-- Embeds swc `ModuleExportName`: an identifier or a module string name. -/
inductive ModuleExportName where
  | ident (i : Ident)
  | str (s : String)
deriving DecidableEq, Repr

mutual

/-- Expression fragment: the forms the analyzer/rewriter inspect. -/
inductive Expr where
  | ident (i : Ident)
  | lit (n : Nat)
  | call (callee : Expr) (args : List Expr)
  | member (obj : Expr) (prop : String)
  | fnE (f : FnExpr)

/-- Embeds swc `FnExpr`: optional name plus the function. -/
inductive FnExpr where
  | mk (ident : Option Ident) (function : Function)

/-- Embeds swc `Function`: parameter patterns and an optional block body. -/
inductive Function where
  | mk (params : List Pat) (body : Option (List Stmt))

/-- Statement fragment. -/
inductive Stmt where
  | decl (d : Decl)
  | expr (e : Expr)
  | empty
  | ret (arg : Option Expr)

/-- Declaration fragment: function and variable declarations. -/
inductive Decl where
  | fnD (ident : Ident) (function : Function)
  | varD (decls : List VarDeclarator)

/-- Embeds swc `VarDeclarator`. -/
inductive VarDeclarator where
  | mk (name : Pat) (init : Option Expr)

/-- Pattern fragment, including the `Invalid` placeholder the rewriter uses
as a deletion sentinel. -/
inductive Pat where
  | ident (i : Ident)
  | array (elems : List (Option Pat))
  | object (props : List ObjectPatProp)
  | rest (arg : Pat)
  | invalid

/-- Embeds swc `ObjectPatProp`. -/
inductive ObjectPatProp where
  | keyValue (key : String) (value : Pat)
  | assign (key : Ident) (value : Option Expr)
  | rest (arg : Pat)

end

/-- Embeds swc `ImportSpecifier` (named / default / namespace), each with a
local binding. The optional imported name of a named specifier is kept but
never inspected by the transform. -/
inductive ImportSpecifier where
  | named (locl : Ident) (imported : Option ModuleExportName)
  | defaultS (locl : Ident)
  | namespaceS (locl : Ident)
deriving DecidableEq, Repr

/-- Local binding of an import specifier. -/
def ImportSpecifier.locl : ImportSpecifier → Ident
  | .named l _ => l
  | .defaultS l => l
  | .namespaceS l => l

/-- Embeds swc `ExportSpecifier` (namespace / default / named). -/
inductive ExportSpecifier where
  | namespaceS (name : ModuleExportName)
  | defaultS (exported : Ident)
  | named (orig : ModuleExportName) (exported : Option ModuleExportName)
deriving DecidableEq, Repr

/-- Embeds swc `DefaultDecl`; the function-declaration form. -/
inductive DefaultDecl where
  | fnDD (f : FnExpr)

/-- Module item fragment: statements, imports, and the export forms. -/
inductive ModuleItem where
  | stmtI (s : Stmt)
  | importI (specifiers : List ImportSpecifier) (src : String)
  | exportDecl (d : Decl)
  | exportNamed (specifiers : List ExportSpecifier) (src : Option String)
  | exportDefaultDecl (d : DefaultDecl)
  | exportDefaultExpr (e : Expr)

/-- A module is its list of items. -/
abbrev ModuleAst := List ModuleItem

def VarDeclarator.name : VarDeclarator → Pat
  | .mk n _ => n

def VarDeclarator.init : VarDeclarator → Option Expr
  | .mk _ i => i

def Pat.isInvalid : Pat → Bool
  | .invalid => true
  | _ => false

/-- Embeds `State` (lib.rs lines 25-43). Reference sets are lists used as
sets (`insertId` refuses duplicates). -/
structure State where
  refs_from_other : List BindingId
  refs_from_data_fn : List BindingId
  cur_declaring : List BindingId
  should_run_again : Bool
  remove_exports : List String
deriving DecidableEq, Repr

/-- Set-style insertion into a reference list. -/
def insertId (id : BindingId) (l : List BindingId) : List BindingId :=
  if id ∈ l then l else id :: l

/-- Embeds `State::should_remove_identifier` (lines 46-48). In the source it
returns `Result<bool, Error>` but is infallible (always `Ok`), so it is
embedded as `Bool`. -/
def State.should_remove_identifier (st : State) (i : Ident) : Bool :=
  st.remove_exports.contains i.sym

/-- Embeds `State::should_remove_default` (lines 49-51). -/
def State.should_remove_default (st : State) : Bool :=
  st.remove_exports.contains "default"

/-- Embeds `Analyzer::add_ref` (lines 61-72); `data` is the analyzer's
`in_data_fn` field. -/
def State.add_ref (st : State) (data : Bool) (id : BindingId) : State :=
  if data then
    { st with refs_from_data_fn := insertId id st.refs_from_data_fn }
  else if id ∈ st.cur_declaring then st
  else { st with refs_from_other := insertId id st.refs_from_other }

/-!
The `Analyzer` fold. The visitor fields `in_lhs_of_var` and `in_data_fn`
are threaded as the arguments `lhs` and `data`; every mutation of those
fields in the source is save/restore-scoped, so argument passing is exact.
Node types without an overridden `fold_*` method fold their children
structurally, exactly as `swc` `Fold` does.
-/

mutual

/-- Analyzer on expressions: `fold_expr` (lines 148-156) folds children
first, then records a reference for a bare identifier expression. -/
def Analyzer.fold_expr (lhs data : Bool) (st : State) : Expr → Expr × State
  | .ident i => (.ident i, st.add_ref data i.toId)
  | .lit n => (.lit n, st)
  | .call callee args =>
    let c := Analyzer.fold_expr lhs data st callee
    let a := Analyzer.fold_exprs lhs data c.2 args
    (.call c.1 a.1, a.2)
  | .member obj prop =>
    let o := Analyzer.fold_expr lhs data st obj
    (.member o.1 prop, o.2)
  | .fnE f =>
    let f1 := Analyzer.fold_fn_expr lhs data st f
    (.fnE f1.1, f1.2)

def Analyzer.fold_exprs (lhs data : Bool) (st : State) :
    List Expr → List Expr × State
  | [] => ([], st)
  | e :: rest =>
    let e1 := Analyzer.fold_expr lhs data st e
    let r := Analyzer.fold_exprs lhs data e1.2 rest
    (e1.1 :: r.1, r.2)

def Analyzer.fold_opt_expr (lhs data : Bool) (st : State) :
    Option Expr → Option Expr × State
  | none => (none, st)
  | some e =>
    let e1 := Analyzer.fold_expr lhs data st e
    (some e1.1, e1.2)

/-- Analyzer `fold_fn_expr` (lines 190-198): children first, then the
expression's own name is recorded as a reference when present. -/
def Analyzer.fold_fn_expr (lhs data : Bool) (st : State) :
    FnExpr → FnExpr × State
  | .mk oid fn =>
    let fn1 := Analyzer.fold_function lhs data st fn
    let st2 := match oid with
      | some id => fn1.2.add_ref data id.toId
      | none => fn1.2
    (.mk oid fn1.1, st2)

def Analyzer.fold_function (lhs data : Bool) (st : State) :
    Function → Function × State
  | .mk params body =>
    let ps := Analyzer.fold_pats lhs data st params
    match body with
    | none => (.mk ps.1 none, ps.2)
    | some ss =>
      let ss1 := Analyzer.fold_stmts lhs data ps.2 ss
      (.mk ps.1 (some ss1.1), ss1.2)

def Analyzer.fold_stmt (lhs data : Bool) (st : State) : Stmt → Stmt × State
  | .decl d =>
    let d1 := Analyzer.fold_decl lhs data st d
    (.decl d1.1, d1.2)
  | .expr e =>
    let e1 := Analyzer.fold_expr lhs data st e
    (.expr e1.1, e1.2)
  | .empty => (.empty, st)
  | .ret oe =>
    let o1 := Analyzer.fold_opt_expr lhs data st oe
    (.ret o1.1, o1.2)

def Analyzer.fold_stmts (lhs data : Bool) (st : State) :
    List Stmt → List Stmt × State
  | [] => ([], st)
  | s :: rest =>
    let s1 := Analyzer.fold_stmt lhs data st s
    let r := Analyzer.fold_stmts lhs data s1.2 rest
    (s1.1 :: r.1, r.2)

/-- Analyzer on declarations. A `FnDecl` goes through `fold_fn_decl`
(lines 179-188): children first, then the name is recorded when
`in_data_fn` is set. -/
def Analyzer.fold_decl (lhs data : Bool) (st : State) : Decl → Decl × State
  | .fnD i fn =>
    let fn1 := Analyzer.fold_function lhs data st fn
    (.fnD i fn1.1, if data then fn1.2.add_ref data i.toId else fn1.2)
  | .varD ds =>
    let ds1 := Analyzer.fold_var_declarators lhs data st ds
    (.varD ds1.1, ds1.2)

/-- Analyzer `fold_var_declarator` (lines 268-279): the name is folded with
`in_lhs_of_var = true`, the initializer with `in_lhs_of_var = false`. -/
def Analyzer.fold_var_declarator (lhs data : Bool) (st : State) :
    VarDeclarator → VarDeclarator × State
  | .mk name init =>
    let n1 := Analyzer.fold_pat true data st name
    let i1 := Analyzer.fold_opt_expr false data n1.2 init
    (.mk n1.1 i1.1, i1.2)

def Analyzer.fold_var_declarators (lhs data : Bool) (st : State) :
    List VarDeclarator → List VarDeclarator × State
  | [] => ([], st)
  | d :: rest =>
    let d1 := Analyzer.fold_var_declarator lhs data st d
    let r := Analyzer.fold_var_declarators lhs data d1.2 rest
    (d1.1 :: r.1, r.2)

/-- Analyzer on patterns: there is no `fold_pat` override, so children fold
structurally; a `Pat::Ident` child is a `BindingIdent` and goes through
`fold_binding_ident` (lines 96-102). -/
def Analyzer.fold_pat (lhs data : Bool) (st : State) : Pat → Pat × State
  | .ident i =>
    (.ident i, if !lhs || data then st.add_ref data i.toId else st)
  | .array elems =>
    let es := Analyzer.fold_opt_pats lhs data st elems
    (.array es.1, es.2)
  | .object props =>
    let ps := Analyzer.fold_object_props lhs data st props
    (.object ps.1, ps.2)
  | .rest a =>
    let a1 := Analyzer.fold_pat lhs data st a
    (.rest a1.1, a1.2)
  | .invalid => (.invalid, st)

def Analyzer.fold_pats (lhs data : Bool) (st : State) :
    List Pat → List Pat × State
  | [] => ([], st)
  | p :: rest =>
    let p1 := Analyzer.fold_pat lhs data st p
    let r := Analyzer.fold_pats lhs data p1.2 rest
    (p1.1 :: r.1, r.2)

def Analyzer.fold_opt_pats (lhs data : Bool) (st : State) :
    List (Option Pat) → List (Option Pat) × State
  | [] => ([], st)
  | none :: rest =>
    let r := Analyzer.fold_opt_pats lhs data st rest
    (none :: r.1, r.2)
  | some p :: rest =>
    let p1 := Analyzer.fold_pat lhs data st p
    let r := Analyzer.fold_opt_pats lhs data p1.2 rest
    (some p1.1 :: r.1, r.2)

/-- Analyzer on object pattern properties: an `Assign` key is a
`BindingIdent` (rule of lines 96-102); a default value is an expression
child. -/
def Analyzer.fold_object_props (lhs data : Bool) (st : State) :
    List ObjectPatProp → List ObjectPatProp × State
  | [] => ([], st)
  | .keyValue k v :: rest =>
    let v1 := Analyzer.fold_pat lhs data st v
    let r := Analyzer.fold_object_props lhs data v1.2 rest
    (.keyValue k v1.1 :: r.1, r.2)
  | .assign key val :: rest =>
    let st1 := if !lhs || data then st.add_ref data key.toId else st
    let v1 := Analyzer.fold_opt_expr lhs data st1 val
    let r := Analyzer.fold_object_props lhs data v1.2 rest
    (.assign key v1.1 :: r.1, r.2)
  | .rest a :: rest =>
    let a1 := Analyzer.fold_pat lhs data st a
    let r := Analyzer.fold_object_props lhs data a1.2 rest
    (.rest a1.1 :: r.1, r.2)

end

/-- Analyzer `fold_export_named_specifier` (lines 104-112): records the
original identity as a reference unless the original name itself matches a
Removal Target. -/
def Analyzer.fold_export_named_specifier (lhs data : Bool) (st : State)
    (s : ExportSpecifier) : ExportSpecifier × State :=
  match s with
  | .named (.ident id) exported =>
    if !(st.remove_exports.contains id.sym) then
      (.named (.ident id) exported, st.add_ref data id.toId)
    else
      (.named (.ident id) exported, st)
  | s => (s, st)

def Analyzer.fold_export_specifiers (lhs data : Bool) (st : State) :
    List ExportSpecifier → List ExportSpecifier × State
  | [] => ([], st)
  | s :: rest =>
    let s1 := match s with
      | .named o e => Analyzer.fold_export_named_specifier lhs data st (.named o e)
      | s => (s, st)
    let r := Analyzer.fold_export_specifiers lhs data s1.2 rest
    (s1.1 :: r.1, r.2)

/-- Analyzer `fold_named_export` (lines 242-248): the specifiers are folded
only when the export has a source clause; the source clause itself is
never changed. -/
def Analyzer.fold_named_export (lhs data : Bool) (st : State)
    (specifiers : List ExportSpecifier) (src : Option String) :
    List ExportSpecifier × State :=
  if src.isSome then
    Analyzer.fold_export_specifiers lhs data st specifiers
  else
    (specifiers, st)

/-- Analyzer `fold_export_decl` (lines 114-146): an exported function whose
name matches, or an exported variable declaration whose FIRST declarator is
an identifier pattern that matches, flips `in_data_fn` for all children and
records the name as a (data) reference; an exported variable declaration
with no declarators is returned without folding children. -/
def Analyzer.fold_export_decl (lhs data : Bool) (st : State) (d : Decl) :
    Decl × State :=
  match d with
  | .varD [] => (.varD [], st)
  | d =>
    let t : Bool × State :=
      match d with
      | .fnD i _ =>
        if st.should_remove_identifier i then (true, st.add_ref true i.toId)
        else (false, st)
      | .varD (d0 :: _) =>
        match d0.name with
        | .ident i =>
          if st.remove_exports.contains i.sym then (true, st.add_ref true i.toId)
          else (false, st)
        | _ => (false, st)
      | _ => (false, st)
    Analyzer.fold_decl lhs (data || t.1) t.2 d

/-- Analyzer `check_default` (lines 74-89) on a default declaration:
children are folded with `in_data_fn = true` when "default" is a Removal
Target. -/
def Analyzer.fold_default_decl (lhs data : Bool) (st : State)
    (d : DefaultDecl) : DefaultDecl × State :=
  let dflag := if st.should_remove_default then true else data
  match d with
  | .fnDD f =>
    let f1 := Analyzer.fold_fn_expr lhs dflag st f
    (.fnDD f1.1, f1.2)

/-- Analyzer `fold_export_default_expr` (lines 254-256) via `check_default`:
the inner expression is the child. -/
def Analyzer.fold_export_default_expr (lhs data : Bool) (st : State)
    (e : Expr) : Expr × State :=
  let dflag := if st.should_remove_default then true else data
  Analyzer.fold_expr lhs dflag st e

/-- Analyzer `fold_module_item` (lines 201-240). A named export with
specifiers is folded and dropped if the specifier list came back empty;
otherwise children are folded and an exported function declaration whose
name matches a Removal Target, or an exported variable declaration with no
declarators, is replaced with an empty statement. -/
def Analyzer.fold_module_item (lhs data : Bool) (st : State) :
    ModuleItem → ModuleItem × State
  | .exportNamed specifiers src =>
    let sp1 := Analyzer.fold_named_export lhs data st specifiers src
    if specifiers.isEmpty then
      (.exportNamed sp1.1 src, sp1.2)
    else if sp1.1.isEmpty then
      (.stmtI .empty, sp1.2)
    else
      (.exportNamed sp1.1 src, sp1.2)
  | .stmtI s =>
    let s1 := Analyzer.fold_stmt lhs data st s
    (.stmtI s1.1, s1.2)
  | .importI specifiers src => (.importI specifiers src, st)
  | .exportDecl d =>
    let d1 := Analyzer.fold_export_decl lhs data st d
    match d1.1 with
    | .fnD i _ =>
      if d1.2.should_remove_identifier i then (.stmtI .empty, d1.2)
      else (.exportDecl d1.1, d1.2)
    | .varD [] => (.stmtI .empty, d1.2)
    | _ => (.exportDecl d1.1, d1.2)
  | .exportDefaultDecl d =>
    let d1 := Analyzer.fold_default_decl lhs data st d
    (.exportDefaultDecl d1.1, d1.2)
  | .exportDefaultExpr e =>
    let e1 := Analyzer.fold_export_default_expr lhs data st e
    (.exportDefaultExpr e1.1, e1.2)

def Analyzer.fold_module_items (lhs data : Bool) (st : State) :
    ModuleAst → ModuleAst × State
  | [] => ([], st)
  | i :: rest =>
    let i1 := Analyzer.fold_module_item lhs data st i
    let r := Analyzer.fold_module_items lhs data i1.2 rest
    (i1.1 :: r.1, r.2)

/-!
Analyzer facts: the analyzer never alters the tree below the module-item
level, and never touches `cur_declaring`, `should_run_again` or
`remove_exports`.
-/

/-- State fields the analyzer leaves untouched. -/
def AnalyzerPreserves (st st2 : State) : Prop :=
  st2.cur_declaring = st.cur_declaring ∧
  st2.should_run_again = st.should_run_again ∧
  st2.remove_exports = st.remove_exports

/-- Tree action of the analyzer on one module item: everything is returned
unchanged except an exported function declaration whose name matches a
Removal Target and an exported variable declaration with no declarators,
which become empty statements. -/
def analyzerItemShape (targets : List String) : ModuleItem → ModuleItem
  | .exportDecl (.fnD i f) =>
    if targets.contains i.sym then .stmtI .empty
    else .exportDecl (.fnD i f)
  | .exportDecl (.varD []) => .stmtI .empty
  | i => i

/-!
The `RemoveExportsExprs` fold (the pruning rewriter), lines 282-624.
Its only traversal flag is `in_lhs_of_var`, threaded as `lhs`.
-/

/-- Embeds `RemoveExportsExprs::should_remove` (lines 289-291). -/
def State.should_remove (st : State) (id : BindingId) : Bool :=
  st.refs_from_data_fn.contains id && !(st.refs_from_other.contains id)

/-- Embeds `RemoveExportsExprs::mark_as_candidate` (lines 294-311) applied
to a function: the analyzer runs over it with `in_data_fn = true` and the
Run-Again flag is set afterwards. -/
def markAsCandidateFunction (st : State) (f : Function) : Function × State :=
  let f1 := Analyzer.fold_function false true st f
  (f1.1, { f1.2 with should_run_again := true })

/-- Embeds `mark_as_candidate` applied to an optional expression (the
initializer and default-value call sites). -/
def markAsCandidateOptExpr (st : State) (e : Option Expr) :
    Option Expr × State :=
  let e1 := Analyzer.fold_opt_expr false true st e
  (e1.1, { e1.2 with should_run_again := true })

/-- Embeds `RemoveExportsExprs::create_empty_fn` (lines 313-332): the
anonymous zero-parameter function with an empty block body. -/
def create_empty_fn : FnExpr := .mk none (.mk [] (some []))

/-- The retain predicate of the array-pattern case of `fold_pat`
(line 516): keep an element unless it is a deleted (`Invalid`) one. -/
def keepPatElem : Option Pat → Bool
  | some Pat.invalid => false
  | _ => true

/-- Embeds the `filter_map` over object-pattern properties inside
`fold_pat` (lines 530-557): drop a key-value prop whose value is invalid;
drop an assign prop whose key is removable, marking its default value as a
candidate; drop a rest prop whose target is invalid. -/
def RemoveExportsExprs.object_props_filter (st : State) :
    List ObjectPatProp → List ObjectPatProp × State
  | [] => ([], st)
  | .keyValue k v :: rest =>
    if v.isInvalid then RemoveExportsExprs.object_props_filter st rest
    else
      let r := RemoveExportsExprs.object_props_filter st rest
      (.keyValue k v :: r.1, r.2)
  | .assign key val :: rest =>
    if st.should_remove key.toId then
      let m := markAsCandidateOptExpr st val
      RemoveExportsExprs.object_props_filter m.2 rest
    else
      let r := RemoveExportsExprs.object_props_filter st rest
      (.assign key val :: r.1, r.2)
  | .rest a :: rest =>
    if a.isInvalid then RemoveExportsExprs.object_props_filter st rest
    else
      let r := RemoveExportsExprs.object_props_filter st rest
      (.rest a :: r.1, r.2)

mutual

/-- Rewriter on expressions: no `fold_expr` override, children only. -/
def RemoveExportsExprs.fold_expr (lhs : Bool) (st : State) :
    Expr → Expr × State
  | .ident i => (.ident i, st)
  | .lit n => (.lit n, st)
  | .call callee args =>
    let c := RemoveExportsExprs.fold_expr lhs st callee
    let a := RemoveExportsExprs.fold_exprs lhs c.2 args
    (.call c.1 a.1, a.2)
  | .member obj prop =>
    let o := RemoveExportsExprs.fold_expr lhs st obj
    (.member o.1 prop, o.2)
  | .fnE f =>
    let f1 := RemoveExportsExprs.fold_fn_expr lhs st f
    (.fnE f1.1, f1.2)

def RemoveExportsExprs.fold_exprs (lhs : Bool) (st : State) :
    List Expr → List Expr × State
  | [] => ([], st)
  | e :: rest =>
    let e1 := RemoveExportsExprs.fold_expr lhs st e
    let r := RemoveExportsExprs.fold_exprs lhs e1.2 rest
    (e1.1 :: r.1, r.2)

def RemoveExportsExprs.fold_opt_expr (lhs : Bool) (st : State) :
    Option Expr → Option Expr × State
  | none => (none, st)
  | some e =>
    let e1 := RemoveExportsExprs.fold_expr lhs st e
    (some e1.1, e1.2)

def RemoveExportsExprs.fold_fn_expr (lhs : Bool) (st : State) :
    FnExpr → FnExpr × State
  | .mk oid fn =>
    let fn1 := RemoveExportsExprs.fold_function lhs st fn
    (.mk oid fn1.1, fn1.2)

def RemoveExportsExprs.fold_function (lhs : Bool) (st : State) :
    Function → Function × State
  | .mk params body =>
    let ps := RemoveExportsExprs.fold_pats lhs st params
    match body with
    | none => (.mk ps.1 none, ps.2)
    | some ss =>
      let ss1 := RemoveExportsExprs.fold_stmts lhs ps.2 ss
      (.mk ps.1 (some ss1.1), ss1.2)

/-- Rewriter `fold_stmt` (lines 576-599): a removable function declaration
is marked as a candidate and replaced by an empty statement before
children are folded; after children, a variable declaration whose
declarator list became empty is replaced by an empty statement. -/
def RemoveExportsExprs.fold_stmt (lhs : Bool) (st : State) :
    Stmt → Stmt × State
  | .decl (.fnD i fn) =>
    if st.should_remove i.toId then
      let m := markAsCandidateFunction st fn
      (.empty, m.2)
    else
      let fn1 := RemoveExportsExprs.fold_function lhs st fn
      (.decl (.fnD i fn1.1), fn1.2)
  | .decl (.varD ds) =>
    let ds1 := RemoveExportsExprs.fold_var_declarators lhs st ds
    if ds1.1.isEmpty then (.empty, ds1.2)
    else (.decl (.varD ds1.1), ds1.2)
  | .expr e =>
    let e1 := RemoveExportsExprs.fold_expr lhs st e
    (.expr e1.1, e1.2)
  | .empty => (.empty, st)
  | .ret oe =>
    let o1 := RemoveExportsExprs.fold_opt_expr lhs st oe
    (.ret o1.1, o1.2)

def RemoveExportsExprs.fold_stmts (lhs : Bool) (st : State) :
    List Stmt → List Stmt × State
  | [] => ([], st)
  | s :: rest =>
    let s1 := RemoveExportsExprs.fold_stmt lhs st s
    let r := RemoveExportsExprs.fold_stmts lhs s1.2 rest
    (s1.1 :: r.1, r.2)

/-- Rewriter `fold_var_declarator` (lines 601-616): the name is folded with
`in_lhs_of_var = true`; if it came back invalid the initializer is marked
as a candidate; the marked initializer is then folded with
`in_lhs_of_var = false`.  In the source the rewriter folds the tree
returned by `mark_as_candidate`; by `markAsCandidateOptExpr_fst` that tree
is `init` itself, so the fold below is applied to `init` directly (this
keeps the recursion structural). -/
def RemoveExportsExprs.fold_var_declarator (lhs : Bool) (st : State) :
    VarDeclarator → VarDeclarator × State
  | .mk name init =>
    let n1 := RemoveExportsExprs.fold_pat true st name
    let m := if n1.1.isInvalid then markAsCandidateOptExpr n1.2 init
             else (init, n1.2)
    let i3 := RemoveExportsExprs.fold_opt_expr false m.2 init
    (.mk n1.1 i3.1, i3.2)

/-- Rewriter `fold_var_declarators` (lines 618-623): children, then retain
the declarators whose name is not invalid. -/
def RemoveExportsExprs.fold_var_declarators (lhs : Bool) (st : State) :
    List VarDeclarator → List VarDeclarator × State
  | [] => ([], st)
  | d :: rest =>
    let d1 := RemoveExportsExprs.fold_var_declarator lhs st d
    let r := RemoveExportsExprs.fold_var_declarators lhs d1.2 rest
    (if d1.1.name.isInvalid then r.1 else d1.1 :: r.1, r.2)

/-- Rewriter `fold_pat` (lines 501-574): children first; under
`in_lhs_of_var`, a removable identifier becomes `Invalid`, array and
object patterns drop deleted sub-patterns (becoming `Invalid` when they
end empty), and a rest pattern collapses when its target is invalid. -/
def RemoveExportsExprs.fold_pat (lhs : Bool) (st : State) : Pat → Pat × State
  | .ident i =>
    if lhs && st.should_remove i.toId then
      (.invalid, { st with should_run_again := true })
    else (.ident i, st)
  | .array elems =>
    let es := RemoveExportsExprs.fold_opt_pats lhs st elems
    if lhs then
      if es.1.isEmpty then (.array es.1, es.2)
      else
        let kept := es.1.filter keepPatElem
        if kept.isEmpty then (.invalid, es.2) else (.array kept, es.2)
    else (.array es.1, es.2)
  | .object props =>
    let ps := RemoveExportsExprs.fold_object_props lhs st props
    if lhs then
      if ps.1.isEmpty then (.object ps.1, ps.2)
      else
        let kept := RemoveExportsExprs.object_props_filter ps.2 ps.1
        if kept.1.isEmpty then (.invalid, kept.2)
        else (.object kept.1, kept.2)
    else (.object ps.1, ps.2)
  | .rest a =>
    let a1 := RemoveExportsExprs.fold_pat lhs st a
    if lhs && a1.1.isInvalid then (.invalid, a1.2) else (.rest a1.1, a1.2)
  | .invalid => (.invalid, st)

def RemoveExportsExprs.fold_pats (lhs : Bool) (st : State) :
    List Pat → List Pat × State
  | [] => ([], st)
  | p :: rest =>
    let p1 := RemoveExportsExprs.fold_pat lhs st p
    let r := RemoveExportsExprs.fold_pats lhs p1.2 rest
    (p1.1 :: r.1, r.2)

def RemoveExportsExprs.fold_opt_pats (lhs : Bool) (st : State) :
    List (Option Pat) → List (Option Pat) × State
  | [] => ([], st)
  | none :: rest =>
    let r := RemoveExportsExprs.fold_opt_pats lhs st rest
    (none :: r.1, r.2)
  | some p :: rest =>
    let p1 := RemoveExportsExprs.fold_pat lhs st p
    let r := RemoveExportsExprs.fold_opt_pats lhs p1.2 rest
    (some p1.1 :: r.1, r.2)

/-- Children mapping over object-pattern properties (the
`fold_children_with` part, before the `filter_map` of lines 530-557). -/
def RemoveExportsExprs.fold_object_props (lhs : Bool) (st : State) :
    List ObjectPatProp → List ObjectPatProp × State
  | [] => ([], st)
  | .keyValue k v :: rest =>
    let v1 := RemoveExportsExprs.fold_pat lhs st v
    let r := RemoveExportsExprs.fold_object_props lhs v1.2 rest
    (.keyValue k v1.1 :: r.1, r.2)
  | .assign key val :: rest =>
    let v1 := RemoveExportsExprs.fold_opt_expr lhs st val
    let r := RemoveExportsExprs.fold_object_props lhs v1.2 rest
    (.assign key v1.1 :: r.1, r.2)
  | .rest a :: rest =>
    let a1 := RemoveExportsExprs.fold_pat lhs st a
    let r := RemoveExportsExprs.fold_object_props lhs a1.2 rest
    (.rest a1.1 :: r.1, r.2)

end

/-- Rewriter on declarations reached through an `ExportDecl` (no override:
children only; the statement-level function removal does not apply). -/
def RemoveExportsExprs.fold_decl (lhs : Bool) (st : State) :
    Decl → Decl × State
  | .fnD i fn =>
    let fn1 := RemoveExportsExprs.fold_function lhs st fn
    (.fnD i fn1.1, fn1.2)
  | .varD ds =>
    let ds1 := RemoveExportsExprs.fold_var_declarators lhs st ds
    (.varD ds1.1, ds1.2)

/-- Embeds the retain loop of `RemoveExportsExprs::fold_import_decl`
(lines 362-379): drop each specifier whose local binding is removable,
setting the Run-Again flag. -/
def RemoveExportsExprs.import_specifiers_retain (st : State) :
    List ImportSpecifier → List ImportSpecifier × State
  | [] => ([], st)
  | s :: rest =>
    if st.should_remove s.locl.toId then
      RemoveExportsExprs.import_specifiers_retain
        { st with should_run_again := true } rest
    else
      let r := RemoveExportsExprs.import_specifiers_retain st rest
      (s :: r.1, r.2)

/-- Embeds `RemoveExportsExprs::fold_import_decl` (lines 356-382): a
side-effect import (no specifiers) is returned untouched. -/
def RemoveExportsExprs.fold_import_decl (st : State)
    (specifiers : List ImportSpecifier) :
    List ImportSpecifier × State :=
  if specifiers.isEmpty then (specifiers, st)
  else RemoveExportsExprs.import_specifiers_retain st specifiers

/-- Embeds the retain predicate of `RemoveExportsExprs::fold_named_export`
(lines 436-457): keep a specifier unless its exported identifier name
(namespace name / default export name / aliased name), or failing those
its original identifier name, matches a Removal Target. The `Err` arm of
the source is unreachable because `should_remove_identifier` is
infallible. -/
def RemoveExportsExprs.keep_specifier (st : State) : ExportSpecifier → Bool
  | .namespaceS (.ident exported) => !(st.should_remove_identifier exported)
  | .defaultS exported => !(st.should_remove_identifier exported)
  | .named _ (some (.ident exported)) => !(st.should_remove_identifier exported)
  | .named (.ident orig) _ => !(st.should_remove_identifier orig)
  | _ => true

/-- Embeds the retain loop of `fold_named_export` (lines 435-477): a
dropped named specifier whose original is an identifier seeds DataRefs
and sets the Run-Again flag; other dropped specifiers leave the state
untouched. -/
def RemoveExportsExprs.export_specifiers_retain (st : State) :
    List ExportSpecifier → List ExportSpecifier × State
  | [] => ([], st)
  | s :: rest =>
    if RemoveExportsExprs.keep_specifier st s then
      let r := RemoveExportsExprs.export_specifiers_retain st rest
      (s :: r.1, r.2)
    else
      let st1 := match s with
        | .named (.ident orig) _ =>
          { st with should_run_again := true,
                    refs_from_data_fn := insertId orig.toId st.refs_from_data_fn }
        | _ => st
      RemoveExportsExprs.export_specifiers_retain st1 rest

/-- Embeds `RemoveExportsExprs::fold_named_export` (lines 432-480). The
preceding `specifiers.fold_with(self)` is the identity on this fragment
(export specifiers have no children the rewriter rewrites), so only the
retain loop remains; the source clause is never changed. -/
def RemoveExportsExprs.fold_named_export (st : State)
    (specifiers : List ExportSpecifier) :
    List ExportSpecifier × State :=
  RemoveExportsExprs.export_specifiers_retain st specifiers

/-- Embeds `RemoveExportsExprs::fold_default_decl` (lines 482-488). -/
def RemoveExportsExprs.fold_default_decl (st : State) (d : DefaultDecl) :
    DefaultDecl × State :=
  if st.should_remove_default then (.fnDD create_empty_fn, st) else (d, st)

/-- Embeds `RemoveExportsExprs::fold_export_default_expr`
(lines 490-499). -/
def RemoveExportsExprs.fold_export_default_expr (st : State) (e : Expr) :
    Expr × State :=
  if st.should_remove_default then (.fnE create_empty_fn, st) else (e, st)

/-- Embeds `RemoveExportsExprs::fold_module_item` (lines 408-430): the
branch for import declarations runs before children; after children a
named export whose specifier list is empty becomes an empty statement. -/
def RemoveExportsExprs.fold_module_item (lhs : Bool) (st : State) :
    ModuleItem → ModuleItem × State
  | .importI specifiers src =>
    let is_for_side_effect := specifiers.isEmpty
    let sp1 := RemoveExportsExprs.fold_import_decl st specifiers
    if !is_for_side_effect && sp1.1.isEmpty then (.stmtI .empty, sp1.2)
    else (.importI sp1.1 src, sp1.2)
  | .stmtI s =>
    let s1 := RemoveExportsExprs.fold_stmt lhs st s
    (.stmtI s1.1, s1.2)
  | .exportDecl d =>
    let d1 := RemoveExportsExprs.fold_decl lhs st d
    (.exportDecl d1.1, d1.2)
  | .exportNamed specifiers src =>
    let sp1 := RemoveExportsExprs.fold_named_export st specifiers
    if sp1.1.isEmpty then (.stmtI .empty, sp1.2)
    else (.exportNamed sp1.1 src, sp1.2)
  | .exportDefaultDecl d =>
    let d1 := RemoveExportsExprs.fold_default_decl st d
    (.exportDefaultDecl d1.1, d1.2)
  | .exportDefaultExpr e =>
    let e1 := RemoveExportsExprs.fold_export_default_expr st e
    (.exportDefaultExpr e1.1, e1.2)

def RemoveExportsExprs.fold_module_items (lhs : Bool) (st : State) :
    ModuleAst → ModuleAst × State
  | [] => ([], st)
  | i :: rest =>
    let i1 := RemoveExportsExprs.fold_module_item lhs st i
    let r := RemoveExportsExprs.fold_module_items lhs i1.2 rest
    (i1.1 :: r.1, r.2)

/-- Embeds the retain of `fold_module_items` (lines 399-406): drop the
empty-statement placeholders after folding the items. -/
def RemoveExportsExprs.retain_items (items : ModuleAst) : ModuleAst :=
  items.filter fun s => match s with
    | .stmtI .empty => false
    | _ => true

/-- Embeds `RemoveExportsExprs::fold_module` (lines 384-397): run the
analyzer over the module to fill the state, then fold the items and drop
the placeholders. -/
def RemoveExportsExprs.fold_module (st : State) (m : ModuleAst) :
    ModuleAst × State :=
  let a := Analyzer.fold_module_items false false st m
  let r := RemoveExportsExprs.fold_module_items false a.2 a.1
  (RemoveExportsExprs.retain_items r.1, r.2)

/-- Embeds `Repeated::reset` (lines 340-344). -/
def State.reset (st : State) : State :=
  { st with refs_from_other := [], cur_declaring := [],
            should_run_again := false }

/-- State built by `remove_export_exprs` (lines 14-22): everything empty
except the configured Removal Targets. -/
def initialState (remove_exports : List String) : State :=
  { refs_from_other := [], refs_from_data_fn := [], cur_declaring := [],
    should_run_again := false, remove_exports := remove_exports }

/-!
Sizes.  Every AST node counts at least one, the canonical empty function
produced by `create_empty_fn` has the least possible size of its slot, and
an identifier pattern counts two so that replacing it with the `Invalid`
placeholder (which is not always followed by a container drop — an
invalidated function parameter stays in place) still strictly shrinks the
measure.  Consequently one analyze-plus-rewrite pass never increases the
size and any pass that sets the Run-Again flag strictly decreases it.
-/

mutual

def sizeExpr : Expr → Nat
  | .ident _ => 1
  | .lit _ => 1
  | .call c a => 1 + sizeExpr c + sizeExprs a
  | .member o _ => 1 + sizeExpr o
  | .fnE f => 1 + sizeFnExpr f

def sizeExprs : List Expr → Nat
  | [] => 0
  | e :: r => sizeExpr e + sizeExprs r

def sizeOptExpr : Option Expr → Nat
  | none => 0
  | some e => sizeExpr e

def sizeFnExpr : FnExpr → Nat
  | .mk _ f => sizeFunction f

def sizeFunction : Function → Nat
  | .mk ps body =>
    sizePats ps + (match body with
      | none => 0
      | some ss => sizeStmts ss)

def sizeStmt : Stmt → Nat
  | .decl d => 1 + sizeDecl d
  | .expr e => 1 + sizeExpr e
  | .empty => 1
  | .ret oe => 1 + sizeOptExpr oe

def sizeStmts : List Stmt → Nat
  | [] => 0
  | s :: r => sizeStmt s + sizeStmts r

def sizeDecl : Decl → Nat
  | .fnD _ f => 1 + sizeFunction f
  | .varD ds => 1 + sizeDeclarators ds

def sizeDeclarator : VarDeclarator → Nat
  | .mk n i => 1 + sizePat n + sizeOptExpr i

def sizeDeclarators : List VarDeclarator → Nat
  | [] => 0
  | d :: r => sizeDeclarator d + sizeDeclarators r

def sizePat : Pat → Nat
  | .ident _ => 2
  | .array es => 1 + sizeOptPats es
  | .object ps => 1 + sizeObjectProps ps
  | .rest a => 1 + sizePat a
  | .invalid => 1

def sizePats : List Pat → Nat
  | [] => 0
  | p :: r => sizePat p + sizePats r

def sizeOptPats : List (Option Pat) → Nat
  | [] => 0
  | none :: r => 1 + sizeOptPats r
  | some p :: r => sizePat p + sizeOptPats r

def sizeObjectProp : ObjectPatProp → Nat
  | .keyValue _ v => 1 + sizePat v
  | .assign _ v => 1 + sizeOptExpr v
  | .rest a => 1 + sizePat a

def sizeObjectProps : List ObjectPatProp → Nat
  | [] => 0
  | p :: r => sizeObjectProp p + sizeObjectProps r

end

def sizeImportSpecifiers (l : List ImportSpecifier) : Nat := l.length

def sizeExportSpecifiers (l : List ExportSpecifier) : Nat := l.length

def sizeDefaultDecl : DefaultDecl → Nat
  | .fnDD f => 1 + sizeFnExpr f

def sizeItem : ModuleItem → Nat
  | .stmtI s => sizeStmt s
  | .importI sp _ => 2 + sizeImportSpecifiers sp
  | .exportDecl d => 1 + sizeDecl d
  | .exportNamed sp _ => 2 + sizeExportSpecifiers sp
  | .exportDefaultDecl d => 1 + sizeDefaultDecl d
  | .exportDefaultExpr e => 1 + sizeExpr e

def sizeItems : ModuleAst → Nat
  | [] => 0
  | i :: r => sizeItem i + sizeItems r

/-- Embeds `swc_common::pass::Repeat` applied to a module: reset the pass
state, fold, and repeat while `changed()` reports true.  The loop is
expressed with explicit fuel; the termination theorem below shows that
`sizeItems m + 1` passes always reach a pass that reports no change. -/
def repeatLoop (fuel : Nat) (st : State) (m : ModuleAst) :
    ModuleAst × State :=
  match fuel with
  | 0 => (m, st)
  | fuel + 1 =>
    let p := RemoveExportsExprs.fold_module st.reset m
    if p.2.should_run_again then repeatLoop fuel p.2 p.1 else p

/-- Embeds `remove_export_exprs` (lines 14-22) applied to a module: the
repeated analyze-plus-rewrite pass starting from the initial state, with
fuel that the termination theorem shows to be sufficient. -/
def remove_export_exprs (remove_exports : List String) (m : ModuleAst) :
    ModuleAst :=
  (repeatLoop (sizeItems m + 1) (initialState remove_exports) m).1

/-- Joint monotonicity statement for one analyzer step: both reference
sets only grow; when `in_data_fn` is false the data set is untouched, and
when it is true the other set is untouched. -/
def ARefs (data : Bool) (st st2 : State) : Prop :=
  (∀ x, x ∈ st.refs_from_data_fn → x ∈ st2.refs_from_data_fn) ∧
  (∀ x, x ∈ st.refs_from_other → x ∈ st2.refs_from_other) ∧
  (data = false → st2.refs_from_data_fn = st.refs_from_data_fn) ∧
  (data = true → st2.refs_from_other = st.refs_from_other)

/-- Plain monotonicity of the two reference sets. -/
def MRefs (st st2 : State) : Prop :=
  (∀ x, x ∈ st.refs_from_data_fn → x ∈ st2.refs_from_data_fn) ∧
  (∀ x, x ∈ st.refs_from_other → x ∈ st2.refs_from_other)

/-!
Rewriter state facts: the rewriter never touches the transient set
OtherRefs, the Declaring Guard or the Removal Targets; the Run-Again flag
is only ever raised; DataRefs only grows.
-/

def RBasic (st st2 : State) : Prop :=
  st2.refs_from_other = st.refs_from_other ∧
  st2.cur_declaring = st.cur_declaring ∧
  st2.remove_exports = st.remove_exports ∧
  (st.should_run_again = true → st2.should_run_again = true) ∧
  (∀ x, x ∈ st.refs_from_data_fn → x ∈ st2.refs_from_data_fn)

/-!
Claim C4: which removal context the analyzer uses for an exported
variable declaration.
-/

/-- Variable declarator with an identifier name and an identifier
initializer, used to probe the analyzer's removal context. -/
def identDeclarator (p : Ident × Ident) : VarDeclarator :=
  .mk (.ident p.1) (some (.ident p.2))

/-!
Claim C6: default-export shape preservation.
-/

def isDefaultItem : ModuleItem → Bool
  | .exportDefaultDecl _ => true
  | .exportDefaultExpr _ => true
  | _ => false

/-- Number of default-export items in a module. -/
def countDefault (m : ModuleAst) : Nat := m.countP isDefaultItem

/-- The two canonical replacement forms produced for a targeted default
export. -/
def IsCanonicalDefault (i : ModuleItem) : Prop :=
  i = .exportDefaultDecl (.fnDD create_empty_fn) ∨
  i = .exportDefaultExpr (.fnE create_empty_fn)

/-!
Claim C8: the rewriter on import declarations.
-/

/-- Run-Again value produced by the import retain loop. -/
def importRunFlag (st : State) (l : List ImportSpecifier) : Bool :=
  st.should_run_again || l.any fun s => st.should_remove s.locl.toId

/-- State used by the C8 witness: "gone" is removable, "kept" is not. -/
def importWitnessState : State :=
  { refs_from_other := [], refs_from_data_fn := [("gone", 0)],
    cur_declaring := [], should_run_again := false, remove_exports := [] }

/-- Per-property statement that the second rewrite leaves an
object-pattern property's children untouched. -/
def PropIdem (lhs : Bool) (st : State) : ObjectPatProp → Prop
  | .keyValue _ v => RemoveExportsExprs.fold_pat lhs st v = (v, st)
  | .assign _ val => RemoveExportsExprs.fold_opt_expr lhs st val = (val, st)
  | .rest a => RemoveExportsExprs.fold_pat lhs st a = (a, st)

/-- Conditions under which the object-pattern property filter keeps a
property. -/
def PropKept (st : State) : ObjectPatProp → Prop
  | .keyValue _ v => v.isInvalid = false
  | .assign key _ => st.should_remove key.toId = false
  | .rest a => a.isInvalid = false

/-!
Analyzer correspondence.  `AEquiv s1 s2` relates the state of the final
pass's analyzer (`s1`) to the state of a fresh re-analysis (`s2`): the
transient set, the declaring guard and the targets agree, and the fresh
persistent set is contained in the accumulated one.  Since the analyzer's
behaviour never consults the persistent set, matched runs preserve the
relation.
-/

def AEquiv (s1 s2 : State) : Prop :=
  s2.refs_from_other = s1.refs_from_other ∧
  s2.cur_declaring = s1.cur_declaring ∧
  s2.remove_exports = s1.remove_exports ∧
  ∀ x, x ∈ s2.refs_from_data_fn → x ∈ s1.refs_from_data_fn

theorem AnalyzerPreserves.preserves_refl (st : State) : AnalyzerPreserves st st :=
  ⟨rfl, rfl, rfl⟩

theorem AnalyzerPreserves.preserves_trans {a b c : State}
    (h1 : AnalyzerPreserves a b) (h2 : AnalyzerPreserves b c) :
    AnalyzerPreserves a c :=
  ⟨h2.1.trans h1.1, h2.2.1.trans h1.2.1, h2.2.2.trans h1.2.2⟩

theorem add_ref_preserves (st : State) (data : Bool) (id : BindingId) :
    AnalyzerPreserves st (st.add_ref data id) := by
  unfold State.add_ref
  split
  · exact ⟨rfl, rfl, rfl⟩
  · split
    · exact ⟨rfl, rfl, rfl⟩
    · exact ⟨rfl, rfl, rfl⟩

mutual

theorem Analyzer.fold_expr_spec (lhs data : Bool) (st : State) (e : Expr) :
    (Analyzer.fold_expr lhs data st e).1 = e ∧
      AnalyzerPreserves st (Analyzer.fold_expr lhs data st e).2 := by
  cases e with
  | ident i => exact ⟨rfl, add_ref_preserves st data i.toId⟩
  | lit n => exact ⟨rfl, AnalyzerPreserves.preserves_refl st⟩
  | call callee args =>
    have hc := Analyzer.fold_expr_spec lhs data st callee
    have ha := Analyzer.fold_exprs_spec lhs data
      (Analyzer.fold_expr lhs data st callee).2 args
    simp only [Analyzer.fold_expr]
    exact ⟨by rw [hc.1, ha.1], hc.2.preserves_trans ha.2⟩
  | member obj prop =>
    have ho := Analyzer.fold_expr_spec lhs data st obj
    simp only [Analyzer.fold_expr]
    exact ⟨by rw [ho.1], ho.2⟩
  | fnE f =>
    have hf := Analyzer.fold_fn_expr_spec lhs data st f
    simp only [Analyzer.fold_expr]
    exact ⟨by rw [hf.1], hf.2⟩

theorem Analyzer.fold_exprs_spec (lhs data : Bool) (st : State)
    (l : List Expr) :
    (Analyzer.fold_exprs lhs data st l).1 = l ∧
      AnalyzerPreserves st (Analyzer.fold_exprs lhs data st l).2 := by
  cases l with
  | nil => exact ⟨rfl, AnalyzerPreserves.preserves_refl st⟩
  | cons e rest =>
    have he := Analyzer.fold_expr_spec lhs data st e
    have hr := Analyzer.fold_exprs_spec lhs data
      (Analyzer.fold_expr lhs data st e).2 rest
    simp only [Analyzer.fold_exprs]
    exact ⟨by rw [he.1, hr.1], he.2.preserves_trans hr.2⟩

theorem Analyzer.fold_opt_expr_spec (lhs data : Bool) (st : State)
    (oe : Option Expr) :
    (Analyzer.fold_opt_expr lhs data st oe).1 = oe ∧
      AnalyzerPreserves st (Analyzer.fold_opt_expr lhs data st oe).2 := by
  cases oe with
  | none => exact ⟨rfl, AnalyzerPreserves.preserves_refl st⟩
  | some e =>
    have he := Analyzer.fold_expr_spec lhs data st e
    simp only [Analyzer.fold_opt_expr]
    exact ⟨by rw [he.1], he.2⟩

theorem Analyzer.fold_fn_expr_spec (lhs data : Bool) (st : State)
    (f : FnExpr) :
    (Analyzer.fold_fn_expr lhs data st f).1 = f ∧
      AnalyzerPreserves st (Analyzer.fold_fn_expr lhs data st f).2 := by
  cases f with
  | mk oid fn =>
    have hf := Analyzer.fold_function_spec lhs data st fn
    cases oid with
    | none =>
      simp only [Analyzer.fold_fn_expr]
      exact ⟨by rw [hf.1], hf.2⟩
    | some id =>
      simp only [Analyzer.fold_fn_expr]
      exact ⟨by rw [hf.1],
        hf.2.preserves_trans (add_ref_preserves _ data id.toId)⟩

theorem Analyzer.fold_function_spec (lhs data : Bool) (st : State)
    (f : Function) :
    (Analyzer.fold_function lhs data st f).1 = f ∧
      AnalyzerPreserves st (Analyzer.fold_function lhs data st f).2 := by
  cases f with
  | mk params body =>
    have hp := Analyzer.fold_pats_spec lhs data st params
    cases body with
    | none =>
      simp only [Analyzer.fold_function]
      exact ⟨by rw [hp.1], hp.2⟩
    | some ss =>
      have hs := Analyzer.fold_stmts_spec lhs data
        (Analyzer.fold_pats lhs data st params).2 ss
      simp only [Analyzer.fold_function]
      exact ⟨by rw [hp.1, hs.1], hp.2.preserves_trans hs.2⟩

theorem Analyzer.fold_stmt_spec (lhs data : Bool) (st : State) (s : Stmt) :
    (Analyzer.fold_stmt lhs data st s).1 = s ∧
      AnalyzerPreserves st (Analyzer.fold_stmt lhs data st s).2 := by
  cases s with
  | decl d =>
    have hd := Analyzer.fold_decl_spec lhs data st d
    simp only [Analyzer.fold_stmt]
    exact ⟨by rw [hd.1], hd.2⟩
  | expr e =>
    have he := Analyzer.fold_expr_spec lhs data st e
    simp only [Analyzer.fold_stmt]
    exact ⟨by rw [he.1], he.2⟩
  | empty => exact ⟨rfl, AnalyzerPreserves.preserves_refl st⟩
  | ret oe =>
    have ho := Analyzer.fold_opt_expr_spec lhs data st oe
    simp only [Analyzer.fold_stmt]
    exact ⟨by rw [ho.1], ho.2⟩

theorem Analyzer.fold_stmts_spec (lhs data : Bool) (st : State)
    (l : List Stmt) :
    (Analyzer.fold_stmts lhs data st l).1 = l ∧
      AnalyzerPreserves st (Analyzer.fold_stmts lhs data st l).2 := by
  cases l with
  | nil => exact ⟨rfl, AnalyzerPreserves.preserves_refl st⟩
  | cons s rest =>
    have hs := Analyzer.fold_stmt_spec lhs data st s
    have hr := Analyzer.fold_stmts_spec lhs data
      (Analyzer.fold_stmt lhs data st s).2 rest
    simp only [Analyzer.fold_stmts]
    exact ⟨by rw [hs.1, hr.1], hs.2.preserves_trans hr.2⟩

theorem Analyzer.fold_decl_spec (lhs data : Bool) (st : State) (d : Decl) :
    (Analyzer.fold_decl lhs data st d).1 = d ∧
      AnalyzerPreserves st (Analyzer.fold_decl lhs data st d).2 := by
  cases d with
  | fnD i fn =>
    have hf := Analyzer.fold_function_spec lhs data st fn
    simp only [Analyzer.fold_decl]
    refine ⟨by rw [hf.1], ?_⟩
    cases data with
    | false => simpa using hf.2
    | true => simpa using hf.2.preserves_trans (add_ref_preserves _ true i.toId)
  | varD ds =>
    have hd := Analyzer.fold_var_declarators_spec lhs data st ds
    simp only [Analyzer.fold_decl]
    exact ⟨by rw [hd.1], hd.2⟩

theorem Analyzer.fold_var_declarator_spec (lhs data : Bool) (st : State)
    (d : VarDeclarator) :
    (Analyzer.fold_var_declarator lhs data st d).1 = d ∧
      AnalyzerPreserves st (Analyzer.fold_var_declarator lhs data st d).2 := by
  cases d with
  | mk name init =>
    have hn := Analyzer.fold_pat_spec true data st name
    have hi := Analyzer.fold_opt_expr_spec false data
      (Analyzer.fold_pat true data st name).2 init
    simp only [Analyzer.fold_var_declarator]
    exact ⟨by rw [hn.1, hi.1], hn.2.preserves_trans hi.2⟩

theorem Analyzer.fold_var_declarators_spec (lhs data : Bool) (st : State)
    (l : List VarDeclarator) :
    (Analyzer.fold_var_declarators lhs data st l).1 = l ∧
      AnalyzerPreserves st (Analyzer.fold_var_declarators lhs data st l).2 := by
  cases l with
  | nil => exact ⟨rfl, AnalyzerPreserves.preserves_refl st⟩
  | cons d rest =>
    have hd := Analyzer.fold_var_declarator_spec lhs data st d
    have hr := Analyzer.fold_var_declarators_spec lhs data
      (Analyzer.fold_var_declarator lhs data st d).2 rest
    simp only [Analyzer.fold_var_declarators]
    exact ⟨by rw [hd.1, hr.1], hd.2.preserves_trans hr.2⟩

theorem Analyzer.fold_pat_spec (lhs data : Bool) (st : State) (p : Pat) :
    (Analyzer.fold_pat lhs data st p).1 = p ∧
      AnalyzerPreserves st (Analyzer.fold_pat lhs data st p).2 := by
  cases p with
  | ident i =>
    refine ⟨rfl, ?_⟩
    simp only [Analyzer.fold_pat]
    split
    · exact add_ref_preserves st data i.toId
    · exact AnalyzerPreserves.preserves_refl st
  | array elems =>
    have he := Analyzer.fold_opt_pats_spec lhs data st elems
    simp only [Analyzer.fold_pat]
    exact ⟨by rw [he.1], he.2⟩
  | object props =>
    have hp := Analyzer.fold_object_props_spec lhs data st props
    simp only [Analyzer.fold_pat]
    exact ⟨by rw [hp.1], hp.2⟩
  | rest a =>
    have ha := Analyzer.fold_pat_spec lhs data st a
    simp only [Analyzer.fold_pat]
    exact ⟨by rw [ha.1], ha.2⟩
  | invalid => exact ⟨rfl, AnalyzerPreserves.preserves_refl st⟩

theorem Analyzer.fold_pats_spec (lhs data : Bool) (st : State)
    (l : List Pat) :
    (Analyzer.fold_pats lhs data st l).1 = l ∧
      AnalyzerPreserves st (Analyzer.fold_pats lhs data st l).2 := by
  cases l with
  | nil => exact ⟨rfl, AnalyzerPreserves.preserves_refl st⟩
  | cons p rest =>
    have hp := Analyzer.fold_pat_spec lhs data st p
    have hr := Analyzer.fold_pats_spec lhs data
      (Analyzer.fold_pat lhs data st p).2 rest
    simp only [Analyzer.fold_pats]
    exact ⟨by rw [hp.1, hr.1], hp.2.preserves_trans hr.2⟩

theorem Analyzer.fold_opt_pats_spec (lhs data : Bool) (st : State)
    (l : List (Option Pat)) :
    (Analyzer.fold_opt_pats lhs data st l).1 = l ∧
      AnalyzerPreserves st (Analyzer.fold_opt_pats lhs data st l).2 := by
  cases l with
  | nil => exact ⟨rfl, AnalyzerPreserves.preserves_refl st⟩
  | cons op rest =>
    cases op with
    | none =>
      have hr := Analyzer.fold_opt_pats_spec lhs data st rest
      simp only [Analyzer.fold_opt_pats]
      exact ⟨by rw [hr.1], hr.2⟩
    | some p =>
      have hp := Analyzer.fold_pat_spec lhs data st p
      have hr := Analyzer.fold_opt_pats_spec lhs data
        (Analyzer.fold_pat lhs data st p).2 rest
      simp only [Analyzer.fold_opt_pats]
      exact ⟨by rw [hp.1, hr.1], hp.2.preserves_trans hr.2⟩

theorem Analyzer.fold_object_props_spec (lhs data : Bool) (st : State)
    (l : List ObjectPatProp) :
    (Analyzer.fold_object_props lhs data st l).1 = l ∧
      AnalyzerPreserves st (Analyzer.fold_object_props lhs data st l).2 := by
  cases l with
  | nil => exact ⟨rfl, AnalyzerPreserves.preserves_refl st⟩
  | cons p rest =>
    cases p with
    | keyValue k v =>
      have hv := Analyzer.fold_pat_spec lhs data st v
      have hr := Analyzer.fold_object_props_spec lhs data
        (Analyzer.fold_pat lhs data st v).2 rest
      simp only [Analyzer.fold_object_props]
      exact ⟨by rw [hv.1, hr.1], hv.2.preserves_trans hr.2⟩
    | assign key val =>
      have hbase : AnalyzerPreserves st
          (if !lhs || data then st.add_ref data key.toId else st) := by
        split
        · exact add_ref_preserves st data key.toId
        · exact AnalyzerPreserves.preserves_refl st
      have hv := Analyzer.fold_opt_expr_spec lhs data
        (if !lhs || data then st.add_ref data key.toId else st) val
      have hr := Analyzer.fold_object_props_spec lhs data
        (Analyzer.fold_opt_expr lhs data
          (if !lhs || data then st.add_ref data key.toId else st) val).2 rest
      simp only [Analyzer.fold_object_props]
      exact ⟨by rw [hv.1, hr.1], (hbase.preserves_trans hv.2).preserves_trans hr.2⟩
    | rest a =>
      have ha := Analyzer.fold_pat_spec lhs data st a
      have hr := Analyzer.fold_object_props_spec lhs data
        (Analyzer.fold_pat lhs data st a).2 rest
      simp only [Analyzer.fold_object_props]
      exact ⟨by rw [ha.1, hr.1], ha.2.preserves_trans hr.2⟩

end

theorem Analyzer.fold_export_specifiers_spec (lhs data : Bool) (st : State)
    (l : List ExportSpecifier) :
    (Analyzer.fold_export_specifiers lhs data st l).1 = l ∧
      AnalyzerPreserves st (Analyzer.fold_export_specifiers lhs data st l).2 := by
  induction l generalizing st with
  | nil => exact ⟨rfl, AnalyzerPreserves.preserves_refl st⟩
  | cons s rest ih =>
    cases s with
    | namespaceS n =>
      have hr := ih st
      simp only [Analyzer.fold_export_specifiers]
      exact ⟨by rw [hr.1], hr.2⟩
    | defaultS e =>
      have hr := ih st
      simp only [Analyzer.fold_export_specifiers]
      exact ⟨by rw [hr.1], hr.2⟩
    | named o e =>
      cases o with
      | str s2 =>
        have hr := ih st
        simp only [Analyzer.fold_export_specifiers,
          Analyzer.fold_export_named_specifier]
        exact ⟨by rw [hr.1], hr.2⟩
      | ident id =>
        cases hc : st.remove_exports.contains id.sym with
        | false =>
          have hr := ih (st.add_ref data id.toId)
          simp only [Analyzer.fold_export_specifiers,
            Analyzer.fold_export_named_specifier, hc, Bool.not_false, if_true]
          exact ⟨by rw [hr.1],
            (add_ref_preserves st data id.toId).preserves_trans hr.2⟩
        | true =>
          have hr := ih st
          simp only [Analyzer.fold_export_specifiers,
            Analyzer.fold_export_named_specifier, hc, Bool.not_true,
            Bool.false_eq_true, if_false]
          exact ⟨by rw [hr.1], hr.2⟩

theorem Analyzer.fold_named_export_spec (lhs data : Bool) (st : State)
    (specifiers : List ExportSpecifier) (src : Option String) :
    (Analyzer.fold_named_export lhs data st specifiers src).1 = specifiers ∧
      AnalyzerPreserves st
        (Analyzer.fold_named_export lhs data st specifiers src).2 := by
  unfold Analyzer.fold_named_export
  split
  · exact Analyzer.fold_export_specifiers_spec lhs data st specifiers
  · exact ⟨rfl, AnalyzerPreserves.preserves_refl st⟩

theorem Analyzer.fold_export_decl_spec (lhs data : Bool) (st : State)
    (d : Decl) :
    (Analyzer.fold_export_decl lhs data st d).1 = d ∧
      AnalyzerPreserves st (Analyzer.fold_export_decl lhs data st d).2 := by
  cases d with
  | fnD i fn =>
    simp only [Analyzer.fold_export_decl]
    have hbase : ∀ st0 : State, AnalyzerPreserves st
        (if st.should_remove_identifier i = true then
          (true, st.add_ref true i.toId) else (false, st)).2 := by
      intro _
      split
      · exact add_ref_preserves st true i.toId
      · exact AnalyzerPreserves.preserves_refl st
    have hd := Analyzer.fold_decl_spec lhs
      (data || (if st.should_remove_identifier i = true then
        (true, st.add_ref true i.toId) else (false, st)).1)
      ((if st.should_remove_identifier i = true then
        (true, st.add_ref true i.toId) else (false, st)).2) (.fnD i fn)
    exact ⟨hd.1, (hbase st).preserves_trans hd.2⟩
  | varD ds =>
    cases ds with
    | nil => exact ⟨rfl, AnalyzerPreserves.preserves_refl st⟩
    | cons d0 rest =>
      simp only [Analyzer.fold_export_decl]
      have hbase : AnalyzerPreserves st
          (match d0.name with
            | .ident i =>
              if st.remove_exports.contains i.sym = true then
                (true, st.add_ref true i.toId) else (false, st)
            | _ => (false, st)).2 := by
        cases hn : d0.name <;> simp only []
        case ident i =>
          split
          · exact add_ref_preserves st true i.toId
          · exact AnalyzerPreserves.preserves_refl st
        all_goals exact AnalyzerPreserves.preserves_refl st
      have hd := Analyzer.fold_decl_spec lhs
        (data || (match d0.name with
          | .ident i =>
            if st.remove_exports.contains i.sym = true then
              (true, st.add_ref true i.toId) else (false, st)
          | _ => (false, st)).1)
        ((match d0.name with
          | .ident i =>
            if st.remove_exports.contains i.sym = true then
              (true, st.add_ref true i.toId) else (false, st)
          | _ => (false, st)).2) (.varD (d0 :: rest))
      exact ⟨hd.1, hbase.preserves_trans hd.2⟩

theorem Analyzer.fold_default_decl_spec (lhs data : Bool) (st : State)
    (d : DefaultDecl) :
    (Analyzer.fold_default_decl lhs data st d).1 = d ∧
      AnalyzerPreserves st (Analyzer.fold_default_decl lhs data st d).2 := by
  cases d with
  | fnDD f =>
    have hf := Analyzer.fold_fn_expr_spec lhs
      (if st.should_remove_default then true else data) st f
    simp only [Analyzer.fold_default_decl]
    exact ⟨by rw [hf.1], hf.2⟩

theorem Analyzer.fold_export_default_expr_spec (lhs data : Bool)
    (st : State) (e : Expr) :
    (Analyzer.fold_export_default_expr lhs data st e).1 = e ∧
      AnalyzerPreserves st
        (Analyzer.fold_export_default_expr lhs data st e).2 :=
  Analyzer.fold_expr_spec lhs _ st e

theorem analyzerItemShape_stmtI (t : List String) (s : Stmt) :
    analyzerItemShape t (.stmtI s) = .stmtI s := rfl

theorem analyzerItemShape_importI (t : List String)
    (sp : List ImportSpecifier) (src : String) :
    analyzerItemShape t (.importI sp src) = .importI sp src := rfl

theorem analyzerItemShape_exportNamed (t : List String)
    (sp : List ExportSpecifier) (src : Option String) :
    analyzerItemShape t (.exportNamed sp src) = .exportNamed sp src := rfl

theorem analyzerItemShape_exportDefaultDecl (t : List String)
    (d : DefaultDecl) :
    analyzerItemShape t (.exportDefaultDecl d) = .exportDefaultDecl d := rfl

theorem analyzerItemShape_exportDefaultExpr (t : List String) (e : Expr) :
    analyzerItemShape t (.exportDefaultExpr e) = .exportDefaultExpr e := rfl

theorem analyzerItemShape_fn (t : List String) (i : Ident) (f : Function) :
    analyzerItemShape t (.exportDecl (.fnD i f)) =
      if t.contains i.sym then .stmtI .empty
      else .exportDecl (.fnD i f) := rfl

theorem analyzerItemShape_varNil (t : List String) :
    analyzerItemShape t (.exportDecl (.varD [])) = .stmtI .empty := rfl

theorem analyzerItemShape_varCons (t : List String) (d0 : VarDeclarator)
    (rest : List VarDeclarator) :
    analyzerItemShape t (.exportDecl (.varD (d0 :: rest))) =
      .exportDecl (.varD (d0 :: rest)) := rfl

theorem Analyzer.fold_module_item_spec (lhs data : Bool) (st : State)
    (i : ModuleItem) :
    (Analyzer.fold_module_item lhs data st i).1 =
        analyzerItemShape st.remove_exports i ∧
      AnalyzerPreserves st (Analyzer.fold_module_item lhs data st i).2 := by
  cases i with
  | stmtI s =>
    have hs := Analyzer.fold_stmt_spec lhs data st s
    simp only [Analyzer.fold_module_item, analyzerItemShape_stmtI]
    exact ⟨by rw [hs.1], hs.2⟩
  | importI sp src =>
    exact ⟨rfl, AnalyzerPreserves.preserves_refl st⟩
  | exportNamed sp src =>
    have hn := Analyzer.fold_named_export_spec lhs data st sp src
    cases hsp : sp.isEmpty with
    | true =>
      simp only [Analyzer.fold_module_item, hsp, if_true,
        analyzerItemShape_exportNamed]
      exact ⟨by rw [hn.1], hn.2⟩
    | false =>
      simp only [Analyzer.fold_module_item, hsp, Bool.false_eq_true, if_false,
        hn.1, analyzerItemShape_exportNamed]
      exact ⟨by trivial, hn.2⟩
  | exportDecl d =>
    have hd := Analyzer.fold_export_decl_spec lhs data st d
    cases d with
    | fnD i fn =>
      simp only [Analyzer.fold_module_item]
      rw [hd.1]
      simp only [State.should_remove_identifier, hd.2.2.2,
        analyzerItemShape_fn]
      cases hc : st.remove_exports.contains i.sym with
      | true => simp only [hc, if_true]; exact ⟨by trivial, hd.2⟩
      | false =>
        simp only [hc, Bool.false_eq_true, if_false]
        exact ⟨by trivial, hd.2⟩
    | varD ds =>
      cases ds with
      | nil =>
        simp only [Analyzer.fold_module_item]
        rw [hd.1]
        simp only [analyzerItemShape_varNil]
        exact ⟨by trivial, hd.2⟩
      | cons d0 rest =>
        simp only [Analyzer.fold_module_item]
        rw [hd.1]
        simp only [analyzerItemShape_varCons]
        exact ⟨by trivial, hd.2⟩
  | exportDefaultDecl d =>
    have hd := Analyzer.fold_default_decl_spec lhs data st d
    simp only [Analyzer.fold_module_item, analyzerItemShape_exportDefaultDecl]
    exact ⟨by rw [hd.1], hd.2⟩
  | exportDefaultExpr e =>
    have he := Analyzer.fold_export_default_expr_spec lhs data st e
    simp only [Analyzer.fold_module_item, analyzerItemShape_exportDefaultExpr]
    exact ⟨by rw [he.1], he.2⟩

theorem Analyzer.fold_module_items_spec (lhs data : Bool) (st : State)
    (l : ModuleAst) :
    (Analyzer.fold_module_items lhs data st l).1 =
        l.map (analyzerItemShape st.remove_exports) ∧
      AnalyzerPreserves st (Analyzer.fold_module_items lhs data st l).2 := by
  induction l generalizing st with
  | nil => exact ⟨rfl, AnalyzerPreserves.preserves_refl st⟩
  | cons i rest ih =>
    have hi := Analyzer.fold_module_item_spec lhs data st i
    have hr := ih (Analyzer.fold_module_item lhs data st i).2
    simp only [Analyzer.fold_module_items, List.map]
    refine ⟨?_, hi.2.preserves_trans hr.2⟩
    rw [hi.1, hr.1, hi.2.2.2]

theorem markAsCandidateFunction_fst (st : State) (f : Function) :
    (markAsCandidateFunction st f).1 = f := by
  simp [markAsCandidateFunction, (Analyzer.fold_function_spec false true st f).1]

theorem markAsCandidateOptExpr_fst (st : State) (e : Option Expr) :
    (markAsCandidateOptExpr st e).1 = e := by
  simp [markAsCandidateOptExpr, (Analyzer.fold_opt_expr_spec false true st e).1]

/-!
Reference-set facts: membership lemmas for `insertId`/`add_ref`, and the
monotone behaviour of the analyzer's reference recording (both sets only
ever grow; with `in_data_fn` unset the data set is untouched, and with it
set the other set is untouched).
-/

theorem mem_insertId_self (id : BindingId) (l : List BindingId) :
    id ∈ insertId id l := by
  unfold insertId
  split
  · assumption
  · exact List.mem_cons_self id l

theorem mem_insertId_of_mem {x : BindingId} (id : BindingId)
    {l : List BindingId} (h : x ∈ l) : x ∈ insertId id l := by
  unfold insertId
  split
  · exact h
  · exact List.mem_cons_of_mem id h

theorem mem_insertId_iff {x id : BindingId} {l : List BindingId} :
    x ∈ insertId id l ↔ x = id ∨ x ∈ l := by
  unfold insertId
  split
  · constructor
    · exact Or.inr
    · rintro (rfl | h)
      · assumption
      · exact h
  · exact List.mem_cons

theorem ARefs.arefs_refl (data : Bool) (st : State) : ARefs data st st :=
  ⟨fun _ h => h, fun _ h => h, fun _ => rfl, fun _ => rfl⟩

theorem ARefs.arefs_trans {data : Bool} {a b c : State}
    (h1 : ARefs data a b) (h2 : ARefs data b c) : ARefs data a c :=
  ⟨fun x hx => h2.1 x (h1.1 x hx),
   fun x hx => h2.2.1 x (h1.2.1 x hx),
   fun hd => (h2.2.2.1 hd).trans (h1.2.2.1 hd),
   fun hd => (h2.2.2.2 hd).trans (h1.2.2.2 hd)⟩

theorem add_ref_arefs (st : State) (data : Bool) (id : BindingId) :
    ARefs data st (st.add_ref data id) := by
  unfold State.add_ref
  cases data with
  | true =>
    rw [if_pos rfl]
    exact ⟨fun x hx => mem_insertId_of_mem id hx, fun _ h => h,
      fun h => Bool.noConfusion h, fun _ => rfl⟩
  | false =>
    rw [if_neg Bool.false_ne_true]
    split
    · exact ARefs.arefs_refl false st
    · exact ⟨fun _ h => h, fun x hx => mem_insertId_of_mem id hx,
        fun _ => rfl, fun h => Bool.noConfusion h⟩

theorem add_ref_data_self (st : State) (id : BindingId) :
    id ∈ (st.add_ref true id).refs_from_data_fn := by
  unfold State.add_ref
  exact mem_insertId_self id _

theorem add_ref_other_self {st : State} (hdecl : st.cur_declaring = [])
    (id : BindingId) :
    id ∈ (st.add_ref false id).refs_from_other := by
  unfold State.add_ref
  simp only [Bool.false_eq_true, if_false, hdecl, List.not_mem_nil]
  exact mem_insertId_self id _

mutual

theorem Analyzer.fold_expr_refs (lhs data : Bool) (st : State) (e : Expr) :
    ARefs data st (Analyzer.fold_expr lhs data st e).2 := by
  cases e with
  | ident i => exact add_ref_arefs st data i.toId
  | lit n => exact ARefs.arefs_refl data st
  | call callee args =>
    exact (Analyzer.fold_expr_refs lhs data st callee).arefs_trans
      (Analyzer.fold_exprs_refs lhs data
        (Analyzer.fold_expr lhs data st callee).2 args)
  | member obj prop => exact Analyzer.fold_expr_refs lhs data st obj
  | fnE f => exact Analyzer.fold_fn_expr_refs lhs data st f

theorem Analyzer.fold_exprs_refs (lhs data : Bool) (st : State)
    (l : List Expr) :
    ARefs data st (Analyzer.fold_exprs lhs data st l).2 := by
  cases l with
  | nil => exact ARefs.arefs_refl data st
  | cons e rest =>
    exact (Analyzer.fold_expr_refs lhs data st e).arefs_trans
      (Analyzer.fold_exprs_refs lhs data
        (Analyzer.fold_expr lhs data st e).2 rest)

theorem Analyzer.fold_opt_expr_refs (lhs data : Bool) (st : State)
    (oe : Option Expr) :
    ARefs data st (Analyzer.fold_opt_expr lhs data st oe).2 := by
  cases oe with
  | none => exact ARefs.arefs_refl data st
  | some e => exact Analyzer.fold_expr_refs lhs data st e

theorem Analyzer.fold_fn_expr_refs (lhs data : Bool) (st : State)
    (f : FnExpr) :
    ARefs data st (Analyzer.fold_fn_expr lhs data st f).2 := by
  cases f with
  | mk oid fn =>
    have hf := Analyzer.fold_function_refs lhs data st fn
    cases oid with
    | none => exact hf
    | some id =>
      exact hf.arefs_trans (add_ref_arefs _ data id.toId)

theorem Analyzer.fold_function_refs (lhs data : Bool) (st : State)
    (f : Function) :
    ARefs data st (Analyzer.fold_function lhs data st f).2 := by
  cases f with
  | mk params body =>
    have hp := Analyzer.fold_pats_refs lhs data st params
    cases body with
    | none => exact hp
    | some ss =>
      exact hp.arefs_trans (Analyzer.fold_stmts_refs lhs data
        (Analyzer.fold_pats lhs data st params).2 ss)

theorem Analyzer.fold_stmt_refs (lhs data : Bool) (st : State) (s : Stmt) :
    ARefs data st (Analyzer.fold_stmt lhs data st s).2 := by
  cases s with
  | decl d => exact Analyzer.fold_decl_refs lhs data st d
  | expr e => exact Analyzer.fold_expr_refs lhs data st e
  | empty => exact ARefs.arefs_refl data st
  | ret oe => exact Analyzer.fold_opt_expr_refs lhs data st oe

theorem Analyzer.fold_stmts_refs (lhs data : Bool) (st : State)
    (l : List Stmt) :
    ARefs data st (Analyzer.fold_stmts lhs data st l).2 := by
  cases l with
  | nil => exact ARefs.arefs_refl data st
  | cons s rest =>
    exact (Analyzer.fold_stmt_refs lhs data st s).arefs_trans
      (Analyzer.fold_stmts_refs lhs data
        (Analyzer.fold_stmt lhs data st s).2 rest)

theorem Analyzer.fold_decl_refs (lhs data : Bool) (st : State) (d : Decl) :
    ARefs data st (Analyzer.fold_decl lhs data st d).2 := by
  cases d with
  | fnD i fn =>
    have hf := Analyzer.fold_function_refs lhs data st fn
    simp only [Analyzer.fold_decl]
    cases data with
    | false => simpa using hf
    | true => simpa using hf.arefs_trans (add_ref_arefs _ true i.toId)
  | varD ds => exact Analyzer.fold_var_declarators_refs lhs data st ds

theorem Analyzer.fold_var_declarator_refs (lhs data : Bool) (st : State)
    (d : VarDeclarator) :
    ARefs data st (Analyzer.fold_var_declarator lhs data st d).2 := by
  cases d with
  | mk name init =>
    exact (Analyzer.fold_pat_refs true data st name).arefs_trans
      (Analyzer.fold_opt_expr_refs false data
        (Analyzer.fold_pat true data st name).2 init)

theorem Analyzer.fold_var_declarators_refs (lhs data : Bool) (st : State)
    (l : List VarDeclarator) :
    ARefs data st (Analyzer.fold_var_declarators lhs data st l).2 := by
  cases l with
  | nil => exact ARefs.arefs_refl data st
  | cons d rest =>
    exact (Analyzer.fold_var_declarator_refs lhs data st d).arefs_trans
      (Analyzer.fold_var_declarators_refs lhs data
        (Analyzer.fold_var_declarator lhs data st d).2 rest)

theorem Analyzer.fold_pat_refs (lhs data : Bool) (st : State) (p : Pat) :
    ARefs data st (Analyzer.fold_pat lhs data st p).2 := by
  cases p with
  | ident i =>
    simp only [Analyzer.fold_pat]
    split
    · exact add_ref_arefs st data i.toId
    · exact ARefs.arefs_refl data st
  | array elems => exact Analyzer.fold_opt_pats_refs lhs data st elems
  | object props => exact Analyzer.fold_object_props_refs lhs data st props
  | rest a => exact Analyzer.fold_pat_refs lhs data st a
  | invalid => exact ARefs.arefs_refl data st

theorem Analyzer.fold_pats_refs (lhs data : Bool) (st : State)
    (l : List Pat) :
    ARefs data st (Analyzer.fold_pats lhs data st l).2 := by
  cases l with
  | nil => exact ARefs.arefs_refl data st
  | cons p rest =>
    exact (Analyzer.fold_pat_refs lhs data st p).arefs_trans
      (Analyzer.fold_pats_refs lhs data
        (Analyzer.fold_pat lhs data st p).2 rest)

theorem Analyzer.fold_opt_pats_refs (lhs data : Bool) (st : State)
    (l : List (Option Pat)) :
    ARefs data st (Analyzer.fold_opt_pats lhs data st l).2 := by
  cases l with
  | nil => exact ARefs.arefs_refl data st
  | cons op rest =>
    cases op with
    | none => exact Analyzer.fold_opt_pats_refs lhs data st rest
    | some p =>
      exact (Analyzer.fold_pat_refs lhs data st p).arefs_trans
        (Analyzer.fold_opt_pats_refs lhs data
          (Analyzer.fold_pat lhs data st p).2 rest)

theorem Analyzer.fold_object_props_refs (lhs data : Bool) (st : State)
    (l : List ObjectPatProp) :
    ARefs data st (Analyzer.fold_object_props lhs data st l).2 := by
  cases l with
  | nil => exact ARefs.arefs_refl data st
  | cons p rest =>
    cases p with
    | keyValue k v =>
      exact (Analyzer.fold_pat_refs lhs data st v).arefs_trans
        (Analyzer.fold_object_props_refs lhs data
          (Analyzer.fold_pat lhs data st v).2 rest)
    | assign key val =>
      have hbase : ARefs data st
          (if !lhs || data then st.add_ref data key.toId else st) := by
        split
        · exact add_ref_arefs st data key.toId
        · exact ARefs.arefs_refl data st
      exact (hbase.arefs_trans (Analyzer.fold_opt_expr_refs lhs data _ val)).arefs_trans
        (Analyzer.fold_object_props_refs lhs data _ rest)
    | rest a =>
      exact (Analyzer.fold_pat_refs lhs data st a).arefs_trans
        (Analyzer.fold_object_props_refs lhs data
          (Analyzer.fold_pat lhs data st a).2 rest)

end

theorem MRefs.mrefs_refl (st : State) : MRefs st st :=
  ⟨fun _ h => h, fun _ h => h⟩

theorem MRefs.mrefs_trans {a b c : State} (h1 : MRefs a b) (h2 : MRefs b c) :
    MRefs a c :=
  ⟨fun x hx => h2.1 x (h1.1 x hx), fun x hx => h2.2 x (h1.2 x hx)⟩

theorem ARefs.mrefs {data : Bool} {st st2 : State} (h : ARefs data st st2) :
    MRefs st st2 :=
  ⟨h.1, h.2.1⟩

theorem add_ref_mrefs (st : State) (data : Bool) (id : BindingId) :
    MRefs st (st.add_ref data id) :=
  (add_ref_arefs st data id).mrefs

theorem Analyzer.fold_export_specifiers_mono (lhs data : Bool) (st : State)
    (l : List ExportSpecifier) :
    MRefs st (Analyzer.fold_export_specifiers lhs data st l).2 := by
  induction l generalizing st with
  | nil => exact MRefs.mrefs_refl st
  | cons s rest ih =>
    cases s with
    | namespaceS n => exact ih st
    | defaultS e => exact ih st
    | named o e =>
      cases o with
      | str s2 =>
        simp only [Analyzer.fold_export_specifiers,
          Analyzer.fold_export_named_specifier]
        exact ih st
      | ident id =>
        simp only [Analyzer.fold_export_specifiers,
          Analyzer.fold_export_named_specifier]
        split
        · exact (add_ref_mrefs st data id.toId).mrefs_trans (ih _)
        · exact ih st

theorem Analyzer.fold_named_export_mono (lhs data : Bool) (st : State)
    (specifiers : List ExportSpecifier) (src : Option String) :
    MRefs st (Analyzer.fold_named_export lhs data st specifiers src).2 := by
  unfold Analyzer.fold_named_export
  split
  · exact Analyzer.fold_export_specifiers_mono lhs data st specifiers
  · exact MRefs.mrefs_refl st

theorem Analyzer.fold_export_decl_mono (lhs data : Bool) (st : State)
    (d : Decl) :
    MRefs st (Analyzer.fold_export_decl lhs data st d).2 := by
  cases d with
  | fnD i fn =>
    simp only [Analyzer.fold_export_decl]
    have hbase : MRefs st
        (if st.should_remove_identifier i = true then
          (true, st.add_ref true i.toId) else (false, st)).2 := by
      split
      · exact add_ref_mrefs st true i.toId
      · exact MRefs.mrefs_refl st
    exact hbase.mrefs_trans (Analyzer.fold_decl_refs lhs _ _ (.fnD i fn)).mrefs
  | varD ds =>
    cases ds with
    | nil => exact MRefs.mrefs_refl st
    | cons d0 rest =>
      simp only [Analyzer.fold_export_decl]
      have hbase : MRefs st
          (match d0.name with
            | .ident i =>
              if st.remove_exports.contains i.sym = true then
                (true, st.add_ref true i.toId) else (false, st)
            | _ => (false, st)).2 := by
        cases d0.name <;> simp only []
        case ident i =>
          split
          · exact add_ref_mrefs st true i.toId
          · exact MRefs.mrefs_refl st
        all_goals exact MRefs.mrefs_refl st
      exact hbase.mrefs_trans
        (Analyzer.fold_decl_refs lhs _ _ (.varD (d0 :: rest))).mrefs

theorem Analyzer.fold_default_decl_mono (lhs data : Bool) (st : State)
    (d : DefaultDecl) :
    MRefs st (Analyzer.fold_default_decl lhs data st d).2 := by
  cases d with
  | fnDD f => exact (Analyzer.fold_fn_expr_refs lhs _ st f).mrefs

theorem Analyzer.fold_export_default_expr_mono (lhs data : Bool)
    (st : State) (e : Expr) :
    MRefs st (Analyzer.fold_export_default_expr lhs data st e).2 :=
  (Analyzer.fold_expr_refs lhs _ st e).mrefs

theorem Analyzer.fold_module_item_mono (lhs data : Bool) (st : State)
    (i : ModuleItem) :
    MRefs st (Analyzer.fold_module_item lhs data st i).2 := by
  cases i with
  | stmtI s => exact (Analyzer.fold_stmt_refs lhs data st s).mrefs
  | importI sp src => exact MRefs.mrefs_refl st
  | exportNamed sp src =>
    have hn := Analyzer.fold_named_export_mono lhs data st sp src
    simp only [Analyzer.fold_module_item]
    cases hsp : sp.isEmpty with
    | true => simpa [hsp] using hn
    | false =>
      cases hemp : (Analyzer.fold_named_export lhs data st sp src).1.isEmpty with
      | true => simpa [hsp, hemp] using hn
      | false => simpa [hsp, hemp] using hn
  | exportDecl d =>
    have hd := Analyzer.fold_export_decl_mono lhs data st d
    simp only [Analyzer.fold_module_item]
    split
    · split <;> exact hd
    · exact hd
    · exact hd
  | exportDefaultDecl d => exact Analyzer.fold_default_decl_mono lhs data st d
  | exportDefaultExpr e =>
    exact Analyzer.fold_export_default_expr_mono lhs data st e

theorem Analyzer.fold_module_items_mono (lhs data : Bool) (st : State)
    (l : ModuleAst) :
    MRefs st (Analyzer.fold_module_items lhs data st l).2 := by
  induction l generalizing st with
  | nil => exact MRefs.mrefs_refl st
  | cons i rest ih =>
    exact (Analyzer.fold_module_item_mono lhs data st i).mrefs_trans
      (ih (Analyzer.fold_module_item lhs data st i).2)

theorem RBasic.rbasic_refl (st : State) : RBasic st st :=
  ⟨rfl, rfl, rfl, fun h => h, fun _ h => h⟩

theorem RBasic.rbasic_trans {a b c : State} (h1 : RBasic a b) (h2 : RBasic b c) :
    RBasic a c :=
  ⟨h2.1.trans h1.1, h2.2.1.trans h1.2.1, h2.2.2.1.trans h1.2.2.1,
   fun h => h2.2.2.2.1 (h1.2.2.2.1 h),
   fun x hx => h2.2.2.2.2 x (h1.2.2.2.2 x hx)⟩

theorem set_run_rbasic (st : State) :
    RBasic st { st with should_run_again := true } :=
  ⟨rfl, rfl, rfl, fun _ => rfl, fun _ h => h⟩

theorem markAsCandidateFunction_rbasic (st : State) (f : Function) :
    RBasic st (markAsCandidateFunction st f).2 := by
  unfold markAsCandidateFunction
  have ha := Analyzer.fold_function_refs false true st f
  have hp := Analyzer.fold_function_spec false true st f
  exact ⟨ha.2.2.2 rfl, hp.2.1, hp.2.2.2, fun _ => rfl, fun x hx => ha.1 x hx⟩

theorem markAsCandidateOptExpr_rbasic (st : State) (e : Option Expr) :
    RBasic st (markAsCandidateOptExpr st e).2 := by
  unfold markAsCandidateOptExpr
  have ha := Analyzer.fold_opt_expr_refs false true st e
  have hp := Analyzer.fold_opt_expr_spec false true st e
  exact ⟨ha.2.2.2 rfl, hp.2.1, hp.2.2.2, fun _ => rfl, fun x hx => ha.1 x hx⟩

theorem RemoveExportsExprs.object_props_filter_rbasic (st : State)
    (l : List ObjectPatProp) :
    RBasic st (RemoveExportsExprs.object_props_filter st l).2 := by
  induction l generalizing st with
  | nil => exact RBasic.rbasic_refl st
  | cons p rest ih =>
    cases p with
    | keyValue k v =>
      simp only [RemoveExportsExprs.object_props_filter]
      split
      · exact ih st
      · exact ih st
    | assign key val =>
      simp only [RemoveExportsExprs.object_props_filter]
      split
      · exact (markAsCandidateOptExpr_rbasic st val).rbasic_trans (ih _)
      · exact ih st
    | rest a =>
      simp only [RemoveExportsExprs.object_props_filter]
      split
      · exact ih st
      · exact ih st

mutual

theorem RemoveExportsExprs.fold_expr_rbasic (lhs : Bool) (st : State)
    (e : Expr) : RBasic st (RemoveExportsExprs.fold_expr lhs st e).2 := by
  cases e with
  | ident i => exact RBasic.rbasic_refl st
  | lit n => exact RBasic.rbasic_refl st
  | call callee args =>
    exact (RemoveExportsExprs.fold_expr_rbasic lhs st callee).rbasic_trans
      (RemoveExportsExprs.fold_exprs_rbasic lhs
        (RemoveExportsExprs.fold_expr lhs st callee).2 args)
  | member obj prop => exact RemoveExportsExprs.fold_expr_rbasic lhs st obj
  | fnE f => exact RemoveExportsExprs.fold_fn_expr_rbasic lhs st f

theorem RemoveExportsExprs.fold_exprs_rbasic (lhs : Bool) (st : State)
    (l : List Expr) :
    RBasic st (RemoveExportsExprs.fold_exprs lhs st l).2 := by
  cases l with
  | nil => exact RBasic.rbasic_refl st
  | cons e rest =>
    exact (RemoveExportsExprs.fold_expr_rbasic lhs st e).rbasic_trans
      (RemoveExportsExprs.fold_exprs_rbasic lhs
        (RemoveExportsExprs.fold_expr lhs st e).2 rest)

theorem RemoveExportsExprs.fold_opt_expr_rbasic (lhs : Bool) (st : State)
    (oe : Option Expr) :
    RBasic st (RemoveExportsExprs.fold_opt_expr lhs st oe).2 := by
  cases oe with
  | none => exact RBasic.rbasic_refl st
  | some e => exact RemoveExportsExprs.fold_expr_rbasic lhs st e

theorem RemoveExportsExprs.fold_fn_expr_rbasic (lhs : Bool) (st : State)
    (f : FnExpr) :
    RBasic st (RemoveExportsExprs.fold_fn_expr lhs st f).2 := by
  cases f with
  | mk oid fn => exact RemoveExportsExprs.fold_function_rbasic lhs st fn

theorem RemoveExportsExprs.fold_function_rbasic (lhs : Bool) (st : State)
    (f : Function) :
    RBasic st (RemoveExportsExprs.fold_function lhs st f).2 := by
  cases f with
  | mk params body =>
    have hp := RemoveExportsExprs.fold_pats_rbasic lhs st params
    cases body with
    | none => exact hp
    | some ss =>
      exact hp.rbasic_trans (RemoveExportsExprs.fold_stmts_rbasic lhs
        (RemoveExportsExprs.fold_pats lhs st params).2 ss)

theorem RemoveExportsExprs.fold_stmt_rbasic (lhs : Bool) (st : State)
    (s : Stmt) : RBasic st (RemoveExportsExprs.fold_stmt lhs st s).2 := by
  cases s with
  | decl d =>
    cases d with
    | fnD i fn =>
      simp only [RemoveExportsExprs.fold_stmt]
      split
      · exact markAsCandidateFunction_rbasic st fn
      · exact RemoveExportsExprs.fold_function_rbasic lhs st fn
    | varD ds =>
      simp only [RemoveExportsExprs.fold_stmt]
      split
      · exact RemoveExportsExprs.fold_var_declarators_rbasic lhs st ds
      · exact RemoveExportsExprs.fold_var_declarators_rbasic lhs st ds
  | expr e => exact RemoveExportsExprs.fold_expr_rbasic lhs st e
  | empty => exact RBasic.rbasic_refl st
  | ret oe => exact RemoveExportsExprs.fold_opt_expr_rbasic lhs st oe

theorem RemoveExportsExprs.fold_stmts_rbasic (lhs : Bool) (st : State)
    (l : List Stmt) :
    RBasic st (RemoveExportsExprs.fold_stmts lhs st l).2 := by
  cases l with
  | nil => exact RBasic.rbasic_refl st
  | cons s rest =>
    exact (RemoveExportsExprs.fold_stmt_rbasic lhs st s).rbasic_trans
      (RemoveExportsExprs.fold_stmts_rbasic lhs
        (RemoveExportsExprs.fold_stmt lhs st s).2 rest)

theorem RemoveExportsExprs.fold_var_declarator_rbasic (lhs : Bool)
    (st : State) (d : VarDeclarator) :
    RBasic st (RemoveExportsExprs.fold_var_declarator lhs st d).2 := by
  cases d with
  | mk name init =>
    have h1 := RemoveExportsExprs.fold_pat_rbasic true st name
    have h2 : RBasic (RemoveExportsExprs.fold_pat true st name).2
        (if (RemoveExportsExprs.fold_pat true st name).1.isInvalid then
          markAsCandidateOptExpr (RemoveExportsExprs.fold_pat true st name).2 init
         else (init, (RemoveExportsExprs.fold_pat true st name).2)).2 := by
      split
      · exact markAsCandidateOptExpr_rbasic _ init
      · exact RBasic.rbasic_refl _
    exact (h1.rbasic_trans h2).rbasic_trans
      (RemoveExportsExprs.fold_opt_expr_rbasic false _ init)

theorem RemoveExportsExprs.fold_var_declarators_rbasic (lhs : Bool)
    (st : State) (l : List VarDeclarator) :
    RBasic st (RemoveExportsExprs.fold_var_declarators lhs st l).2 := by
  cases l with
  | nil => exact RBasic.rbasic_refl st
  | cons d rest =>
    exact (RemoveExportsExprs.fold_var_declarator_rbasic lhs st d).rbasic_trans
      (RemoveExportsExprs.fold_var_declarators_rbasic lhs
        (RemoveExportsExprs.fold_var_declarator lhs st d).2 rest)

theorem RemoveExportsExprs.fold_pat_rbasic (lhs : Bool) (st : State)
    (p : Pat) : RBasic st (RemoveExportsExprs.fold_pat lhs st p).2 := by
  cases p with
  | ident i =>
    simp only [RemoveExportsExprs.fold_pat]
    split
    · exact set_run_rbasic st
    · exact RBasic.rbasic_refl st
  | array elems =>
    have h := RemoveExportsExprs.fold_opt_pats_rbasic lhs st elems
    simp only [RemoveExportsExprs.fold_pat]
    split
    · split
      · exact h
      · split
        · exact h
        · exact h
    · exact h
  | object props =>
    have h := RemoveExportsExprs.fold_object_props_rbasic lhs st props
    have h2 := RemoveExportsExprs.object_props_filter_rbasic
      (RemoveExportsExprs.fold_object_props lhs st props).2
      (RemoveExportsExprs.fold_object_props lhs st props).1
    simp only [RemoveExportsExprs.fold_pat]
    split
    · split
      · exact h
      · split
        · exact h.rbasic_trans h2
        · exact h.rbasic_trans h2
    · exact h
  | rest a =>
    have h := RemoveExportsExprs.fold_pat_rbasic lhs st a
    simp only [RemoveExportsExprs.fold_pat]
    split
    · exact h
    · exact h
  | invalid => exact RBasic.rbasic_refl st

theorem RemoveExportsExprs.fold_pats_rbasic (lhs : Bool) (st : State)
    (l : List Pat) :
    RBasic st (RemoveExportsExprs.fold_pats lhs st l).2 := by
  cases l with
  | nil => exact RBasic.rbasic_refl st
  | cons p rest =>
    exact (RemoveExportsExprs.fold_pat_rbasic lhs st p).rbasic_trans
      (RemoveExportsExprs.fold_pats_rbasic lhs
        (RemoveExportsExprs.fold_pat lhs st p).2 rest)

theorem RemoveExportsExprs.fold_opt_pats_rbasic (lhs : Bool) (st : State)
    (l : List (Option Pat)) :
    RBasic st (RemoveExportsExprs.fold_opt_pats lhs st l).2 := by
  cases l with
  | nil => exact RBasic.rbasic_refl st
  | cons op rest =>
    cases op with
    | none => exact RemoveExportsExprs.fold_opt_pats_rbasic lhs st rest
    | some p =>
      exact (RemoveExportsExprs.fold_pat_rbasic lhs st p).rbasic_trans
        (RemoveExportsExprs.fold_opt_pats_rbasic lhs
          (RemoveExportsExprs.fold_pat lhs st p).2 rest)

theorem RemoveExportsExprs.fold_object_props_rbasic (lhs : Bool)
    (st : State) (l : List ObjectPatProp) :
    RBasic st (RemoveExportsExprs.fold_object_props lhs st l).2 := by
  cases l with
  | nil => exact RBasic.rbasic_refl st
  | cons p rest =>
    cases p with
    | keyValue k v =>
      exact (RemoveExportsExprs.fold_pat_rbasic lhs st v).rbasic_trans
        (RemoveExportsExprs.fold_object_props_rbasic lhs
          (RemoveExportsExprs.fold_pat lhs st v).2 rest)
    | assign key val =>
      exact (RemoveExportsExprs.fold_opt_expr_rbasic lhs st val).rbasic_trans
        (RemoveExportsExprs.fold_object_props_rbasic lhs
          (RemoveExportsExprs.fold_opt_expr lhs st val).2 rest)
    | rest a =>
      exact (RemoveExportsExprs.fold_pat_rbasic lhs st a).rbasic_trans
        (RemoveExportsExprs.fold_object_props_rbasic lhs
          (RemoveExportsExprs.fold_pat lhs st a).2 rest)

end

theorem RemoveExportsExprs.fold_decl_rbasic (lhs : Bool) (st : State)
    (d : Decl) : RBasic st (RemoveExportsExprs.fold_decl lhs st d).2 := by
  cases d with
  | fnD i fn => exact RemoveExportsExprs.fold_function_rbasic lhs st fn
  | varD ds => exact RemoveExportsExprs.fold_var_declarators_rbasic lhs st ds

theorem RemoveExportsExprs.import_specifiers_retain_rbasic (st : State)
    (l : List ImportSpecifier) :
    RBasic st (RemoveExportsExprs.import_specifiers_retain st l).2 := by
  induction l generalizing st with
  | nil => exact RBasic.rbasic_refl st
  | cons s rest ih =>
    simp only [RemoveExportsExprs.import_specifiers_retain]
    split
    · exact (set_run_rbasic st).rbasic_trans (ih _)
    · exact ih st

theorem RemoveExportsExprs.fold_import_decl_rbasic (st : State)
    (l : List ImportSpecifier) :
    RBasic st (RemoveExportsExprs.fold_import_decl st l).2 := by
  unfold RemoveExportsExprs.fold_import_decl
  split
  · exact RBasic.rbasic_refl st
  · exact RemoveExportsExprs.import_specifiers_retain_rbasic st l

theorem RemoveExportsExprs.export_specifiers_retain_rbasic (st : State)
    (l : List ExportSpecifier) :
    RBasic st (RemoveExportsExprs.export_specifiers_retain st l).2 := by
  induction l generalizing st with
  | nil => exact RBasic.rbasic_refl st
  | cons s rest ih =>
    simp only [RemoveExportsExprs.export_specifiers_retain]
    split
    · exact ih st
    · cases s with
      | named o e =>
        cases o with
        | ident orig =>
          have hstep : RBasic st
              { st with
                should_run_again := true
                refs_from_data_fn := insertId orig.toId st.refs_from_data_fn } :=
            ⟨rfl, rfl, rfl, fun _ => rfl,
             fun x hx => mem_insertId_of_mem _ hx⟩
          exact hstep.rbasic_trans (ih _)
        | str s2 => exact ih st
      | namespaceS n => exact ih st
      | defaultS e2 => exact ih st

theorem RemoveExportsExprs.fold_named_export_rbasic (st : State)
    (l : List ExportSpecifier) :
    RBasic st (RemoveExportsExprs.fold_named_export st l).2 :=
  RemoveExportsExprs.export_specifiers_retain_rbasic st l

theorem RemoveExportsExprs.fold_default_decl_rbasic (st : State)
    (d : DefaultDecl) :
    RBasic st (RemoveExportsExprs.fold_default_decl st d).2 := by
  unfold RemoveExportsExprs.fold_default_decl
  split
  · exact RBasic.rbasic_refl st
  · exact RBasic.rbasic_refl st

theorem RemoveExportsExprs.fold_export_default_expr_rbasic (st : State)
    (e : Expr) :
    RBasic st (RemoveExportsExprs.fold_export_default_expr st e).2 := by
  unfold RemoveExportsExprs.fold_export_default_expr
  split
  · exact RBasic.rbasic_refl st
  · exact RBasic.rbasic_refl st

theorem RemoveExportsExprs.fold_module_item_rbasic (lhs : Bool) (st : State)
    (i : ModuleItem) :
    RBasic st (RemoveExportsExprs.fold_module_item lhs st i).2 := by
  cases i with
  | stmtI s => exact RemoveExportsExprs.fold_stmt_rbasic lhs st s
  | importI sp src =>
    have h := RemoveExportsExprs.fold_import_decl_rbasic st sp
    simp only [RemoveExportsExprs.fold_module_item]
    split
    · exact h
    · exact h
  | exportDecl d => exact RemoveExportsExprs.fold_decl_rbasic lhs st d
  | exportNamed sp src =>
    have h := RemoveExportsExprs.fold_named_export_rbasic st sp
    simp only [RemoveExportsExprs.fold_module_item]
    split
    · exact h
    · exact h
  | exportDefaultDecl d => exact RemoveExportsExprs.fold_default_decl_rbasic st d
  | exportDefaultExpr e =>
    exact RemoveExportsExprs.fold_export_default_expr_rbasic st e

theorem RemoveExportsExprs.fold_module_items_rbasic (lhs : Bool)
    (st : State) (l : ModuleAst) :
    RBasic st (RemoveExportsExprs.fold_module_items lhs st l).2 := by
  induction l generalizing st with
  | nil => exact RBasic.rbasic_refl st
  | cons i rest ih =>
    exact (RemoveExportsExprs.fold_module_item_rbasic lhs st i).rbasic_trans
      (ih (RemoveExportsExprs.fold_module_item lhs st i).2)

/-!
Claim C2: the removability test.
-/

/-- C2: the rewriter's removability test returns true exactly when the
identity is in the persistent set DataRefs and not in the transient set
OtherRefs; consequently an identity present in both sets is never removed:
the identifier-pattern rule keeps such a binding and leaves the state
untouched (OtherRefs wins over DataRefs). -/
theorem claim_C2 (st : State) (id : BindingId) (i : Ident)
    (hboth : i.toId ∈ st.refs_from_data_fn ∧ i.toId ∈ st.refs_from_other) :
    (st.should_remove id = true ↔
      id ∈ st.refs_from_data_fn ∧ id ∉ st.refs_from_other) ∧
    RemoveExportsExprs.fold_pat true st (.ident i) = (.ident i, st) := by
  constructor
  · unfold State.should_remove
    simp [List.elem_iff]
  · have hsr : st.should_remove i.toId = false := by
      unfold State.should_remove
      simp [List.elem_iff]
      intro _
      exact hboth.2
    simp [RemoveExportsExprs.fold_pat, hsr]

/-- Witness for C2 at a concrete state where the identity sits in both
sets. -/
theorem claim_C2_witness :
    (({ refs_from_other := [("a", 0)], refs_from_data_fn := [("a", 0)],
        cur_declaring := [], should_run_again := false,
        remove_exports := [] } : State).should_remove ("b", 1) = true ↔
      ("b", 1) ∈ [(("a", 0) : BindingId)] ∧
      ("b", 1) ∉ [(("a", 0) : BindingId)]) ∧
    RemoveExportsExprs.fold_pat true
      { refs_from_other := [("a", 0)], refs_from_data_fn := [("a", 0)],
        cur_declaring := [], should_run_again := false, remove_exports := [] }
      (.ident ⟨"a", 0⟩) =
      (.ident ⟨"a", 0⟩,
       { refs_from_other := [("a", 0)], refs_from_data_fn := [("a", 0)],
         cur_declaring := [], should_run_again := false,
         remove_exports := [] }) :=
  claim_C2 _ ("b", 1) ⟨"a", 0⟩ ⟨by decide, by decide⟩

/-!
Claim C1: what the analyzer does to the tree.
-/

/-- C1 fails on the code: the Analyzer does not return the module
unchanged.  On the module `export function tgt() {}` with Removal Target
"tgt", `Analyzer::fold_module_item` (lib.rs lines 218-228) replaces the
exported function declaration with an empty statement. -/
theorem claim_C1_counterexample :
    (Analyzer.fold_module_items false false (initialState ["tgt"])
      [ModuleItem.exportDecl (.fnD ⟨"tgt", 0⟩ (.mk [] (some [])))]).1 ≠
    [ModuleItem.exportDecl (.fnD ⟨"tgt", 0⟩ (.mk [] (some [])))] := by
  intro h
  have h2 : [ModuleItem.stmtI .empty] =
      [ModuleItem.exportDecl (.fnD ⟨"tgt", 0⟩ (.mk [] (some [])))] := h
  injection h2 with h3 h4
  exact ModuleItem.noConfusion h3

/-- C1 (amended): the analyzer records references into the two sets and
returns every module item unchanged, except that an exported function
declaration whose name matches a Removal Target, and an exported variable
declaration with no declarators, are replaced by empty statements; below
the module-item level the tree is never altered, and the traversal never
touches the Declaring Guard, the Run-Again flag or the Removal Targets. -/
theorem claim_C1 (lhs data : Bool) (st : State) (m : ModuleAst) :
    (Analyzer.fold_module_items lhs data st m).1 =
      m.map (analyzerItemShape st.remove_exports) ∧
    (Analyzer.fold_module_items lhs data st m).2.cur_declaring =
      st.cur_declaring ∧
    (Analyzer.fold_module_items lhs data st m).2.should_run_again =
      st.should_run_again ∧
    (Analyzer.fold_module_items lhs data st m).2.remove_exports =
      st.remove_exports :=
  ⟨(Analyzer.fold_module_items_spec lhs data st m).1,
   (Analyzer.fold_module_items_spec lhs data st m).2⟩

theorem analyzer_declarator_data (lhs : Bool) (st : State) (n x : Ident) :
    (Analyzer.fold_var_declarator lhs true st (identDeclarator (n, x))).2 =
      (st.add_ref true n.toId).add_ref true x.toId := by
  simp [identDeclarator, Analyzer.fold_var_declarator, Analyzer.fold_pat,
    Analyzer.fold_opt_expr, Analyzer.fold_expr]

theorem analyzer_declarator_other (lhs : Bool) (st : State) (n x : Ident) :
    (Analyzer.fold_var_declarator lhs false st (identDeclarator (n, x))).2 =
      st.add_ref false x.toId := by
  simp [identDeclarator, Analyzer.fold_var_declarator, Analyzer.fold_pat,
    Analyzer.fold_opt_expr, Analyzer.fold_expr]

theorem analyzer_declarators_data (lhs : Bool) (st : State)
    (pairs : List (Ident × Ident)) :
    ∀ p ∈ pairs, p.2.toId ∈
      (Analyzer.fold_var_declarators lhs true st
        (pairs.map identDeclarator)).2.refs_from_data_fn := by
  induction pairs generalizing st with
  | nil => intro p hp; cases hp
  | cons q rest ih =>
    intro p hp
    simp only [List.map, Analyzer.fold_var_declarators]
    rcases List.mem_cons.mp hp with rfl | hmem
    · have hq : p.2.toId ∈
          (Analyzer.fold_var_declarator lhs true st
            (identDeclarator p)).2.refs_from_data_fn := by
        rcases p with ⟨n, x⟩
        rw [analyzer_declarator_data]
        exact add_ref_data_self _ _
      exact (Analyzer.fold_var_declarators_refs lhs true _
        (rest.map identDeclarator)).1 _ hq
    · exact ih _ p hmem

theorem analyzer_declarators_other (lhs : Bool) (st : State)
    (hdecl : st.cur_declaring = []) (pairs : List (Ident × Ident)) :
    ∀ p ∈ pairs, p.2.toId ∈
      (Analyzer.fold_var_declarators lhs false st
        (pairs.map identDeclarator)).2.refs_from_other := by
  induction pairs generalizing st with
  | nil => intro p hp; cases hp
  | cons q rest ih =>
    intro p hp
    simp only [List.map, Analyzer.fold_var_declarators]
    rcases List.mem_cons.mp hp with rfl | hmem
    · have hq : p.2.toId ∈
          (Analyzer.fold_var_declarator lhs false st
            (identDeclarator p)).2.refs_from_other := by
        rcases p with ⟨n, x⟩
        rw [analyzer_declarator_other]
        exact add_ref_other_self hdecl _
      exact (Analyzer.fold_var_declarators_refs lhs false _
        (rest.map identDeclarator)).2.1 _ hq
    · have hdecl2 : (Analyzer.fold_var_declarator lhs false st
          (identDeclarator q)).2.cur_declaring = [] := by
        rw [(Analyzer.fold_var_declarator_spec lhs false st
          (identDeclarator q)).2.1]
        exact hdecl
      exact ih _ hdecl2 p hmem

theorem contains_true_mem {l : List String} {a : String}
    (h : l.contains a = true) : a ∈ l := List.elem_iff.mp h

theorem contains_false_not_mem {l : List String} {a : String}
    (h : l.contains a = false) : a ∉ l := by
  intro hm
  have h2 : l.contains a = true := List.elem_iff.mpr hm
  rw [h2] at h
  cases h

theorem fold_export_decl_var_red (lhs data : Bool) (st : State)
    (n : Ident) (init : Option Expr) (rest : List VarDeclarator) :
    Analyzer.fold_export_decl lhs data st
        (.varD (.mk (.ident n) init :: rest)) =
      (let t : Bool × State :=
        if st.remove_exports.contains n.sym = true then
          (true, st.add_ref true n.toId) else (false, st)
       Analyzer.fold_decl lhs (data || t.1) t.2
         (.varD (.mk (.ident n) init :: rest))) := rfl

/-- C4 fails on the code: for `export const a = x, tgt = y;` with Removal
Target "tgt", the context for the second declarator's initializer is not
determined by that declarator's own name.  The code consults only the
FIRST declarator (lib.rs line 131: `d.decls[0].name`), so `y` is recorded
in OtherRefs and DataRefs stays empty, while the claim predicts that `y`
is recorded under a true removal context (DataRefs). -/
theorem claim_C4_counterexample :
    (Analyzer.fold_module_items false false (initialState ["tgt"])
      [ModuleItem.exportDecl (.varD
        [identDeclarator (⟨"a", 0⟩, ⟨"x", 0⟩),
         identDeclarator (⟨"tgt", 0⟩, ⟨"y", 0⟩)])]).2.refs_from_data_fn
      = [] ∧
    (Analyzer.fold_module_items false false (initialState ["tgt"])
      [ModuleItem.exportDecl (.varD
        [identDeclarator (⟨"a", 0⟩, ⟨"x", 0⟩),
         identDeclarator (⟨"tgt", 0⟩, ⟨"y", 0⟩)])]).2.refs_from_other
      = [("y", 0), ("x", 0)] :=
  ⟨rfl, rfl⟩

/-- C4 (amended): during analysis the removal context starts false at
module entry and becomes true for an exported variable declaration
exactly when the FIRST declarator's name is an identifier matching a
Removal Target, and it then covers the whole declaration (every
declarator's initializer, not each declarator by its own name); it also
becomes true for an exported function declaration whose name matches, and
for a default export when "default" is a target. -/
theorem claim_C4 (tgts : List String) (p0 : Ident × Ident)
    (pairs : List (Ident × Ident)) (f x : Ident)
    (hfst : tgts.contains p0.1.sym = true)
    (hf : tgts.contains f.sym = true)
    (hdef : tgts.contains "default" = true) :
    (∀ p ∈ p0 :: pairs, p.2.toId ∈
      (Analyzer.fold_export_decl false false (initialState tgts)
        (.varD ((p0 :: pairs).map identDeclarator))).2.refs_from_data_fn) ∧
    (∀ tgts2 : List String, ∀ q0 : Ident × Ident,
      ∀ qs : List (Ident × Ident),
      tgts2.contains q0.1.sym = false →
      (Analyzer.fold_export_decl false false (initialState tgts2)
        (.varD ((q0 :: qs).map identDeclarator))).2.refs_from_data_fn = [] ∧
      ∀ p ∈ q0 :: qs, p.2.toId ∈
        (Analyzer.fold_export_decl false false (initialState tgts2)
          (.varD ((q0 :: qs).map identDeclarator))).2.refs_from_other) ∧
    (x.toId ∈ (Analyzer.fold_export_decl false false (initialState tgts)
      (.fnD f (.mk [] (some [.ret (some (.ident x))])))).2.refs_from_data_fn) ∧
    (x.toId ∈ (Analyzer.fold_export_default_expr false false
      (initialState tgts) (.ident x)).2.refs_from_data_fn) := by
  refine ⟨?_, ?_, ?_, ?_⟩
  · intro p hp
    have hc : (initialState tgts).remove_exports.contains p0.1.sym = true :=
      hfst
    rw [show (p0 :: pairs).map identDeclarator =
      VarDeclarator.mk (.ident p0.1) (some (.ident p0.2)) ::
        pairs.map identDeclarator from rfl]
    rw [fold_export_decl_var_red]
    simp only [hc, if_true, Bool.or_true, Analyzer.fold_decl]
    have := analyzer_declarators_data false
      ((initialState tgts).add_ref true p0.1.toId) (p0 :: pairs) p hp
    simpa [identDeclarator, List.map] using this
  · intro tgts2 q0 qs hq0
    have hc : (initialState tgts2).remove_exports.contains q0.1.sym = false :=
      hq0
    constructor
    · rw [show (q0 :: qs).map identDeclarator =
        VarDeclarator.mk (.ident q0.1) (some (.ident q0.2)) ::
          qs.map identDeclarator from rfl]
      rw [fold_export_decl_var_red]
      simp only [hc, Bool.false_eq_true, if_false, Bool.or_false,
        Analyzer.fold_decl]
      exact (Analyzer.fold_var_declarators_refs false false _ _).2.2.1 rfl
    · rw [show (q0 :: qs).map identDeclarator =
        VarDeclarator.mk (.ident q0.1) (some (.ident q0.2)) ::
          qs.map identDeclarator from rfl]
      rw [fold_export_decl_var_red]
      simp only [hc, Bool.false_eq_true, if_false, Bool.or_false,
        Analyzer.fold_decl]
      intro p hp
      have := analyzer_declarators_other false (initialState tgts2) rfl
        (q0 :: qs) p hp
      simpa [identDeclarator, List.map] using this
  · have hred : Analyzer.fold_export_decl false false (initialState tgts)
        (.fnD f (.mk [] (some [.ret (some (.ident x))]))) =
        (let t : Bool × State :=
          if (initialState tgts).should_remove_identifier f = true then
            (true, (initialState tgts).add_ref true f.toId)
          else (false, initialState tgts)
         Analyzer.fold_decl false (false || t.1) t.2
           (.fnD f (.mk [] (some [.ret (some (.ident x))])))) := rfl
    have hsr : (initialState tgts).should_remove_identifier f = true := hf
    rw [hred]
    simp only [hsr, if_true, Bool.or_true, Analyzer.fold_decl,
      Analyzer.fold_function, Analyzer.fold_pats, Analyzer.fold_stmts,
      Analyzer.fold_stmt, Analyzer.fold_opt_expr, Analyzer.fold_expr]
    exact (add_ref_arefs _ true _).1 _ (add_ref_data_self _ _)
  · have hsd : (initialState tgts).should_remove_default = true := hdef
    simp only [Analyzer.fold_export_default_expr, hsd, if_true,
      Analyzer.fold_expr]
    exact add_ref_data_self _ _

/-- Witness for C4 at concrete inputs. -/
theorem claim_C4_witness :
    (∀ p ∈ [((⟨"tgt", 0⟩ : Ident), (⟨"y", 0⟩ : Ident))], p.2.toId ∈
      (Analyzer.fold_export_decl false false (initialState ["tgt", "default"])
        (.varD ([((⟨"tgt", 0⟩ : Ident), (⟨"y", 0⟩ : Ident))].map
          identDeclarator))).2.refs_from_data_fn) ∧
    (∀ tgts2 : List String, ∀ q0 : Ident × Ident,
      ∀ qs : List (Ident × Ident),
      tgts2.contains q0.1.sym = false →
      (Analyzer.fold_export_decl false false (initialState tgts2)
        (.varD ((q0 :: qs).map identDeclarator))).2.refs_from_data_fn = [] ∧
      ∀ p ∈ q0 :: qs, p.2.toId ∈
        (Analyzer.fold_export_decl false false (initialState tgts2)
          (.varD ((q0 :: qs).map identDeclarator))).2.refs_from_other) ∧
    ((⟨"z", 0⟩ : Ident).toId ∈
      (Analyzer.fold_export_decl false false (initialState ["tgt", "default"])
        (.fnD ⟨"tgt", 0⟩
          (.mk [] (some [.ret (some (.ident ⟨"z", 0⟩))])))).2.refs_from_data_fn) ∧
    ((⟨"z", 0⟩ : Ident).toId ∈
      (Analyzer.fold_export_default_expr false false
        (initialState ["tgt", "default"])
        (.ident ⟨"z", 0⟩)).2.refs_from_data_fn) := by
  have h := claim_C4 ["tgt", "default"] (⟨"tgt", 0⟩, ⟨"y", 0⟩) []
    ⟨"tgt", 0⟩ ⟨"z", 0⟩ (by decide) (by decide) (by decide)
  exact ⟨h.1, h.2.1, h.2.2.1, h.2.2.2⟩

/-!
Claim C7: which named-export specifiers the analyzer records.
-/

/-- C7 fails on the code: for the module `export { x }` (a named export
with NO source clause) and no Removal Targets, the specifier's original
name does not match any Removal Target, yet nothing at all is recorded:
`Analyzer::fold_named_export` (lib.rs lines 242-248) folds the specifiers
only when `src` is present. -/
theorem claim_C7_counterexample :
    (Analyzer.fold_module_items false false (initialState [])
      [ModuleItem.exportNamed [.named (.ident ⟨"x", 0⟩) none]
        none]).2.refs_from_other = [] ∧
    (Analyzer.fold_module_items false false (initialState [])
      [ModuleItem.exportNamed [.named (.ident ⟨"x", 0⟩) none]
        none]).2.refs_from_data_fn = [] :=
  ⟨rfl, rfl⟩

/-- C7 (amended): the analyzer records a named-export specifier's original
identity only for named exports WITH a source clause, and the test is on
the ORIGINAL name alone: with a source clause, the original identity is
recorded exactly when the original name does not match a Removal Target,
whatever the exported alias is; a named export without a source clause
records nothing and leaves the state untouched. -/
theorem claim_C7 (tgts : List String) (o : Ident)
    (exported : Option ModuleExportName) (src : String)
    (hno : tgts.contains o.sym = false) :
    (o.toId ∈ (Analyzer.fold_module_items false false (initialState tgts)
      [.exportNamed [.named (.ident o) exported]
        (some src)]).2.refs_from_other) ∧
    (∀ tgts2 : List String, ∀ o2 : Ident, ∀ exported2 src2,
      tgts2.contains o2.sym = true →
      (Analyzer.fold_module_items false false (initialState tgts2)
        [.exportNamed [.named (.ident o2) exported2] (some src2)]).2 =
        initialState tgts2) ∧
    (∀ tgts2 : List String, ∀ o2 : Ident, ∀ exported2,
      (Analyzer.fold_module_items false false (initialState tgts2)
        [.exportNamed [.named (.ident o2) exported2] none]).2 =
        initialState tgts2) := by
  refine ⟨?_, ?_, ?_⟩
  · have hc : (initialState tgts).remove_exports.contains o.sym = false := hno
    have hdecl : (initialState tgts).cur_declaring = [] := rfl
    simp only [Analyzer.fold_module_items, Analyzer.fold_module_item,
      Analyzer.fold_named_export, Option.isSome_some, if_true,
      Analyzer.fold_export_specifiers, Analyzer.fold_export_named_specifier,
      hc, Bool.not_false, List.isEmpty_cons, Bool.false_eq_true, if_false]
    exact add_ref_other_self hdecl _
  · intro tgts2 o2 exported2 src2 hyes
    have hc : (initialState tgts2).remove_exports.contains o2.sym = true :=
      hyes
    simp only [Analyzer.fold_module_items, Analyzer.fold_module_item,
      Analyzer.fold_named_export, Option.isSome_some, if_true,
      Analyzer.fold_export_specifiers, Analyzer.fold_export_named_specifier,
      hc, Bool.not_true, Bool.false_eq_true, if_false, List.isEmpty_cons]
  · intro tgts2 o2 exported2
    simp only [Analyzer.fold_module_items, Analyzer.fold_module_item,
      Analyzer.fold_named_export, Option.isSome_none, Bool.false_eq_true,
      if_false, List.isEmpty_cons]

/-- Witness for C7 at concrete inputs. -/
theorem claim_C7_witness :
    ((⟨"x", 0⟩ : Ident).toId ∈
      (Analyzer.fold_module_items false false (initialState ["tgt"])
        [.exportNamed [.named (.ident ⟨"x", 0⟩) (some (.ident ⟨"tgt", 0⟩))]
          (some "m")]).2.refs_from_other) ∧
    (∀ tgts2 : List String, ∀ o2 : Ident, ∀ exported2 src2,
      tgts2.contains o2.sym = true →
      (Analyzer.fold_module_items false false (initialState tgts2)
        [.exportNamed [.named (.ident o2) exported2] (some src2)]).2 =
        initialState tgts2) ∧
    (∀ tgts2 : List String, ∀ o2 : Ident, ∀ exported2,
      (Analyzer.fold_module_items false false (initialState tgts2)
        [.exportNamed [.named (.ident o2) exported2] none]).2 =
        initialState tgts2) :=
  claim_C7 ["tgt"] ⟨"x", 0⟩ (some (.ident ⟨"tgt", 0⟩)) "m" (by decide)

/-!
Claim C5: the rewriter on named-export statements.
-/

theorem keep_specifier_congr {st st2 : State}
    (h : st2.remove_exports = st.remove_exports) (s : ExportSpecifier) :
    RemoveExportsExprs.keep_specifier st2 s =
      RemoveExportsExprs.keep_specifier st s := by
  cases s with
  | namespaceS n =>
    cases n with
    | ident i =>
      simp [RemoveExportsExprs.keep_specifier, State.should_remove_identifier, h]
    | str t => rfl
  | defaultS e =>
    simp [RemoveExportsExprs.keep_specifier, State.should_remove_identifier, h]
  | named o e =>
    cases o with
    | ident i =>
      cases e with
      | none =>
        simp [RemoveExportsExprs.keep_specifier, State.should_remove_identifier, h]
      | some men =>
        cases men with
        | ident j =>
          simp [RemoveExportsExprs.keep_specifier, State.should_remove_identifier, h]
        | str t =>
          simp [RemoveExportsExprs.keep_specifier, State.should_remove_identifier, h]
    | str t =>
      cases e with
      | none => rfl
      | some men =>
        cases men with
        | ident j =>
          simp [RemoveExportsExprs.keep_specifier, State.should_remove_identifier, h]
        | str u => rfl

theorem export_specifiers_retain_kept (st : State)
    (l : List ExportSpecifier) :
    (RemoveExportsExprs.export_specifiers_retain st l).1 =
      l.filter (RemoveExportsExprs.keep_specifier st) := by
  induction l generalizing st with
  | nil => rfl
  | cons s rest ih =>
    simp only [RemoveExportsExprs.export_specifiers_retain]
    cases hk : RemoveExportsExprs.keep_specifier st s with
    | true => simp [List.filter_cons, hk, ih st]
    | false =>
      cases s with
      | named o e =>
        cases o with
        | ident orig =>
          have hpres : ({ st with
              should_run_again := true
              refs_from_data_fn :=
                insertId orig.toId st.refs_from_data_fn } : State).remove_exports
              = st.remove_exports := rfl
          simp only [hk, Bool.false_eq_true, if_false, List.filter_cons]
          rw [ih]
          exact List.filter_congr fun a _ => keep_specifier_congr hpres a
        | str t =>
          simp only [hk, Bool.false_eq_true, if_false, List.filter_cons]
          exact ih st
      | namespaceS n =>
        simp only [hk, Bool.false_eq_true, if_false, List.filter_cons]
        exact ih st
      | defaultS e2 =>
        simp only [hk, Bool.false_eq_true, if_false, List.filter_cons]
        exact ih st

theorem export_specifiers_retain_seeds (st : State)
    (l : List ExportSpecifier) (o : Ident)
    (exported : Option ModuleExportName)
    (hmem : (.named (.ident o) exported : ExportSpecifier) ∈ l)
    (hdrop : RemoveExportsExprs.keep_specifier st
      (.named (.ident o) exported) = false) :
    o.toId ∈ (RemoveExportsExprs.export_specifiers_retain
        st l).2.refs_from_data_fn ∧
    (RemoveExportsExprs.export_specifiers_retain st l).2.should_run_again
      = true := by
  induction l generalizing st with
  | nil => cases hmem
  | cons s rest ih =>
    rcases List.mem_cons.mp hmem with heq | hmem2
    · rw [← heq]
      simp only [RemoveExportsExprs.export_specifiers_retain, hdrop,
        Bool.false_eq_true, if_false]
      have hbasic := RemoveExportsExprs.export_specifiers_retain_rbasic
        ({ st with
           should_run_again := true
           refs_from_data_fn := insertId o.toId st.refs_from_data_fn }) rest
      exact ⟨hbasic.2.2.2.2 _ (mem_insertId_self _ _),
        hbasic.2.2.2.1 rfl⟩
    · simp only [RemoveExportsExprs.export_specifiers_retain]
      cases hk : RemoveExportsExprs.keep_specifier st s with
      | true => exact ih st hmem2 hdrop
      | false =>
        cases s with
        | named o3 e3 =>
          cases o3 with
          | ident orig =>
            have hpres : ({ st with
                should_run_again := true
                refs_from_data_fn :=
                  insertId orig.toId st.refs_from_data_fn } : State).remove_exports
                = st.remove_exports := rfl
            exact ih _ hmem2 ((keep_specifier_congr hpres _).trans hdrop)
          | str t => exact ih st hmem2 hdrop
        | namespaceS n => exact ih st hmem2 hdrop
        | defaultS e2 => exact ih st hmem2 hdrop

/-- C5 fails on the code: for `export * as tgt from "m"` with Removal
Target "tgt", the namespace specifier is dropped (and the statement
becomes a no-op and is filtered out of the module), but its identity is
NOT inserted into DataRefs and the Run-Again flag is NOT set: only a
dropped NAMED specifier with an identifier original seeds DataRefs
(lib.rs 463-470). -/
theorem claim_C5_counterexample :
    (RemoveExportsExprs.fold_module (initialState ["tgt"])
      [.exportNamed [.namespaceS (.ident ⟨"tgt", 0⟩)] (some "m")]).1 = [] ∧
    (RemoveExportsExprs.fold_module (initialState ["tgt"])
      [.exportNamed [.namespaceS (.ident ⟨"tgt", 0⟩)]
        (some "m")]).2.refs_from_data_fn = [] ∧
    (RemoveExportsExprs.fold_module (initialState ["tgt"])
      [.exportNamed [.namespaceS (.ident ⟨"tgt", 0⟩)]
        (some "m")]).2.should_run_again = false :=
  ⟨rfl, rfl, rfl⟩

/-- C5 (amended): the rewriter keeps exactly the specifiers whose
relevant name (the exported identifier name for namespace, default and
aliased specifiers, else the original identifier name) does not match a
Removal Target; if the list of kept specifiers is empty the whole
statement becomes an empty statement, which the module-item filter then
removes; and a dropped NAMED specifier whose original is an identifier
has that identity unconditionally inserted into DataRefs with the
Run-Again flag set — dropped namespace and default specifiers seed
nothing. -/
theorem claim_C5 (lhs : Bool) (st : State) (l : List ExportSpecifier)
    (src : Option String) (o : Ident) (exported : Option ModuleExportName)
    (hmem : (.named (.ident o) exported : ExportSpecifier) ∈ l)
    (hdrop : RemoveExportsExprs.keep_specifier st
      (.named (.ident o) exported) = false) :
    (RemoveExportsExprs.export_specifiers_retain st l).1 =
      l.filter (RemoveExportsExprs.keep_specifier st) ∧
    o.toId ∈ (RemoveExportsExprs.export_specifiers_retain
        st l).2.refs_from_data_fn ∧
    (RemoveExportsExprs.export_specifiers_retain st l).2.should_run_again
      = true ∧
    (l.filter (RemoveExportsExprs.keep_specifier st) = [] →
      RemoveExportsExprs.fold_module_item lhs st (.exportNamed l src) =
        (.stmtI .empty,
         (RemoveExportsExprs.export_specifiers_retain st l).2)) ∧
    RemoveExportsExprs.retain_items [.stmtI .empty] = [] := by
  have hseed := export_specifiers_retain_seeds st l o exported hmem hdrop
  refine ⟨export_specifiers_retain_kept st l, hseed.1, hseed.2, ?_, rfl⟩
  intro hemp
  have hk : (RemoveExportsExprs.export_specifiers_retain st l).1 = [] :=
    (export_specifiers_retain_kept st l).trans hemp
  simp only [RemoveExportsExprs.fold_module_item,
    RemoveExportsExprs.fold_named_export, hk, List.isEmpty_nil, if_true]

/-- Witness for C5: `export { x as tgt } from "m"` with Removal Target
"tgt". -/
theorem claim_C5_witness :
    (RemoveExportsExprs.export_specifiers_retain (initialState ["tgt"])
      [.named (.ident ⟨"x", 0⟩) (some (.ident ⟨"tgt", 0⟩))]).1 =
      [ExportSpecifier.named (.ident ⟨"x", 0⟩)
        (some (.ident ⟨"tgt", 0⟩))].filter
        (RemoveExportsExprs.keep_specifier (initialState ["tgt"])) ∧
    (⟨"x", 0⟩ : Ident).toId ∈
      (RemoveExportsExprs.export_specifiers_retain (initialState ["tgt"])
        [.named (.ident ⟨"x", 0⟩)
          (some (.ident ⟨"tgt", 0⟩))]).2.refs_from_data_fn ∧
    (RemoveExportsExprs.export_specifiers_retain (initialState ["tgt"])
      [.named (.ident ⟨"x", 0⟩)
        (some (.ident ⟨"tgt", 0⟩))]).2.should_run_again = true ∧
    ([ExportSpecifier.named (.ident ⟨"x", 0⟩)
        (some (.ident ⟨"tgt", 0⟩))].filter
        (RemoveExportsExprs.keep_specifier (initialState ["tgt"])) = [] →
      RemoveExportsExprs.fold_module_item false (initialState ["tgt"])
        (.exportNamed [.named (.ident ⟨"x", 0⟩)
          (some (.ident ⟨"tgt", 0⟩))] (some "m")) =
        (.stmtI .empty,
         (RemoveExportsExprs.export_specifiers_retain (initialState ["tgt"])
           [.named (.ident ⟨"x", 0⟩)
             (some (.ident ⟨"tgt", 0⟩))]).2)) ∧
    RemoveExportsExprs.retain_items [.stmtI .empty] = [] :=
  claim_C5 false (initialState ["tgt"])
    [.named (.ident ⟨"x", 0⟩) (some (.ident ⟨"tgt", 0⟩))] (some "m")
    ⟨"x", 0⟩ (some (.ident ⟨"tgt", 0⟩)) (by decide) (by decide)

theorem analyzerItemShape_isDefault (t : List String) (i : ModuleItem) :
    isDefaultItem (analyzerItemShape t i) = isDefaultItem i := by
  cases i with
  | exportDecl d =>
    cases d with
    | fnD j f => rw [analyzerItemShape_fn]; split <;> rfl
    | varD ds => cases ds <;> rfl
  | stmtI s => rfl
  | importI sp src => rfl
  | exportNamed sp src => rfl
  | exportDefaultDecl d => rfl
  | exportDefaultExpr e => rfl

theorem analyzerItemShape_default_id (t : List String) (i : ModuleItem)
    (h : isDefaultItem i = true) : analyzerItemShape t i = i := by
  cases i <;> first | rfl | cases h

theorem countDefault_map_shape (t : List String) (m : ModuleAst) :
    countDefault (m.map (analyzerItemShape t)) = countDefault m := by
  induction m with
  | nil => rfl
  | cons i rest ih =>
    simp only [List.map, countDefault, List.countP_cons] at *
    rw [ih, analyzerItemShape_isDefault]

theorem rewriter_item_default (lhs : Bool) (st : State) (i : ModuleItem)
    (h : st.remove_exports.contains "default" = true) :
    isDefaultItem (RemoveExportsExprs.fold_module_item lhs st i).1 =
        isDefaultItem i ∧
    (isDefaultItem i = true →
      IsCanonicalDefault (RemoveExportsExprs.fold_module_item lhs st i).1) := by
  cases i with
  | stmtI s =>
    exact ⟨rfl, fun hh => by cases hh⟩
  | importI sp src =>
    constructor
    · simp only [RemoveExportsExprs.fold_module_item]
      split <;> rfl
    · intro hh; cases hh
  | exportDecl d => exact ⟨rfl, fun hh => by cases hh⟩
  | exportNamed sp src =>
    constructor
    · simp only [RemoveExportsExprs.fold_module_item]
      split <;> rfl
    · intro hh; cases hh
  | exportDefaultDecl d =>
    have hd : (RemoveExportsExprs.fold_default_decl st d).1 =
        .fnDD create_empty_fn := by
      unfold RemoveExportsExprs.fold_default_decl State.should_remove_default
      rw [if_pos h]
    constructor
    · rfl
    · intro _
      left
      simp only [RemoveExportsExprs.fold_module_item, hd]
  | exportDefaultExpr e =>
    have hd : (RemoveExportsExprs.fold_export_default_expr st e).1 =
        .fnE create_empty_fn := by
      unfold RemoveExportsExprs.fold_export_default_expr
        State.should_remove_default
      rw [if_pos h]
    constructor
    · rfl
    · intro _
      right
      simp only [RemoveExportsExprs.fold_module_item, hd]

theorem rewriter_items_default (lhs : Bool) (st : State) (m : ModuleAst)
    (h : st.remove_exports.contains "default" = true) :
    countDefault (RemoveExportsExprs.fold_module_items lhs st m).1 =
        countDefault m ∧
    (∀ i ∈ (RemoveExportsExprs.fold_module_items lhs st m).1,
      isDefaultItem i = true → IsCanonicalDefault i) := by
  induction m generalizing st with
  | nil => exact ⟨rfl, fun i hi => by cases hi⟩
  | cons i rest ih =>
    have htgt : (RemoveExportsExprs.fold_module_item lhs st
        i).2.remove_exports.contains "default" = true := by
      rw [(RemoveExportsExprs.fold_module_item_rbasic lhs st i).2.2.1]
      exact h
    have hi := rewriter_item_default lhs st i h
    have hr := ih (RemoveExportsExprs.fold_module_item lhs st i).2 htgt
    constructor
    · simp only [RemoveExportsExprs.fold_module_items, countDefault,
        List.countP_cons] at *
      rw [hr.1, hi.1]
    · intro j hj hdef
      simp only [RemoveExportsExprs.fold_module_items] at hj
      rcases List.mem_cons.mp hj with rfl | hj2
      · exact hi.2 (by rw [← hi.1, hdef])
      · exact hr.2 j hj2 hdef

theorem countDefault_retain (m : ModuleAst) :
    countDefault (RemoveExportsExprs.retain_items m) = countDefault m := by
  induction m with
  | nil => rfl
  | cons i rest ih =>
    cases i with
    | stmtI s =>
      cases s with
      | empty =>
        simp only [RemoveExportsExprs.retain_items, List.filter_cons,
          countDefault, List.countP_cons] at *
        simpa using ih
      | decl d =>
        simp only [RemoveExportsExprs.retain_items, List.filter_cons,
          countDefault, List.countP_cons] at *
        simp [ih, isDefaultItem]
      | expr e =>
        simp only [RemoveExportsExprs.retain_items, List.filter_cons,
          countDefault, List.countP_cons] at *
        simp [ih, isDefaultItem]
      | ret oe =>
        simp only [RemoveExportsExprs.retain_items, List.filter_cons,
          countDefault, List.countP_cons] at *
        simp [ih, isDefaultItem]
    | importI sp src =>
      simp only [RemoveExportsExprs.retain_items, List.filter_cons,
        countDefault, List.countP_cons] at *
      simp [ih, isDefaultItem]
    | exportDecl d =>
      simp only [RemoveExportsExprs.retain_items, List.filter_cons,
        countDefault, List.countP_cons] at *
      simp [ih, isDefaultItem]
    | exportNamed sp src =>
      simp only [RemoveExportsExprs.retain_items, List.filter_cons,
        countDefault, List.countP_cons] at *
      simp [ih, isDefaultItem]
    | exportDefaultDecl d =>
      simp only [RemoveExportsExprs.retain_items, List.filter_cons,
        countDefault, List.countP_cons] at *
      simp [ih, isDefaultItem]
    | exportDefaultExpr e =>
      simp only [RemoveExportsExprs.retain_items, List.filter_cons,
        countDefault, List.countP_cons] at *
      simp [ih, isDefaultItem]

theorem mem_retain_items {i : ModuleItem} {m : ModuleAst}
    (h : i ∈ RemoveExportsExprs.retain_items m) : i ∈ m :=
  (List.mem_filter.mp h).1

/-- One full pass preserves the number of default exports and, when
"default" is targeted, leaves every default item in canonical form. -/
theorem fold_module_default (st : State) (m : ModuleAst)
    (h : st.remove_exports.contains "default" = true) :
    countDefault (RemoveExportsExprs.fold_module st m).1 = countDefault m ∧
    (∀ i ∈ (RemoveExportsExprs.fold_module st m).1,
      isDefaultItem i = true → IsCanonicalDefault i) := by
  unfold RemoveExportsExprs.fold_module
  have ha := Analyzer.fold_module_items_spec false false st m
  have htgt : (Analyzer.fold_module_items false false st
      m).2.remove_exports.contains "default" = true := by
    rw [ha.2.2.2]; exact h
  have hr := rewriter_items_default false
    (Analyzer.fold_module_items false false st m).2
    (Analyzer.fold_module_items false false st m).1 htgt
  constructor
  · rw [countDefault_retain, hr.1, ha.1, countDefault_map_shape]
  · intro i hi hdef
    exact hr.2 i (mem_retain_items hi) hdef

theorem repeatLoop_default (fuel : Nat) (st : State) (m : ModuleAst)
    (h : st.remove_exports.contains "default" = true) :
    countDefault (repeatLoop fuel st m).1 = countDefault m ∧
    ((∀ i ∈ m, isDefaultItem i = true → IsCanonicalDefault i) →
      ∀ i ∈ (repeatLoop fuel st m).1,
        isDefaultItem i = true → IsCanonicalDefault i) := by
  induction fuel generalizing st m with
  | zero => exact ⟨rfl, fun hc => hc⟩
  | succ n ih =>
    have hres : st.reset.remove_exports.contains "default" = true := h
    have hp := fold_module_default st.reset m hres
    have htgt : (RemoveExportsExprs.fold_module st.reset
        m).2.remove_exports.contains "default" = true := by
      have ha := Analyzer.fold_module_items_spec false false st.reset m
      have hb := RemoveExportsExprs.fold_module_items_rbasic false
        (Analyzer.fold_module_items false false st.reset m).2
        (Analyzer.fold_module_items false false st.reset m).1
      unfold RemoveExportsExprs.fold_module
      rw [hb.2.2.1, ha.2.2.2]
      exact h
    have hrec := ih (RemoveExportsExprs.fold_module st.reset m).2
      (RemoveExportsExprs.fold_module st.reset m).1 htgt
    simp only [repeatLoop]
    split
    · exact ⟨hrec.1.trans hp.1, fun _ => hrec.2 hp.2⟩
    · exact ⟨hp.1, fun _ => hp.2⟩

/-- C6: when "default" is a Removal Target, the transform preserves the
number of default exports — it never deletes the default export slot —
and every default export in the output is the canonical anonymous
zero-parameter function with an empty body; in particular a module with
exactly one default export still has exactly one, now canonical. -/
theorem claim_C6 (tgts : List String) (m : ModuleAst)
    (h : tgts.contains "default" = true) :
    countDefault (remove_export_exprs tgts m) = countDefault m ∧
    (∀ i ∈ remove_export_exprs tgts m,
      isDefaultItem i = true → IsCanonicalDefault i) ∧
    (countDefault m = 1 → countDefault (remove_export_exprs tgts m) = 1) := by
  unfold remove_export_exprs
  have hi : (initialState tgts).remove_exports.contains "default" = true := h
  have h1 := repeatLoop_default (sizeItems m + 1) (initialState tgts) m hi
  have hcanon : ∀ i ∈ (repeatLoop (sizeItems m + 1) (initialState tgts) m).1,
      isDefaultItem i = true → IsCanonicalDefault i := by
    have hres : (initialState tgts).reset.remove_exports.contains "default"
        = true := h
    have hp := fold_module_default (initialState tgts).reset m hres
    have htgt : (RemoveExportsExprs.fold_module (initialState tgts).reset
        m).2.remove_exports.contains "default" = true := by
      have ha := Analyzer.fold_module_items_spec false false
        (initialState tgts).reset m
      have hb := RemoveExportsExprs.fold_module_items_rbasic false
        (Analyzer.fold_module_items false false (initialState tgts).reset m).2
        (Analyzer.fold_module_items false false (initialState tgts).reset m).1
      unfold RemoveExportsExprs.fold_module
      rw [hb.2.2.1, ha.2.2.2]
      exact h
    have hrec := repeatLoop_default (sizeItems m)
      (RemoveExportsExprs.fold_module (initialState tgts).reset m).2
      (RemoveExportsExprs.fold_module (initialState tgts).reset m).1 htgt
    simp only [repeatLoop]
    split
    · exact hrec.2 hp.2
    · exact hp.2
  exact ⟨h1.1, hcanon, fun h1d => h1.1.trans h1d⟩

/-- Witness for C6: `export default function(){ return 1 }` with Removal
Target "default". -/
theorem claim_C6_witness :
    countDefault (remove_export_exprs ["default"]
      [.exportDefaultDecl (.fnDD (.mk none
        (.mk [] (some [.ret (some (.lit 1))]))))]) =
      countDefault [ModuleItem.exportDefaultDecl (.fnDD (.mk none
        (.mk [] (some [.ret (some (.lit 1))]))))] ∧
    (∀ i ∈ remove_export_exprs ["default"]
      [.exportDefaultDecl (.fnDD (.mk none
        (.mk [] (some [.ret (some (.lit 1))]))))],
      isDefaultItem i = true → IsCanonicalDefault i) ∧
    (countDefault [ModuleItem.exportDefaultDecl (.fnDD (.mk none
        (.mk [] (some [.ret (some (.lit 1))]))))] = 1 →
      countDefault (remove_export_exprs ["default"]
        [.exportDefaultDecl (.fnDD (.mk none
          (.mk [] (some [.ret (some (.lit 1))]))))]) = 1) :=
  claim_C6 ["default"]
    [.exportDefaultDecl (.fnDD (.mk none
      (.mk [] (some [.ret (some (.lit 1))]))))] (by decide)

theorem should_remove_run_update (st : State) (b : Bool) (id : BindingId) :
    ({ st with should_run_again := b } : State).should_remove id =
      st.should_remove id := rfl

theorem import_specifiers_retain_spec (st : State)
    (l : List ImportSpecifier) :
    (RemoveExportsExprs.import_specifiers_retain st l).1 =
      l.filter (fun s => !(st.should_remove s.locl.toId)) ∧
    (RemoveExportsExprs.import_specifiers_retain st l).2 =
      { st with should_run_again := importRunFlag st l } := by
  induction l generalizing st with
  | nil =>
    refine ⟨rfl, ?_⟩
    show st = { st with should_run_again := importRunFlag st [] }
    simp [importRunFlag]
  | cons s rest ih =>
    simp only [RemoveExportsExprs.import_specifiers_retain, List.filter_cons,
      importRunFlag, List.any_cons]
    cases hc : st.should_remove s.locl.toId with
    | true =>
      have ihs := ih { st with should_run_again := true }
      simp [hc, ihs.1, ihs.2, importRunFlag, should_remove_run_update]
    | false =>
      have ihs := ih st
      simp [hc, ihs.1, ihs.2, importRunFlag, should_remove_run_update]

/-- C8: for an import declaration with at least one specifier, the
rewriter keeps exactly the specifiers whose local binding is not
removable; any drop raises the Run-Again flag and nothing else in the
state changes; if all specifiers are dropped the whole declaration
becomes an empty statement (which the module-item filter removes), and
otherwise the declaration survives with the kept specifiers; an import
with no specifiers at all (a pure side-effect import) is returned
completely untouched. -/
theorem claim_C8 (lhs : Bool) (st : State) (s0 : ImportSpecifier)
    (l : List ImportSpecifier) (src : String)
    (hdrop : (s0 :: l).any (fun s => st.should_remove s.locl.toId) = true) :
    (RemoveExportsExprs.fold_import_decl st (s0 :: l)).1 =
      (s0 :: l).filter (fun s => !(st.should_remove s.locl.toId)) ∧
    (RemoveExportsExprs.fold_import_decl st (s0 :: l)).2 =
      { st with should_run_again := true } ∧
    ((s0 :: l).filter (fun s => !(st.should_remove s.locl.toId)) = [] →
      RemoveExportsExprs.fold_module_item lhs st (.importI (s0 :: l) src) =
        (.stmtI .empty, { st with should_run_again := true })) ∧
    (∀ k0 ks, (s0 :: l).filter
        (fun s => !(st.should_remove s.locl.toId)) = k0 :: ks →
      RemoveExportsExprs.fold_module_item lhs st (.importI (s0 :: l) src) =
        (.importI (k0 :: ks) src, { st with should_run_again := true })) ∧
    (∀ src2, RemoveExportsExprs.fold_module_item lhs st (.importI [] src2) =
      (.importI [] src2, st)) := by
  have hspec := import_specifiers_retain_spec st (s0 :: l)
  have hretain : RemoveExportsExprs.fold_import_decl st (s0 :: l) =
      RemoveExportsExprs.import_specifiers_retain st (s0 :: l) := by
    unfold RemoveExportsExprs.fold_import_decl
    rfl
  have hflag : importRunFlag st (s0 :: l) = true := by
    unfold importRunFlag
    rw [hdrop]
    simp
  have hst2 : (RemoveExportsExprs.fold_import_decl st (s0 :: l)).2 =
      { st with should_run_again := true } := by
    rw [hretain, hspec.2, hflag]
  refine ⟨by rw [hretain, hspec.1], hst2, ?_, ?_, ?_⟩
  · intro hemp
    simp only [RemoveExportsExprs.fold_module_item]
    rw [show (RemoveExportsExprs.fold_import_decl st (s0 :: l)).1 = []
      from (hretain ▸ hspec.1).trans hemp]
    simp only [List.isEmpty_cons, Bool.not_false, List.isEmpty_nil,
      Bool.and_true, Bool.and_self, if_true]
    rw [hst2]
  · intro k0 ks hkept
    simp only [RemoveExportsExprs.fold_module_item]
    rw [show (RemoveExportsExprs.fold_import_decl st (s0 :: l)).1 = k0 :: ks
      from (hretain ▸ hspec.1).trans hkept]
    simp only [List.isEmpty_cons, Bool.not_false, Bool.and_false,
      Bool.false_eq_true, if_false]
    rw [hst2]
  · intro src2
    simp only [RemoveExportsExprs.fold_module_item,
      RemoveExportsExprs.fold_import_decl, List.isEmpty_nil, if_true,
      Bool.not_true, Bool.false_and, Bool.false_eq_true, if_false]

/-- Witness for C8: `import { gone, kept } from "x"` at
`importWitnessState`. -/
theorem claim_C8_witness :
    (RemoveExportsExprs.fold_import_decl importWitnessState
      [.named ⟨"gone", 0⟩ none, .named ⟨"kept", 0⟩ none]).1 =
      [ImportSpecifier.named ⟨"gone", 0⟩ none,
       .named ⟨"kept", 0⟩ none].filter
        (fun s => !(importWitnessState.should_remove s.locl.toId)) ∧
    (RemoveExportsExprs.fold_import_decl importWitnessState
      [.named ⟨"gone", 0⟩ none, .named ⟨"kept", 0⟩ none]).2 =
      { importWitnessState with should_run_again := true } ∧
    ([ImportSpecifier.named ⟨"gone", 0⟩ none,
       .named ⟨"kept", 0⟩ none].filter
        (fun s => !(importWitnessState.should_remove s.locl.toId)) = [] →
      RemoveExportsExprs.fold_module_item false importWitnessState
        (.importI [.named ⟨"gone", 0⟩ none, .named ⟨"kept", 0⟩ none] "x") =
        (.stmtI .empty, { importWitnessState with should_run_again := true })) ∧
    (∀ k0 ks, [ImportSpecifier.named ⟨"gone", 0⟩ none,
        .named ⟨"kept", 0⟩ none].filter
        (fun s => !(importWitnessState.should_remove s.locl.toId)) =
          k0 :: ks →
      RemoveExportsExprs.fold_module_item false importWitnessState
        (.importI [.named ⟨"gone", 0⟩ none, .named ⟨"kept", 0⟩ none] "x") =
        (.importI (k0 :: ks) "x",
         { importWitnessState with should_run_again := true })) ∧
    (∀ src2, RemoveExportsExprs.fold_module_item false importWitnessState
      (.importI [] src2) = (.importI [] src2, importWitnessState)) :=
  claim_C8 false importWitnessState (.named ⟨"gone", 0⟩ none)
    [.named ⟨"kept", 0⟩ none] "x" (by decide)

/-!
Claim C9: the per-pass reset and DataRefs monotonicity.
-/

theorem fold_module_data_mono (st : State) (m : ModuleAst) (x : BindingId)
    (hx : x ∈ st.refs_from_data_fn) :
    x ∈ (RemoveExportsExprs.fold_module st m).2.refs_from_data_fn := by
  unfold RemoveExportsExprs.fold_module
  exact (RemoveExportsExprs.fold_module_items_rbasic false _ _).2.2.2.2 _
    ((Analyzer.fold_module_items_mono false false st m).1 _ hx)

theorem repeatLoop_data_mono (fuel : Nat) (st : State) (m : ModuleAst)
    (x : BindingId) (hx : x ∈ st.refs_from_data_fn) :
    x ∈ (repeatLoop fuel st m).2.refs_from_data_fn := by
  induction fuel generalizing st m with
  | zero => exact hx
  | succ n ih =>
    have hx2 : x ∈ st.reset.refs_from_data_fn := hx
    have hp := fold_module_data_mono st.reset m x hx2
    simp only [repeatLoop]
    split
    · exact ih _ _ hp
    · exact hp

/-- C9: the per-pass reset clears exactly the transient set OtherRefs, the
Declaring Guard and the Run-Again flag, leaving DataRefs and the Removal
Targets untouched; and DataRefs is monotonically non-decreasing: one full
analyze-plus-rewrite pass, and the whole repeated invocation, never
remove an element from it. -/
theorem claim_C9 (st : State) (m : ModuleAst) (fuel : Nat) (x : BindingId)
    (hx : x ∈ st.refs_from_data_fn) :
    st.reset = { refs_from_other := [],
                 refs_from_data_fn := st.refs_from_data_fn,
                 cur_declaring := [], should_run_again := false,
                 remove_exports := st.remove_exports } ∧
    x ∈ (RemoveExportsExprs.fold_module st m).2.refs_from_data_fn ∧
    x ∈ (repeatLoop fuel st m).2.refs_from_data_fn :=
  ⟨rfl, fold_module_data_mono st m x hx, repeatLoop_data_mono fuel st m x hx⟩

/-- Witness for C9 at a concrete state with a nonempty DataRefs. -/
theorem claim_C9_witness :
    importWitnessState.reset =
      { refs_from_other := [],
        refs_from_data_fn := importWitnessState.refs_from_data_fn,
        cur_declaring := [], should_run_again := false,
        remove_exports := importWitnessState.remove_exports } ∧
    ("gone", 0) ∈ (RemoveExportsExprs.fold_module importWitnessState
      []).2.refs_from_data_fn ∧
    ("gone", 0) ∈ (repeatLoop 3 importWitnessState
      []).2.refs_from_data_fn :=
  claim_C9 importWitnessState [] 3 ("gone", 0) (by decide)

/-!
Size bounds for the rewriter: no fold ever enlarges its node, and a fold
that sets the Run-Again flag on a state that did not already carry it
strictly shrinks the node (for a single declarator the third possibility
is that its name came back `Invalid`, in which case the enclosing
declarator list drops it).  These bounds justify the fuel given to
`repeatLoop`.
-/

theorem sizePat_pos (p : Pat) : 1 ≤ sizePat p := by
  cases p <;> (simp only [sizePat]; omega)

theorem sizeObjectProp_pos (p : ObjectPatProp) : 1 ≤ sizeObjectProp p := by
  cases p <;> (simp only [sizeObjectProp]; omega)

theorem sizeDeclarator_pos (d : VarDeclarator) : 1 ≤ sizeDeclarator d := by
  cases d; simp only [sizeDeclarator]; omega

theorem sizeStmt_pos (s : Stmt) : 1 ≤ sizeStmt s := by
  cases s <;> (simp only [sizeStmt]; omega)

theorem sizeExpr_pos (e : Expr) : 1 ≤ sizeExpr e := by
  cases e <;> (simp only [sizeExpr]; omega)

theorem sizeOptPats_filter_le (p : Option Pat → Bool)
    (l : List (Option Pat)) :
    sizeOptPats (l.filter p) ≤ sizeOptPats l := by
  induction l with
  | nil => exact Nat.le_refl _
  | cons a r ih =>
    rw [List.filter_cons]
    cases hp : p a with
    | true =>
      simp only [if_pos hp]
      cases a <;> (simp only [sizeOptPats]; omega)
    | false =>
      simp only [hp, Bool.false_eq_true, if_false]
      cases a with
      | none => simp only [sizeOptPats]; omega
      | some q =>
        have := sizePat_pos q
        simp only [sizeOptPats]; omega

theorem sizeItems_filter_le (p : ModuleItem → Bool) (m : ModuleAst) :
    sizeItems (m.filter p) ≤ sizeItems m := by
  induction m with
  | nil => exact Nat.le_refl _
  | cons i r ih =>
    rw [List.filter_cons]
    cases hp : p i with
    | true => simp only [if_pos hp, sizeItems]; omega
    | false =>
      simp only [hp, Bool.false_eq_true, if_false, sizeItems]
      omega

theorem RemoveExportsExprs.object_props_filter_size (st : State)
    (l : List ObjectPatProp) :
    sizeObjectProps (RemoveExportsExprs.object_props_filter st l).1 ≤
        sizeObjectProps l ∧
      ((RemoveExportsExprs.object_props_filter st l).2.should_run_again =
          true →
        st.should_run_again = true ∨
        sizeObjectProps (RemoveExportsExprs.object_props_filter st l).1 <
          sizeObjectProps l) := by
  induction l generalizing st with
  | nil => exact ⟨Nat.le_refl _, fun h => Or.inl h⟩
  | cons p rest ih =>
    cases p with
    | keyValue k v =>
      simp only [RemoveExportsExprs.object_props_filter]
      split
      · have h := ih st
        have hv := sizePat_pos v
        refine ⟨?_, fun _ => Or.inr ?_⟩ <;>
          (simp only [sizeObjectProps, sizeObjectProp]; omega)
      · have h := ih st
        constructor
        · simp only [sizeObjectProps]; omega
        · intro hf
          rcases h.2 hf with hrun | hlt
          · exact Or.inl hrun
          · right; simp only [sizeObjectProps]; omega
    | assign key val =>
      simp only [RemoveExportsExprs.object_props_filter]
      split
      · have h := ih (markAsCandidateOptExpr st val).2
        refine ⟨?_, fun _ => Or.inr ?_⟩ <;>
          (simp only [sizeObjectProps, sizeObjectProp]; omega)
      · have h := ih st
        constructor
        · simp only [sizeObjectProps]; omega
        · intro hf
          rcases h.2 hf with hrun | hlt
          · exact Or.inl hrun
          · right; simp only [sizeObjectProps]; omega
    | rest a =>
      simp only [RemoveExportsExprs.object_props_filter]
      split
      · have h := ih st
        have hv := sizePat_pos a
        refine ⟨?_, fun _ => Or.inr ?_⟩ <;>
          (simp only [sizeObjectProps, sizeObjectProp]; omega)
      · have h := ih st
        constructor
        · simp only [sizeObjectProps]; omega
        · intro hf
          rcases h.2 hf with hrun | hlt
          · exact Or.inl hrun
          · right; simp only [sizeObjectProps]; omega

mutual

theorem RemoveExportsExprs.fold_expr_size (lhs : Bool) (st : State)
    (e : Expr) :
    sizeExpr (RemoveExportsExprs.fold_expr lhs st e).1 ≤ sizeExpr e ∧
      ((RemoveExportsExprs.fold_expr lhs st e).2.should_run_again = true →
        st.should_run_again = true ∨
        sizeExpr (RemoveExportsExprs.fold_expr lhs st e).1 < sizeExpr e) := by
  cases e with
  | ident i => exact ⟨Nat.le_refl _, fun hf => Or.inl hf⟩
  | lit n => exact ⟨Nat.le_refl _, fun hf => Or.inl hf⟩
  | call callee args =>
    have h1 := RemoveExportsExprs.fold_expr_size lhs st callee
    have h2 := RemoveExportsExprs.fold_exprs_size lhs
      (RemoveExportsExprs.fold_expr lhs st callee).2 args
    simp only [RemoveExportsExprs.fold_expr, sizeExpr]
    constructor
    · omega
    · intro hf
      rcases h2.2 hf with hrun | hlt
      · rcases h1.2 hrun with hrun1 | hlt1
        · exact Or.inl hrun1
        · right; omega
      · right; omega
  | member obj prop =>
    have h1 := RemoveExportsExprs.fold_expr_size lhs st obj
    simp only [RemoveExportsExprs.fold_expr, sizeExpr]
    constructor
    · omega
    · intro hf
      rcases h1.2 hf with hrun | hlt
      · exact Or.inl hrun
      · right; omega
  | fnE f =>
    have h1 := RemoveExportsExprs.fold_fn_expr_size lhs st f
    simp only [RemoveExportsExprs.fold_expr, sizeExpr]
    constructor
    · omega
    · intro hf
      rcases h1.2 hf with hrun | hlt
      · exact Or.inl hrun
      · right; omega

theorem RemoveExportsExprs.fold_exprs_size (lhs : Bool) (st : State)
    (l : List Expr) :
    sizeExprs (RemoveExportsExprs.fold_exprs lhs st l).1 ≤ sizeExprs l ∧
      ((RemoveExportsExprs.fold_exprs lhs st l).2.should_run_again = true →
        st.should_run_again = true ∨
        sizeExprs (RemoveExportsExprs.fold_exprs lhs st l).1 <
          sizeExprs l) := by
  cases l with
  | nil => exact ⟨Nat.le_refl _, fun hf => Or.inl hf⟩
  | cons e rest =>
    have h1 := RemoveExportsExprs.fold_expr_size lhs st e
    have h2 := RemoveExportsExprs.fold_exprs_size lhs
      (RemoveExportsExprs.fold_expr lhs st e).2 rest
    simp only [RemoveExportsExprs.fold_exprs, sizeExprs]
    constructor
    · omega
    · intro hf
      rcases h2.2 hf with hrun | hlt
      · rcases h1.2 hrun with hrun1 | hlt1
        · exact Or.inl hrun1
        · right; omega
      · right; omega

theorem RemoveExportsExprs.fold_opt_expr_size (lhs : Bool) (st : State)
    (oe : Option Expr) :
    sizeOptExpr (RemoveExportsExprs.fold_opt_expr lhs st oe).1 ≤
        sizeOptExpr oe ∧
      ((RemoveExportsExprs.fold_opt_expr lhs st oe).2.should_run_again =
          true →
        st.should_run_again = true ∨
        sizeOptExpr (RemoveExportsExprs.fold_opt_expr lhs st oe).1 <
          sizeOptExpr oe) := by
  cases oe with
  | none => exact ⟨Nat.le_refl _, fun hf => Or.inl hf⟩
  | some e =>
    have h1 := RemoveExportsExprs.fold_expr_size lhs st e
    simp only [RemoveExportsExprs.fold_opt_expr, sizeOptExpr]
    exact h1

theorem RemoveExportsExprs.fold_fn_expr_size (lhs : Bool) (st : State)
    (f : FnExpr) :
    sizeFnExpr (RemoveExportsExprs.fold_fn_expr lhs st f).1 ≤ sizeFnExpr f ∧
      ((RemoveExportsExprs.fold_fn_expr lhs st f).2.should_run_again = true →
        st.should_run_again = true ∨
        sizeFnExpr (RemoveExportsExprs.fold_fn_expr lhs st f).1 <
          sizeFnExpr f) := by
  cases f with
  | mk oid fn =>
    have h1 := RemoveExportsExprs.fold_function_size lhs st fn
    simp only [RemoveExportsExprs.fold_fn_expr, sizeFnExpr]
    exact h1

theorem RemoveExportsExprs.fold_function_size (lhs : Bool) (st : State)
    (f : Function) :
    sizeFunction (RemoveExportsExprs.fold_function lhs st f).1 ≤
        sizeFunction f ∧
      ((RemoveExportsExprs.fold_function lhs st f).2.should_run_again =
          true →
        st.should_run_again = true ∨
        sizeFunction (RemoveExportsExprs.fold_function lhs st f).1 <
          sizeFunction f) := by
  cases f with
  | mk params body =>
    have hp := RemoveExportsExprs.fold_pats_size lhs st params
    cases body with
    | none =>
      simp only [RemoveExportsExprs.fold_function, sizeFunction]
      constructor
      · omega
      · intro hf
        rcases hp.2 hf with hrun | hlt
        · exact Or.inl hrun
        · right; omega
    | some ss =>
      have hs := RemoveExportsExprs.fold_stmts_size lhs
        (RemoveExportsExprs.fold_pats lhs st params).2 ss
      simp only [RemoveExportsExprs.fold_function, sizeFunction]
      constructor
      · omega
      · intro hf
        rcases hs.2 hf with hrun | hlt
        · rcases hp.2 hrun with hrun1 | hlt1
          · exact Or.inl hrun1
          · right; omega
        · right; omega

theorem RemoveExportsExprs.fold_stmt_size (lhs : Bool) (st : State)
    (s : Stmt) :
    sizeStmt (RemoveExportsExprs.fold_stmt lhs st s).1 ≤ sizeStmt s ∧
      ((RemoveExportsExprs.fold_stmt lhs st s).2.should_run_again = true →
        st.should_run_again = true ∨
        sizeStmt (RemoveExportsExprs.fold_stmt lhs st s).1 < sizeStmt s) := by
  cases s with
  | decl d =>
    cases d with
    | fnD i fn =>
      simp only [RemoveExportsExprs.fold_stmt]
      split
      · simp only [sizeStmt, sizeDecl]
        exact ⟨by omega, fun _ => Or.inr (by omega)⟩
      · have h1 := RemoveExportsExprs.fold_function_size lhs st fn
        simp only [sizeStmt, sizeDecl]
        constructor
        · omega
        · intro hf
          rcases h1.2 hf with hrun | hlt
          · exact Or.inl hrun
          · right; omega
    | varD ds =>
      have hds := RemoveExportsExprs.fold_var_declarators_size lhs st ds
      simp only [RemoveExportsExprs.fold_stmt]
      split
      · simp only [sizeStmt, sizeDecl]
        exact ⟨by omega, fun _ => Or.inr (by omega)⟩
      · simp only [sizeStmt, sizeDecl]
        constructor
        · omega
        · intro hf
          rcases hds.2 hf with hrun | hlt
          · exact Or.inl hrun
          · right; omega
  | expr e =>
    have h1 := RemoveExportsExprs.fold_expr_size lhs st e
    simp only [RemoveExportsExprs.fold_stmt, sizeStmt]
    constructor
    · omega
    · intro hf
      rcases h1.2 hf with hrun | hlt
      · exact Or.inl hrun
      · right; omega
  | empty => exact ⟨Nat.le_refl _, fun hf => Or.inl hf⟩
  | ret oe =>
    have h1 := RemoveExportsExprs.fold_opt_expr_size lhs st oe
    simp only [RemoveExportsExprs.fold_stmt, sizeStmt]
    constructor
    · omega
    · intro hf
      rcases h1.2 hf with hrun | hlt
      · exact Or.inl hrun
      · right; omega

theorem RemoveExportsExprs.fold_stmts_size (lhs : Bool) (st : State)
    (l : List Stmt) :
    sizeStmts (RemoveExportsExprs.fold_stmts lhs st l).1 ≤ sizeStmts l ∧
      ((RemoveExportsExprs.fold_stmts lhs st l).2.should_run_again = true →
        st.should_run_again = true ∨
        sizeStmts (RemoveExportsExprs.fold_stmts lhs st l).1 <
          sizeStmts l) := by
  cases l with
  | nil => exact ⟨Nat.le_refl _, fun hf => Or.inl hf⟩
  | cons s rest =>
    have h1 := RemoveExportsExprs.fold_stmt_size lhs st s
    have h2 := RemoveExportsExprs.fold_stmts_size lhs
      (RemoveExportsExprs.fold_stmt lhs st s).2 rest
    simp only [RemoveExportsExprs.fold_stmts, sizeStmts]
    constructor
    · omega
    · intro hf
      rcases h2.2 hf with hrun | hlt
      · rcases h1.2 hrun with hrun1 | hlt1
        · exact Or.inl hrun1
        · right; omega
      · right; omega

theorem RemoveExportsExprs.fold_var_declarator_size (lhs : Bool)
    (st : State) (d : VarDeclarator) :
    sizeDeclarator (RemoveExportsExprs.fold_var_declarator lhs st d).1 ≤
        sizeDeclarator d ∧
      ((RemoveExportsExprs.fold_var_declarator lhs st
            d).2.should_run_again = true →
        st.should_run_again = true ∨
        sizeDeclarator (RemoveExportsExprs.fold_var_declarator lhs st d).1 <
          sizeDeclarator d ∨
        (RemoveExportsExprs.fold_var_declarator lhs st
            d).1.name.isInvalid = true) := by
  cases d with
  | mk name init =>
    have h1 := RemoveExportsExprs.fold_pat_size true st name
    simp only [RemoveExportsExprs.fold_var_declarator]
    split
    next hinv =>
      have h3 := RemoveExportsExprs.fold_opt_expr_size false
        (markAsCandidateOptExpr
          (RemoveExportsExprs.fold_pat true st name).2 init).2 init
      constructor
      · simp only [sizeDeclarator]; omega
      · intro _
        right; right
        simpa only [VarDeclarator.name] using hinv
    next hinv =>
      have h3 := RemoveExportsExprs.fold_opt_expr_size false
        (RemoveExportsExprs.fold_pat true st name).2 init
      constructor
      · simp only [sizeDeclarator]; omega
      · intro hf
        rcases h3.2 hf with hrun | hlt
        · rcases h1.2 hrun with hrun1 | hlt1
          · exact Or.inl hrun1
          · right; left; simp only [sizeDeclarator]; omega
        · right; left; simp only [sizeDeclarator]; omega

theorem RemoveExportsExprs.fold_var_declarators_size (lhs : Bool)
    (st : State) (l : List VarDeclarator) :
    sizeDeclarators
        (RemoveExportsExprs.fold_var_declarators lhs st l).1 ≤
        sizeDeclarators l ∧
      ((RemoveExportsExprs.fold_var_declarators lhs st
            l).2.should_run_again = true →
        st.should_run_again = true ∨
        sizeDeclarators
            (RemoveExportsExprs.fold_var_declarators lhs st l).1 <
          sizeDeclarators l) := by
  cases l with
  | nil => exact ⟨Nat.le_refl _, fun hf => Or.inl hf⟩
  | cons d rest =>
    have hd := RemoveExportsExprs.fold_var_declarator_size lhs st d
    have hr := RemoveExportsExprs.fold_var_declarators_size lhs
      (RemoveExportsExprs.fold_var_declarator lhs st d).2 rest
    have hdp := sizeDeclarator_pos d
    simp only [RemoveExportsExprs.fold_var_declarators]
    split
    next hinv =>
      constructor
      · simp only [sizeDeclarators]; omega
      · intro _
        right; simp only [sizeDeclarators]; omega
    next hinv =>
      constructor
      · simp only [sizeDeclarators]; omega
      · intro hf
        rcases hr.2 hf with hrun | hlt
        · rcases hd.2 hrun with h1 | h2 | h3
          · exact Or.inl h1
          · right; simp only [sizeDeclarators]; omega
          · exact absurd h3 hinv
        · right; simp only [sizeDeclarators]; omega

theorem RemoveExportsExprs.fold_pat_size (lhs : Bool) (st : State)
    (p : Pat) :
    sizePat (RemoveExportsExprs.fold_pat lhs st p).1 ≤ sizePat p ∧
      ((RemoveExportsExprs.fold_pat lhs st p).2.should_run_again = true →
        st.should_run_again = true ∨
        sizePat (RemoveExportsExprs.fold_pat lhs st p).1 < sizePat p) := by
  cases p with
  | ident i =>
    simp only [RemoveExportsExprs.fold_pat]
    split
    · simp only [sizePat]
      exact ⟨by omega, fun _ => Or.inr (by omega)⟩
    · exact ⟨Nat.le_refl _, fun hf => Or.inl hf⟩
  | array elems =>
    have h := RemoveExportsExprs.fold_opt_pats_size lhs st elems
    have hfil := sizeOptPats_filter_le keepPatElem
      (RemoveExportsExprs.fold_opt_pats lhs st elems).1
    simp only [RemoveExportsExprs.fold_pat]
    split
    · split
      · simp only [sizePat]
        constructor
        · omega
        · intro hf
          rcases h.2 hf with hrun | hlt
          · exact Or.inl hrun
          · right; omega
      · split
        · simp only [sizePat]
          constructor
          · omega
          · intro hf
            rcases h.2 hf with hrun | hlt
            · exact Or.inl hrun
            · right; omega
        · simp only [sizePat]
          constructor
          · omega
          · intro hf
            rcases h.2 hf with hrun | hlt
            · exact Or.inl hrun
            · right; omega
    · simp only [sizePat]
      constructor
      · omega
      · intro hf
        rcases h.2 hf with hrun | hlt
        · exact Or.inl hrun
        · right; omega
  | object props =>
    have h := RemoveExportsExprs.fold_object_props_size lhs st props
    have h2 := RemoveExportsExprs.object_props_filter_size
      (RemoveExportsExprs.fold_object_props lhs st props).2
      (RemoveExportsExprs.fold_object_props lhs st props).1
    simp only [RemoveExportsExprs.fold_pat]
    split
    · split
      · simp only [sizePat]
        constructor
        · omega
        · intro hf
          rcases h.2 hf with hrun | hlt
          · exact Or.inl hrun
          · right; omega
      · split
        · simp only [sizePat]
          constructor
          · omega
          · intro hf
            rcases h2.2 hf with hrun | hlt
            · rcases h.2 hrun with hrun1 | hlt1
              · exact Or.inl hrun1
              · right; omega
            · right; omega
        · simp only [sizePat]
          constructor
          · omega
          · intro hf
            rcases h2.2 hf with hrun | hlt
            · rcases h.2 hrun with hrun1 | hlt1
              · exact Or.inl hrun1
              · right; omega
            · right; omega
    · simp only [sizePat]
      constructor
      · omega
      · intro hf
        rcases h.2 hf with hrun | hlt
        · exact Or.inl hrun
        · right; omega
  | rest a =>
    have h := RemoveExportsExprs.fold_pat_size lhs st a
    have hap := sizePat_pos a
    simp only [RemoveExportsExprs.fold_pat]
    split
    · simp only [sizePat]
      exact ⟨by omega, fun _ => Or.inr (by omega)⟩
    · simp only [sizePat]
      constructor
      · omega
      · intro hf
        rcases h.2 hf with hrun | hlt
        · exact Or.inl hrun
        · right; omega
  | invalid => exact ⟨Nat.le_refl _, fun hf => Or.inl hf⟩

theorem RemoveExportsExprs.fold_pats_size (lhs : Bool) (st : State)
    (l : List Pat) :
    sizePats (RemoveExportsExprs.fold_pats lhs st l).1 ≤ sizePats l ∧
      ((RemoveExportsExprs.fold_pats lhs st l).2.should_run_again = true →
        st.should_run_again = true ∨
        sizePats (RemoveExportsExprs.fold_pats lhs st l).1 < sizePats l) := by
  cases l with
  | nil => exact ⟨Nat.le_refl _, fun hf => Or.inl hf⟩
  | cons p rest =>
    have h1 := RemoveExportsExprs.fold_pat_size lhs st p
    have h2 := RemoveExportsExprs.fold_pats_size lhs
      (RemoveExportsExprs.fold_pat lhs st p).2 rest
    simp only [RemoveExportsExprs.fold_pats, sizePats]
    constructor
    · omega
    · intro hf
      rcases h2.2 hf with hrun | hlt
      · rcases h1.2 hrun with hrun1 | hlt1
        · exact Or.inl hrun1
        · right; omega
      · right; omega

theorem RemoveExportsExprs.fold_opt_pats_size (lhs : Bool) (st : State)
    (l : List (Option Pat)) :
    sizeOptPats (RemoveExportsExprs.fold_opt_pats lhs st l).1 ≤
        sizeOptPats l ∧
      ((RemoveExportsExprs.fold_opt_pats lhs st l).2.should_run_again =
          true →
        st.should_run_again = true ∨
        sizeOptPats (RemoveExportsExprs.fold_opt_pats lhs st l).1 <
          sizeOptPats l) := by
  cases l with
  | nil => exact ⟨Nat.le_refl _, fun hf => Or.inl hf⟩
  | cons op rest =>
    cases op with
    | none =>
      have h2 := RemoveExportsExprs.fold_opt_pats_size lhs st rest
      simp only [RemoveExportsExprs.fold_opt_pats, sizeOptPats]
      constructor
      · omega
      · intro hf
        rcases h2.2 hf with hrun | hlt
        · exact Or.inl hrun
        · right; omega
    | some p =>
      have h1 := RemoveExportsExprs.fold_pat_size lhs st p
      have h2 := RemoveExportsExprs.fold_opt_pats_size lhs
        (RemoveExportsExprs.fold_pat lhs st p).2 rest
      simp only [RemoveExportsExprs.fold_opt_pats, sizeOptPats]
      constructor
      · omega
      · intro hf
        rcases h2.2 hf with hrun | hlt
        · rcases h1.2 hrun with hrun1 | hlt1
          · exact Or.inl hrun1
          · right; omega
        · right; omega

theorem RemoveExportsExprs.fold_object_props_size (lhs : Bool) (st : State)
    (l : List ObjectPatProp) :
    sizeObjectProps (RemoveExportsExprs.fold_object_props lhs st l).1 ≤
        sizeObjectProps l ∧
      ((RemoveExportsExprs.fold_object_props lhs st
            l).2.should_run_again = true →
        st.should_run_again = true ∨
        sizeObjectProps (RemoveExportsExprs.fold_object_props lhs st l).1 <
          sizeObjectProps l) := by
  cases l with
  | nil => exact ⟨Nat.le_refl _, fun hf => Or.inl hf⟩
  | cons p rest =>
    cases p with
    | keyValue k v =>
      have h1 := RemoveExportsExprs.fold_pat_size lhs st v
      have h2 := RemoveExportsExprs.fold_object_props_size lhs
        (RemoveExportsExprs.fold_pat lhs st v).2 rest
      simp only [RemoveExportsExprs.fold_object_props, sizeObjectProps,
        sizeObjectProp]
      constructor
      · omega
      · intro hf
        rcases h2.2 hf with hrun | hlt
        · rcases h1.2 hrun with hrun1 | hlt1
          · exact Or.inl hrun1
          · right; omega
        · right; omega
    | assign key val =>
      have h1 := RemoveExportsExprs.fold_opt_expr_size lhs st val
      have h2 := RemoveExportsExprs.fold_object_props_size lhs
        (RemoveExportsExprs.fold_opt_expr lhs st val).2 rest
      simp only [RemoveExportsExprs.fold_object_props, sizeObjectProps,
        sizeObjectProp]
      constructor
      · omega
      · intro hf
        rcases h2.2 hf with hrun | hlt
        · rcases h1.2 hrun with hrun1 | hlt1
          · exact Or.inl hrun1
          · right; omega
        · right; omega
    | rest a =>
      have h1 := RemoveExportsExprs.fold_pat_size lhs st a
      have h2 := RemoveExportsExprs.fold_object_props_size lhs
        (RemoveExportsExprs.fold_pat lhs st a).2 rest
      simp only [RemoveExportsExprs.fold_object_props, sizeObjectProps,
        sizeObjectProp]
      constructor
      · omega
      · intro hf
        rcases h2.2 hf with hrun | hlt
        · rcases h1.2 hrun with hrun1 | hlt1
          · exact Or.inl hrun1
          · right; omega
        · right; omega

end

theorem RemoveExportsExprs.fold_decl_size (lhs : Bool) (st : State)
    (d : Decl) :
    sizeDecl (RemoveExportsExprs.fold_decl lhs st d).1 ≤ sizeDecl d ∧
      ((RemoveExportsExprs.fold_decl lhs st d).2.should_run_again = true →
        st.should_run_again = true ∨
        sizeDecl (RemoveExportsExprs.fold_decl lhs st d).1 < sizeDecl d) := by
  cases d with
  | fnD i fn =>
    have h1 := RemoveExportsExprs.fold_function_size lhs st fn
    simp only [RemoveExportsExprs.fold_decl, sizeDecl]
    constructor
    · omega
    · intro hf
      rcases h1.2 hf with hrun | hlt
      · exact Or.inl hrun
      · right; omega
  | varD ds =>
    have h1 := RemoveExportsExprs.fold_var_declarators_size lhs st ds
    simp only [RemoveExportsExprs.fold_decl, sizeDecl]
    constructor
    · omega
    · intro hf
      rcases h1.2 hf with hrun | hlt
      · exact Or.inl hrun
      · right; omega

theorem RemoveExportsExprs.import_specifiers_retain_size (st : State)
    (l : List ImportSpecifier) :
    (RemoveExportsExprs.import_specifiers_retain st l).1.length ≤
        l.length ∧
      ((RemoveExportsExprs.import_specifiers_retain st
            l).2.should_run_again = true →
        st.should_run_again = true ∨
        (RemoveExportsExprs.import_specifiers_retain st l).1.length <
          l.length) := by
  induction l generalizing st with
  | nil => exact ⟨Nat.le_refl _, fun hf => Or.inl hf⟩
  | cons s rest ih =>
    simp only [RemoveExportsExprs.import_specifiers_retain]
    split
    · have h := ih { st with should_run_again := true }
      constructor
      · simp only [List.length_cons]; omega
      · intro _
        right; simp only [List.length_cons]; omega
    · have h := ih st
      constructor
      · simp only [List.length_cons]; omega
      · intro hf
        rcases h.2 hf with hrun | hlt
        · exact Or.inl hrun
        · right; simp only [List.length_cons]; omega

theorem RemoveExportsExprs.fold_import_decl_size (st : State)
    (l : List ImportSpecifier) :
    (RemoveExportsExprs.fold_import_decl st l).1.length ≤ l.length ∧
      ((RemoveExportsExprs.fold_import_decl st l).2.should_run_again =
          true →
        st.should_run_again = true ∨
        (RemoveExportsExprs.fold_import_decl st l).1.length < l.length) := by
  unfold RemoveExportsExprs.fold_import_decl
  split
  · exact ⟨Nat.le_refl _, fun hf => Or.inl hf⟩
  · exact RemoveExportsExprs.import_specifiers_retain_size st l

theorem RemoveExportsExprs.export_specifiers_retain_size (st : State)
    (l : List ExportSpecifier) :
    (RemoveExportsExprs.export_specifiers_retain st l).1.length ≤
        l.length ∧
      ((RemoveExportsExprs.export_specifiers_retain st
            l).2.should_run_again = true →
        st.should_run_again = true ∨
        (RemoveExportsExprs.export_specifiers_retain st l).1.length <
          l.length) := by
  induction l generalizing st with
  | nil => exact ⟨Nat.le_refl _, fun hf => Or.inl hf⟩
  | cons s rest ih =>
    cases s with
    | namespaceS n =>
      simp only [RemoveExportsExprs.export_specifiers_retain]
      split
      · have h := ih st
        constructor
        · simp only [List.length_cons]; omega
        · intro hf
          rcases h.2 hf with hrun | hlt
          · exact Or.inl hrun
          · right; simp only [List.length_cons]; omega
      · have h := ih st
        constructor
        · simp only [List.length_cons]; omega
        · intro _
          right; simp only [List.length_cons]; omega
    | defaultS e =>
      simp only [RemoveExportsExprs.export_specifiers_retain]
      split
      · have h := ih st
        constructor
        · simp only [List.length_cons]; omega
        · intro hf
          rcases h.2 hf with hrun | hlt
          · exact Or.inl hrun
          · right; simp only [List.length_cons]; omega
      · have h := ih st
        constructor
        · simp only [List.length_cons]; omega
        · intro _
          right; simp only [List.length_cons]; omega
    | named orig exported =>
      cases orig with
      | str so =>
        simp only [RemoveExportsExprs.export_specifiers_retain]
        split
        · have h := ih st
          constructor
          · simp only [List.length_cons]; omega
          · intro hf
            rcases h.2 hf with hrun | hlt
            · exact Or.inl hrun
            · right; simp only [List.length_cons]; omega
        · have h := ih st
          constructor
          · simp only [List.length_cons]; omega
          · intro _
            right; simp only [List.length_cons]; omega
      | ident o =>
        simp only [RemoveExportsExprs.export_specifiers_retain]
        split
        · have h := ih st
          constructor
          · simp only [List.length_cons]; omega
          · intro hf
            rcases h.2 hf with hrun | hlt
            · exact Or.inl hrun
            · right; simp only [List.length_cons]; omega
        · have h := ih { st with
            should_run_again := true
            refs_from_data_fn := insertId o.toId st.refs_from_data_fn }
          constructor
          · simp only [List.length_cons]; omega
          · intro _
            right; simp only [List.length_cons]; omega

theorem sizeFnExpr_create_empty_fn : sizeFnExpr create_empty_fn = 0 := rfl

theorem RemoveExportsExprs.fold_module_item_size (lhs : Bool) (st : State)
    (i : ModuleItem) :
    sizeItem (RemoveExportsExprs.fold_module_item lhs st i).1 ≤ sizeItem i ∧
      ((RemoveExportsExprs.fold_module_item lhs st
            i).2.should_run_again = true →
        st.should_run_again = true ∨
        sizeItem (RemoveExportsExprs.fold_module_item lhs st i).1 <
          sizeItem i) := by
  cases i with
  | importI sp src =>
    have h := RemoveExportsExprs.fold_import_decl_size st sp
    simp only [RemoveExportsExprs.fold_module_item]
    split
    · simp only [sizeItem, sizeStmt, sizeImportSpecifiers]
      exact ⟨by omega, fun hf => Or.inr (by omega)⟩
    · simp only [sizeItem, sizeImportSpecifiers]
      constructor
      · omega
      · intro hf
        rcases h.2 hf with hrun | hlt
        · exact Or.inl hrun
        · right; omega
  | stmtI s =>
    have h := RemoveExportsExprs.fold_stmt_size lhs st s
    simp only [RemoveExportsExprs.fold_module_item, sizeItem]
    exact h
  | exportDecl d =>
    have h := RemoveExportsExprs.fold_decl_size lhs st d
    simp only [RemoveExportsExprs.fold_module_item, sizeItem]
    constructor
    · omega
    · intro hf
      rcases h.2 hf with hrun | hlt
      · exact Or.inl hrun
      · right; omega
  | exportNamed sp src =>
    have h := RemoveExportsExprs.export_specifiers_retain_size st sp
    simp only [RemoveExportsExprs.fold_module_item,
      RemoveExportsExprs.fold_named_export]
    split
    · simp only [sizeItem, sizeStmt, sizeExportSpecifiers]
      exact ⟨by omega, fun hf => Or.inr (by omega)⟩
    · simp only [sizeItem, sizeExportSpecifiers]
      constructor
      · omega
      · intro hf
        rcases h.2 hf with hrun | hlt
        · exact Or.inl hrun
        · right; omega
  | exportDefaultDecl d =>
    cases d with
    | fnDD f =>
      simp only [RemoveExportsExprs.fold_module_item,
        RemoveExportsExprs.fold_default_decl]
      split
      · simp only [sizeItem, sizeDefaultDecl, sizeFnExpr_create_empty_fn]
        exact ⟨by omega, fun hf => Or.inl hf⟩
      · exact ⟨Nat.le_refl _, fun hf => Or.inl hf⟩
  | exportDefaultExpr e =>
    have hep := sizeExpr_pos e
    simp only [RemoveExportsExprs.fold_module_item,
      RemoveExportsExprs.fold_export_default_expr]
    split
    · simp only [sizeItem, sizeExpr, sizeFnExpr_create_empty_fn]
      exact ⟨by omega, fun hf => Or.inl hf⟩
    · exact ⟨Nat.le_refl _, fun hf => Or.inl hf⟩

theorem RemoveExportsExprs.fold_module_items_size (lhs : Bool) (st : State)
    (l : ModuleAst) :
    sizeItems (RemoveExportsExprs.fold_module_items lhs st l).1 ≤
        sizeItems l ∧
      ((RemoveExportsExprs.fold_module_items lhs st
            l).2.should_run_again = true →
        st.should_run_again = true ∨
        sizeItems (RemoveExportsExprs.fold_module_items lhs st l).1 <
          sizeItems l) := by
  induction l generalizing st with
  | nil => exact ⟨Nat.le_refl _, fun hf => Or.inl hf⟩
  | cons i rest ih =>
    have h1 := RemoveExportsExprs.fold_module_item_size lhs st i
    have h2 := ih (RemoveExportsExprs.fold_module_item lhs st i).2
    simp only [RemoveExportsExprs.fold_module_items, sizeItems]
    constructor
    · omega
    · intro hf
      rcases h2.2 hf with hrun | hlt
      · rcases h1.2 hrun with hrun1 | hlt1
        · exact Or.inl hrun1
        · right; omega
      · right; omega

theorem RemoveExportsExprs.fold_module_items_length (lhs : Bool)
    (st : State) (l : ModuleAst) :
    (RemoveExportsExprs.fold_module_items lhs st l).1.length = l.length := by
  induction l generalizing st with
  | nil => rfl
  | cons i rest ih =>
    simp only [RemoveExportsExprs.fold_module_items, List.length_cons]
    rw [ih]

theorem sizeItem_shape_le (t : List String) (i : ModuleItem) :
    sizeItem (analyzerItemShape t i) ≤ sizeItem i := by
  cases i with
  | exportDecl d =>
    cases d with
    | fnD n f =>
      rw [analyzerItemShape_fn]
      split
      · simp only [sizeItem, sizeStmt, sizeDecl]; omega
      · exact Nat.le_refl _
    | varD ds =>
      cases ds with
      | nil =>
        rw [analyzerItemShape_varNil]
        simp only [sizeItem, sizeStmt, sizeDecl]; omega
      | cons d0 rest =>
        rw [analyzerItemShape_varCons]
  | stmtI s => exact Nat.le_refl _
  | importI sp src => exact Nat.le_refl _
  | exportNamed sp src => exact Nat.le_refl _
  | exportDefaultDecl d => exact Nat.le_refl _
  | exportDefaultExpr e => exact Nat.le_refl _

theorem sizeItems_map_shape_le (t : List String) (m : ModuleAst) :
    sizeItems (m.map (analyzerItemShape t)) ≤ sizeItems m := by
  induction m with
  | nil => exact Nat.le_refl _
  | cons i rest ih =>
    have h := sizeItem_shape_le t i
    simp only [List.map, sizeItems]
    omega

theorem RemoveExportsExprs.fold_module_size (st : State) (m : ModuleAst) :
    sizeItems (RemoveExportsExprs.fold_module st m).1 ≤ sizeItems m ∧
      ((RemoveExportsExprs.fold_module st m).2.should_run_again = true →
        st.should_run_again = true ∨
        sizeItems (RemoveExportsExprs.fold_module st m).1 < sizeItems m) ∧
      (RemoveExportsExprs.fold_module st m).1.length ≤ m.length := by
  have ha := Analyzer.fold_module_items_spec false false st m
  have hr := RemoveExportsExprs.fold_module_items_size false
    (Analyzer.fold_module_items false false st m).2
    (Analyzer.fold_module_items false false st m).1
  have hlen := RemoveExportsExprs.fold_module_items_length false
    (Analyzer.fold_module_items false false st m).2
    (Analyzer.fold_module_items false false st m).1
  have hshape : sizeItems (Analyzer.fold_module_items false false st m).1 ≤
      sizeItems m := by
    rw [ha.1]; exact sizeItems_map_shape_le _ m
  have hshapelen :
      (Analyzer.fold_module_items false false st m).1.length = m.length := by
    rw [ha.1]; exact List.length_map _ _
  have hret := sizeItems_filter_le (fun s => match s with
    | .stmtI .empty => false
    | _ => true)
    (RemoveExportsExprs.fold_module_items false
      (Analyzer.fold_module_items false false st m).2
      (Analyzer.fold_module_items false false st m).1).1
  have hretlen := List.length_filter_le (fun s => match s with
    | .stmtI .empty => false
    | _ => true)
    (RemoveExportsExprs.fold_module_items false
      (Analyzer.fold_module_items false false st m).2
      (Analyzer.fold_module_items false false st m).1).1
  refine ⟨?_, ?_, ?_⟩
  · simp only [RemoveExportsExprs.fold_module,
      RemoveExportsExprs.retain_items]
    omega
  · intro hf
    simp only [RemoveExportsExprs.fold_module] at hf
    rcases hr.2 hf with hrun | hlt
    · left
      rw [ha.2.2.1] at hrun
      exact hrun
    · right
      simp only [RemoveExportsExprs.fold_module,
        RemoveExportsExprs.retain_items]
      omega
  · simp only [RemoveExportsExprs.fold_module,
      RemoveExportsExprs.retain_items]
    omega

theorem repeatLoop_flag (fuel : Nat) (st : State) (m : ModuleAst)
    (h : sizeItems m < fuel) :
    (repeatLoop fuel st m).2.should_run_again = false := by
  induction fuel generalizing st m with
  | zero => exact absurd h (Nat.not_lt_zero _)
  | succ fuel ih =>
    simp only [repeatLoop]
    cases hrun : (RemoveExportsExprs.fold_module st.reset
        m).2.should_run_again with
    | true =>
      rw [if_pos rfl]
      have hp := RemoveExportsExprs.fold_module_size st.reset m
      have hreset : (State.reset st).should_run_again = false := rfl
      rcases hp.2.1 hrun with hrun0 | hlt
      · rw [hreset] at hrun0
        exact Bool.noConfusion hrun0
      · exact ih _ _ (by omega)
    | false =>
      rw [if_neg Bool.false_ne_true]
      exact hrun

theorem repeatLoop_length (fuel : Nat) (st : State) (m : ModuleAst) :
    (repeatLoop fuel st m).1.length ≤ m.length := by
  induction fuel generalizing st m with
  | zero => exact Nat.le_refl _
  | succ fuel ih =>
    have hp := RemoveExportsExprs.fold_module_size st.reset m
    simp only [repeatLoop]
    cases hrun : (RemoveExportsExprs.fold_module st.reset
        m).2.should_run_again with
    | true =>
      rw [if_pos rfl]
      exact Nat.le_trans (ih _ _) hp.2.2
    | false =>
      rw [if_neg Bool.false_ne_true]
      exact hp.2.2

/-- C3: the fixed-point loop always terminates — `sizeItems m + 1` passes
(more generally any fuel exceeding the input's size) suffice to reach a
pass that leaves the Run-Again flag unset — and the two monotonicity facts
the spec cites hold as well: the module's item count never increases
across a pass (nor across the whole loop), and DataRefs only grows during
a pass. -/
theorem claim_C3 (st : State) (m : ModuleAst) (fuel : Nat) (x : BindingId)
    (hfuel : sizeItems m < fuel) (hx : x ∈ st.refs_from_data_fn) :
    (repeatLoop fuel st m).2.should_run_again = false ∧
    (RemoveExportsExprs.fold_module st m).1.length ≤ m.length ∧
    x ∈ (RemoveExportsExprs.fold_module st m).2.refs_from_data_fn ∧
    (repeatLoop fuel st m).1.length ≤ m.length :=
  ⟨repeatLoop_flag fuel st m hfuel,
   (RemoveExportsExprs.fold_module_size st m).2.2,
   fold_module_data_mono st m x hx,
   repeatLoop_length fuel st m⟩

/-- Witness for C3 at a concrete state and module. -/
theorem claim_C3_witness :
    sizeItems ([] : ModuleAst) < 1 ∧
    ("gone", 0) ∈ importWitnessState.refs_from_data_fn ∧
    ((repeatLoop 1 importWitnessState []).2.should_run_again = false ∧
     (RemoveExportsExprs.fold_module importWitnessState
        []).1.length ≤ ([] : ModuleAst).length ∧
     ("gone", 0) ∈ (RemoveExportsExprs.fold_module importWitnessState
        []).2.refs_from_data_fn ∧
     (repeatLoop 1 importWitnessState []).1.length ≤
       ([] : ModuleAst).length) :=
  ⟨by decide, by decide,
   claim_C3 importWitnessState [] 1 ("gone", 0) (by decide) (by decide)⟩

/-!
Toward idempotence.  First: a rewriter fold whose final state does not
carry the Run-Again flag performed no state change at all — every state
modification the rewriter can make sets the flag, and the flag is never
cleared during a pass.
-/

theorem run_false_left {a b : State}
    (hmono : a.should_run_again = true → b.should_run_again = true)
    (h : b.should_run_again = false) : a.should_run_again = false := by
  cases hh : a.should_run_again with
  | false => rfl
  | true =>
    rw [hmono hh] at h
    exact Bool.noConfusion h

theorem eqFalseNeTrue {x : Bool} (h : x = false) : ¬(x = true) :=
  fun hc => Bool.noConfusion (h ▸ hc)

theorem markAsCandidateFunction_run (st : State) (f : Function) :
    (markAsCandidateFunction st f).2.should_run_again = true := rfl

theorem markAsCandidateOptExpr_run (st : State) (e : Option Expr) :
    (markAsCandidateOptExpr st e).2.should_run_again = true := rfl

theorem RemoveExportsExprs.object_props_filter_stable (st : State)
    (l : List ObjectPatProp)
    (h : (RemoveExportsExprs.object_props_filter st l).2.should_run_again =
      false) :
    (RemoveExportsExprs.object_props_filter st l).2 = st := by
  induction l generalizing st with
  | nil => rfl
  | cons p rest ih =>
    cases p with
    | keyValue k v =>
      simp only [RemoveExportsExprs.object_props_filter] at h ⊢
      split at h
      · next hc =>
        rw [if_pos hc]
        exact ih st h
      · next hc =>
        rw [if_neg hc]
        exact ih st h
    | assign key val =>
      simp only [RemoveExportsExprs.object_props_filter] at h ⊢
      split at h
      · next hc =>
        have hmono := (RemoveExportsExprs.object_props_filter_rbasic
          (markAsCandidateOptExpr st val).2 rest).2.2.2.1
        have := hmono (markAsCandidateOptExpr_run st val)
        rw [this] at h
        exact Bool.noConfusion h
      · next hc =>
        rw [if_neg hc]
        exact ih st h
    | rest a =>
      simp only [RemoveExportsExprs.object_props_filter] at h ⊢
      split at h
      · next hc =>
        rw [if_pos hc]
        exact ih st h
      · next hc =>
        rw [if_neg hc]
        exact ih st h

mutual

theorem RemoveExportsExprs.fold_expr_stable (lhs : Bool) (st : State)
    (e : Expr)
    (h : (RemoveExportsExprs.fold_expr lhs st e).2.should_run_again =
      false) :
    (RemoveExportsExprs.fold_expr lhs st e).2 = st := by
  cases e with
  | ident i => rfl
  | lit n => rfl
  | call callee args =>
    simp only [RemoveExportsExprs.fold_expr] at h ⊢
    have hc := run_false_left (RemoveExportsExprs.fold_exprs_rbasic lhs
      (RemoveExportsExprs.fold_expr lhs st callee).2 args).2.2.2.1 h
    have h1 := RemoveExportsExprs.fold_expr_stable lhs st callee hc
    have h2 := RemoveExportsExprs.fold_exprs_stable lhs
      (RemoveExportsExprs.fold_expr lhs st callee).2 args h
    rw [h2, h1]
  | member obj prop =>
    simp only [RemoveExportsExprs.fold_expr] at h ⊢
    exact RemoveExportsExprs.fold_expr_stable lhs st obj h
  | fnE f =>
    simp only [RemoveExportsExprs.fold_expr] at h ⊢
    exact RemoveExportsExprs.fold_fn_expr_stable lhs st f h

theorem RemoveExportsExprs.fold_exprs_stable (lhs : Bool) (st : State)
    (l : List Expr)
    (h : (RemoveExportsExprs.fold_exprs lhs st l).2.should_run_again =
      false) :
    (RemoveExportsExprs.fold_exprs lhs st l).2 = st := by
  cases l with
  | nil => rfl
  | cons e rest =>
    simp only [RemoveExportsExprs.fold_exprs] at h ⊢
    have hc := run_false_left (RemoveExportsExprs.fold_exprs_rbasic lhs
      (RemoveExportsExprs.fold_expr lhs st e).2 rest).2.2.2.1 h
    have h1 := RemoveExportsExprs.fold_expr_stable lhs st e hc
    have h2 := RemoveExportsExprs.fold_exprs_stable lhs
      (RemoveExportsExprs.fold_expr lhs st e).2 rest h
    rw [h2, h1]

theorem RemoveExportsExprs.fold_opt_expr_stable (lhs : Bool) (st : State)
    (oe : Option Expr)
    (h : (RemoveExportsExprs.fold_opt_expr lhs st oe).2.should_run_again =
      false) :
    (RemoveExportsExprs.fold_opt_expr lhs st oe).2 = st := by
  cases oe with
  | none => rfl
  | some e =>
    simp only [RemoveExportsExprs.fold_opt_expr] at h ⊢
    exact RemoveExportsExprs.fold_expr_stable lhs st e h

theorem RemoveExportsExprs.fold_fn_expr_stable (lhs : Bool) (st : State)
    (f : FnExpr)
    (h : (RemoveExportsExprs.fold_fn_expr lhs st f).2.should_run_again =
      false) :
    (RemoveExportsExprs.fold_fn_expr lhs st f).2 = st := by
  cases f with
  | mk oid fn =>
    simp only [RemoveExportsExprs.fold_fn_expr] at h ⊢
    exact RemoveExportsExprs.fold_function_stable lhs st fn h

theorem RemoveExportsExprs.fold_function_stable (lhs : Bool) (st : State)
    (f : Function)
    (h : (RemoveExportsExprs.fold_function lhs st f).2.should_run_again =
      false) :
    (RemoveExportsExprs.fold_function lhs st f).2 = st := by
  cases f with
  | mk params body =>
    cases body with
    | none =>
      simp only [RemoveExportsExprs.fold_function] at h ⊢
      exact RemoveExportsExprs.fold_pats_stable lhs st params h
    | some ss =>
      simp only [RemoveExportsExprs.fold_function] at h ⊢
      have hc := run_false_left (RemoveExportsExprs.fold_stmts_rbasic lhs
        (RemoveExportsExprs.fold_pats lhs st params).2 ss).2.2.2.1 h
      have h1 := RemoveExportsExprs.fold_pats_stable lhs st params hc
      have h2 := RemoveExportsExprs.fold_stmts_stable lhs
        (RemoveExportsExprs.fold_pats lhs st params).2 ss h
      rw [h2, h1]

theorem RemoveExportsExprs.fold_stmt_stable (lhs : Bool) (st : State)
    (s : Stmt)
    (h : (RemoveExportsExprs.fold_stmt lhs st s).2.should_run_again =
      false) :
    (RemoveExportsExprs.fold_stmt lhs st s).2 = st := by
  cases s with
  | decl d =>
    cases d with
    | fnD i fn =>
      simp only [RemoveExportsExprs.fold_stmt] at h ⊢
      split at h
      · next hc =>
        have h2 : (markAsCandidateFunction st fn).2.should_run_again =
          false := h
        rw [markAsCandidateFunction_run] at h2
        exact Bool.noConfusion h2
      · next hc =>
        rw [if_neg hc]
        have h2 : (RemoveExportsExprs.fold_function lhs st
          fn).2.should_run_again = false := h
        exact RemoveExportsExprs.fold_function_stable lhs st fn h2
    | varD ds =>
      have hstate : (RemoveExportsExprs.fold_stmt lhs st
          (.decl (.varD ds))).2 =
          (RemoveExportsExprs.fold_var_declarators lhs st ds).2 := by
        simp only [RemoveExportsExprs.fold_stmt]
        split <;> rfl
      rw [hstate] at h ⊢
      exact RemoveExportsExprs.fold_var_declarators_stable lhs st ds h
  | expr e =>
    simp only [RemoveExportsExprs.fold_stmt] at h ⊢
    exact RemoveExportsExprs.fold_expr_stable lhs st e h
  | empty => rfl
  | ret oe =>
    simp only [RemoveExportsExprs.fold_stmt] at h ⊢
    exact RemoveExportsExprs.fold_opt_expr_stable lhs st oe h

theorem RemoveExportsExprs.fold_stmts_stable (lhs : Bool) (st : State)
    (l : List Stmt)
    (h : (RemoveExportsExprs.fold_stmts lhs st l).2.should_run_again =
      false) :
    (RemoveExportsExprs.fold_stmts lhs st l).2 = st := by
  cases l with
  | nil => rfl
  | cons s rest =>
    simp only [RemoveExportsExprs.fold_stmts] at h ⊢
    have hc := run_false_left (RemoveExportsExprs.fold_stmts_rbasic lhs
      (RemoveExportsExprs.fold_stmt lhs st s).2 rest).2.2.2.1 h
    have h1 := RemoveExportsExprs.fold_stmt_stable lhs st s hc
    have h2 := RemoveExportsExprs.fold_stmts_stable lhs
      (RemoveExportsExprs.fold_stmt lhs st s).2 rest h
    rw [h2, h1]

theorem RemoveExportsExprs.fold_var_declarator_stable (lhs : Bool)
    (st : State) (d : VarDeclarator)
    (h : (RemoveExportsExprs.fold_var_declarator lhs st
      d).2.should_run_again = false) :
    (RemoveExportsExprs.fold_var_declarator lhs st d).2 = st := by
  cases d with
  | mk name init =>
    simp only [RemoveExportsExprs.fold_var_declarator] at h ⊢
    cases hinv : (RemoveExportsExprs.fold_pat true st name).1.isInvalid with
    | true =>
      rw [if_pos hinv] at h
      have hmono := (RemoveExportsExprs.fold_opt_expr_rbasic false
        (markAsCandidateOptExpr
          (RemoveExportsExprs.fold_pat true st name).2 init).2
        init).2.2.2.1
      have := hmono (markAsCandidateOptExpr_run _ init)
      rw [this] at h
      exact Bool.noConfusion h
    | false =>
      rw [if_neg (eqFalseNeTrue hinv)] at h
      rw [if_neg Bool.false_ne_true]
      have hc := run_false_left (RemoveExportsExprs.fold_opt_expr_rbasic
        false (RemoveExportsExprs.fold_pat true st name).2 init).2.2.2.1 h
      have h1 := RemoveExportsExprs.fold_pat_stable true st name hc
      have h2 := RemoveExportsExprs.fold_opt_expr_stable false
        (RemoveExportsExprs.fold_pat true st name).2 init h
      rw [h2, h1]

theorem RemoveExportsExprs.fold_var_declarators_stable (lhs : Bool)
    (st : State) (l : List VarDeclarator)
    (h : (RemoveExportsExprs.fold_var_declarators lhs st
      l).2.should_run_again = false) :
    (RemoveExportsExprs.fold_var_declarators lhs st l).2 = st := by
  cases l with
  | nil => rfl
  | cons d rest =>
    simp only [RemoveExportsExprs.fold_var_declarators] at h ⊢
    have hc := run_false_left
      (RemoveExportsExprs.fold_var_declarators_rbasic lhs
        (RemoveExportsExprs.fold_var_declarator lhs st d).2 rest).2.2.2.1 h
    have h1 := RemoveExportsExprs.fold_var_declarator_stable lhs st d hc
    have h2 := RemoveExportsExprs.fold_var_declarators_stable lhs
      (RemoveExportsExprs.fold_var_declarator lhs st d).2 rest h
    rw [h2, h1]

theorem RemoveExportsExprs.fold_pat_stable (lhs : Bool) (st : State)
    (p : Pat)
    (h : (RemoveExportsExprs.fold_pat lhs st p).2.should_run_again =
      false) :
    (RemoveExportsExprs.fold_pat lhs st p).2 = st := by
  cases p with
  | ident i =>
    simp only [RemoveExportsExprs.fold_pat] at h ⊢
    split at h
    · next hc =>
      have h2 : ({ st with should_run_again := true } :
        State).should_run_again = false := h
      exact Bool.noConfusion h2
    · next hc =>
      rw [if_neg hc]
  | array elems =>
    have hstate : (RemoveExportsExprs.fold_pat lhs st (.array elems)).2 =
        (RemoveExportsExprs.fold_opt_pats lhs st elems).2 := by
      simp only [RemoveExportsExprs.fold_pat]
      split
      · split
        · rfl
        · split <;> rfl
      · rfl
    rw [hstate] at h ⊢
    exact RemoveExportsExprs.fold_opt_pats_stable lhs st elems h
  | object props =>
    have hkey : (RemoveExportsExprs.fold_pat lhs st (.object props)).2 =
        (RemoveExportsExprs.object_props_filter
          (RemoveExportsExprs.fold_object_props lhs st props).2
          (RemoveExportsExprs.fold_object_props lhs st props).1).2 ∨
        (RemoveExportsExprs.fold_pat lhs st (.object props)).2 =
        (RemoveExportsExprs.fold_object_props lhs st props).2 := by
      simp only [RemoveExportsExprs.fold_pat]
      split
      · split
        · exact Or.inr rfl
        · split
          · exact Or.inl rfl
          · exact Or.inl rfl
      · exact Or.inr rfl
    rcases hkey with hk | hk
    · rw [hk] at h ⊢
      have hf := RemoveExportsExprs.object_props_filter_stable _ _ h
      rw [hf] at h ⊢
      exact RemoveExportsExprs.fold_object_props_stable lhs st props h
    · rw [hk] at h ⊢
      exact RemoveExportsExprs.fold_object_props_stable lhs st props h
  | rest a =>
    have hstate : (RemoveExportsExprs.fold_pat lhs st (.rest a)).2 =
        (RemoveExportsExprs.fold_pat lhs st a).2 := by
      simp only [RemoveExportsExprs.fold_pat]
      split <;> rfl
    rw [hstate] at h ⊢
    exact RemoveExportsExprs.fold_pat_stable lhs st a h
  | invalid => rfl

theorem RemoveExportsExprs.fold_pats_stable (lhs : Bool) (st : State)
    (l : List Pat)
    (h : (RemoveExportsExprs.fold_pats lhs st l).2.should_run_again =
      false) :
    (RemoveExportsExprs.fold_pats lhs st l).2 = st := by
  cases l with
  | nil => rfl
  | cons p rest =>
    simp only [RemoveExportsExprs.fold_pats] at h ⊢
    have hc := run_false_left (RemoveExportsExprs.fold_pats_rbasic lhs
      (RemoveExportsExprs.fold_pat lhs st p).2 rest).2.2.2.1 h
    have h1 := RemoveExportsExprs.fold_pat_stable lhs st p hc
    have h2 := RemoveExportsExprs.fold_pats_stable lhs
      (RemoveExportsExprs.fold_pat lhs st p).2 rest h
    rw [h2, h1]

theorem RemoveExportsExprs.fold_opt_pats_stable (lhs : Bool) (st : State)
    (l : List (Option Pat))
    (h : (RemoveExportsExprs.fold_opt_pats lhs st l).2.should_run_again =
      false) :
    (RemoveExportsExprs.fold_opt_pats lhs st l).2 = st := by
  cases l with
  | nil => rfl
  | cons op rest =>
    cases op with
    | none =>
      simp only [RemoveExportsExprs.fold_opt_pats] at h ⊢
      exact RemoveExportsExprs.fold_opt_pats_stable lhs st rest h
    | some p =>
      simp only [RemoveExportsExprs.fold_opt_pats] at h ⊢
      have hc := run_false_left (RemoveExportsExprs.fold_opt_pats_rbasic
        lhs (RemoveExportsExprs.fold_pat lhs st p).2 rest).2.2.2.1 h
      have h1 := RemoveExportsExprs.fold_pat_stable lhs st p hc
      have h2 := RemoveExportsExprs.fold_opt_pats_stable lhs
        (RemoveExportsExprs.fold_pat lhs st p).2 rest h
      rw [h2, h1]

theorem RemoveExportsExprs.fold_object_props_stable (lhs : Bool)
    (st : State) (l : List ObjectPatProp)
    (h : (RemoveExportsExprs.fold_object_props lhs st
      l).2.should_run_again = false) :
    (RemoveExportsExprs.fold_object_props lhs st l).2 = st := by
  cases l with
  | nil => rfl
  | cons p rest =>
    cases p with
    | keyValue k v =>
      simp only [RemoveExportsExprs.fold_object_props] at h ⊢
      have hc := run_false_left
        (RemoveExportsExprs.fold_object_props_rbasic lhs
          (RemoveExportsExprs.fold_pat lhs st v).2 rest).2.2.2.1 h
      have h1 := RemoveExportsExprs.fold_pat_stable lhs st v hc
      have h2 := RemoveExportsExprs.fold_object_props_stable lhs
        (RemoveExportsExprs.fold_pat lhs st v).2 rest h
      rw [h2, h1]
    | assign key val =>
      simp only [RemoveExportsExprs.fold_object_props] at h ⊢
      have hc := run_false_left
        (RemoveExportsExprs.fold_object_props_rbasic lhs
          (RemoveExportsExprs.fold_opt_expr lhs st val).2 rest).2.2.2.1 h
      have h1 := RemoveExportsExprs.fold_opt_expr_stable lhs st val hc
      have h2 := RemoveExportsExprs.fold_object_props_stable lhs
        (RemoveExportsExprs.fold_opt_expr lhs st val).2 rest h
      rw [h2, h1]
    | rest a =>
      simp only [RemoveExportsExprs.fold_object_props] at h ⊢
      have hc := run_false_left
        (RemoveExportsExprs.fold_object_props_rbasic lhs
          (RemoveExportsExprs.fold_pat lhs st a).2 rest).2.2.2.1 h
      have h1 := RemoveExportsExprs.fold_pat_stable lhs st a hc
      have h2 := RemoveExportsExprs.fold_object_props_stable lhs
        (RemoveExportsExprs.fold_pat lhs st a).2 rest h
      rw [h2, h1]

end

theorem RemoveExportsExprs.fold_decl_stable (lhs : Bool) (st : State)
    (d : Decl)
    (h : (RemoveExportsExprs.fold_decl lhs st d).2.should_run_again =
      false) :
    (RemoveExportsExprs.fold_decl lhs st d).2 = st := by
  cases d with
  | fnD i fn =>
    simp only [RemoveExportsExprs.fold_decl] at h ⊢
    exact RemoveExportsExprs.fold_function_stable lhs st fn h
  | varD ds =>
    simp only [RemoveExportsExprs.fold_decl] at h ⊢
    exact RemoveExportsExprs.fold_var_declarators_stable lhs st ds h

theorem RemoveExportsExprs.import_specifiers_retain_stable (st : State)
    (l : List ImportSpecifier)
    (h : (RemoveExportsExprs.import_specifiers_retain st
      l).2.should_run_again = false) :
    RemoveExportsExprs.import_specifiers_retain st l = (l, st) ∧
    ∀ s ∈ l, st.should_remove s.locl.toId = false := by
  induction l with
  | nil => exact ⟨rfl, fun s hs => absurd hs (List.not_mem_nil s)⟩
  | cons s rest ih =>
    simp only [RemoveExportsExprs.import_specifiers_retain] at h ⊢
    split at h
    · next hc =>
      have hmono := (RemoveExportsExprs.import_specifiers_retain_rbasic
        { st with should_run_again := true } rest).2.2.2.1
      have : ({ st with should_run_again := true } :
        State).should_run_again = true := rfl
      rw [hmono this] at h
      exact Bool.noConfusion h
    · next hc =>
      have hr := ih h
      constructor
      · rw [if_neg hc, hr.1]
      · intro x hx
        rcases List.mem_cons.mp hx with hx | hx
        · subst hx
          cases hcc : st.should_remove x.locl.toId with
          | false => rfl
          | true => exact absurd hcc hc
        · exact hr.2 x hx

theorem RemoveExportsExprs.export_specifiers_retain_stable (st : State)
    (l : List ExportSpecifier)
    (h : (RemoveExportsExprs.export_specifiers_retain st
      l).2.should_run_again = false) :
    (RemoveExportsExprs.export_specifiers_retain st l).2 = st := by
  induction l with
  | nil => rfl
  | cons s rest ih =>
    simp only [RemoveExportsExprs.export_specifiers_retain] at h ⊢
    split at h
    · next hc =>
      rw [if_pos hc]
      exact ih h
    · next hc =>
      rw [if_neg hc]
      cases s with
      | namespaceS n => exact ih h
      | defaultS e => exact ih h
      | named orig exported =>
        cases orig with
        | str so => exact ih h
        | ident o =>
          have hmono := (RemoveExportsExprs.export_specifiers_retain_rbasic
            { st with
              should_run_again := true
              refs_from_data_fn := insertId o.toId st.refs_from_data_fn }
            rest).2.2.2.1
          have hrun : ({ st with
              should_run_again := true
              refs_from_data_fn := insertId o.toId st.refs_from_data_fn } :
              State).should_run_again = true := rfl
          rw [hmono hrun] at h
          exact Bool.noConfusion h

theorem RemoveExportsExprs.fold_import_decl_stable (st : State)
    (l : List ImportSpecifier)
    (h : (RemoveExportsExprs.fold_import_decl st l).2.should_run_again =
      false) :
    RemoveExportsExprs.fold_import_decl st l = (l, st) := by
  unfold RemoveExportsExprs.fold_import_decl at h ⊢
  split at h
  · next hc => rw [if_pos hc]
  · next hc =>
    rw [if_neg hc]
    exact (RemoveExportsExprs.import_specifiers_retain_stable st l h).1

theorem RemoveExportsExprs.fold_module_item_stable (lhs : Bool)
    (st : State) (i : ModuleItem)
    (h : (RemoveExportsExprs.fold_module_item lhs st
      i).2.should_run_again = false) :
    (RemoveExportsExprs.fold_module_item lhs st i).2 = st := by
  cases i with
  | importI sp src =>
    have hstate : (RemoveExportsExprs.fold_module_item lhs st
        (.importI sp src)).2 =
        (RemoveExportsExprs.fold_import_decl st sp).2 := by
      simp only [RemoveExportsExprs.fold_module_item]
      split <;> rfl
    rw [hstate] at h ⊢
    rw [(RemoveExportsExprs.fold_import_decl_stable st sp h)]
  | stmtI s =>
    simp only [RemoveExportsExprs.fold_module_item] at h ⊢
    exact RemoveExportsExprs.fold_stmt_stable lhs st s h
  | exportDecl d =>
    simp only [RemoveExportsExprs.fold_module_item] at h ⊢
    exact RemoveExportsExprs.fold_decl_stable lhs st d h
  | exportNamed sp src =>
    have hstate : (RemoveExportsExprs.fold_module_item lhs st
        (.exportNamed sp src)).2 =
        (RemoveExportsExprs.export_specifiers_retain st sp).2 := by
      simp only [RemoveExportsExprs.fold_module_item,
        RemoveExportsExprs.fold_named_export]
      split <;> rfl
    rw [hstate] at h ⊢
    exact RemoveExportsExprs.export_specifiers_retain_stable st sp h
  | exportDefaultDecl d =>
    have hstate : (RemoveExportsExprs.fold_module_item lhs st
        (.exportDefaultDecl d)).2 = st := by
      simp only [RemoveExportsExprs.fold_module_item,
        RemoveExportsExprs.fold_default_decl]
      split <;> rfl
    exact hstate
  | exportDefaultExpr e =>
    have hstate : (RemoveExportsExprs.fold_module_item lhs st
        (.exportDefaultExpr e)).2 = st := by
      simp only [RemoveExportsExprs.fold_module_item,
        RemoveExportsExprs.fold_export_default_expr]
      split <;> rfl
    exact hstate

theorem RemoveExportsExprs.fold_module_items_stable (lhs : Bool)
    (st : State) (l : ModuleAst)
    (h : (RemoveExportsExprs.fold_module_items lhs st
      l).2.should_run_again = false) :
    (RemoveExportsExprs.fold_module_items lhs st l).2 = st ∧
    (RemoveExportsExprs.fold_module_items lhs st l).1 =
      l.map (fun j => (RemoveExportsExprs.fold_module_item lhs st j).1) ∧
    ∀ j ∈ l,
      (RemoveExportsExprs.fold_module_item lhs st
        j).2.should_run_again = false ∧
      (RemoveExportsExprs.fold_module_item lhs st j).2 = st := by
  induction l with
  | nil => exact ⟨rfl, rfl, fun j hj => absurd hj (List.not_mem_nil j)⟩
  | cons i rest ih =>
    simp only [RemoveExportsExprs.fold_module_items] at h ⊢
    have hc := run_false_left (RemoveExportsExprs.fold_module_items_rbasic
      lhs (RemoveExportsExprs.fold_module_item lhs st i).2 rest).2.2.2.1 h
    have h1 := RemoveExportsExprs.fold_module_item_stable lhs st i hc
    rw [h1] at h
    have hr := ih h
    refine ⟨by rw [h1, hr.1], ?_, ?_⟩
    · simp only [List.map]
      rw [h1, hr.2.1]
    · intro j hj
      rcases List.mem_cons.mp hj with hj | hj
      · subst hj
        exact ⟨hc, h1⟩
      · exact hr.2.2 j hj

/-!
Identity assembly: a rewriter fold over a list whose members each fold to
themselves without touching the state is the identity.
-/

theorem neTrueEqFalse {x : Bool} (h : ¬(x = true)) : x = false := by
  cases x with
  | false => rfl
  | true => exact absurd rfl h

theorem RemoveExportsExprs.fold_exprs_id (lhs : Bool) (st : State)
    (l : List Expr)
    (h : ∀ e ∈ l, RemoveExportsExprs.fold_expr lhs st e = (e, st)) :
    RemoveExportsExprs.fold_exprs lhs st l = (l, st) := by
  induction l with
  | nil => rfl
  | cons e rest ih =>
    have he := h e (List.mem_cons_self e rest)
    have hr := ih (fun x hx => h x (List.mem_cons_of_mem e hx))
    simp only [RemoveExportsExprs.fold_exprs, he, hr]

theorem RemoveExportsExprs.fold_stmts_id (lhs : Bool) (st : State)
    (l : List Stmt)
    (h : ∀ s ∈ l, RemoveExportsExprs.fold_stmt lhs st s = (s, st)) :
    RemoveExportsExprs.fold_stmts lhs st l = (l, st) := by
  induction l with
  | nil => rfl
  | cons s rest ih =>
    have he := h s (List.mem_cons_self s rest)
    have hr := ih (fun x hx => h x (List.mem_cons_of_mem s hx))
    simp only [RemoveExportsExprs.fold_stmts, he, hr]

theorem RemoveExportsExprs.fold_pats_id (lhs : Bool) (st : State)
    (l : List Pat)
    (h : ∀ p ∈ l, RemoveExportsExprs.fold_pat lhs st p = (p, st)) :
    RemoveExportsExprs.fold_pats lhs st l = (l, st) := by
  induction l with
  | nil => rfl
  | cons p rest ih =>
    have he := h p (List.mem_cons_self p rest)
    have hr := ih (fun x hx => h x (List.mem_cons_of_mem p hx))
    simp only [RemoveExportsExprs.fold_pats, he, hr]

theorem RemoveExportsExprs.fold_opt_pats_id (lhs : Bool) (st : State)
    (l : List (Option Pat))
    (h : ∀ p, some p ∈ l → RemoveExportsExprs.fold_pat lhs st p = (p, st)) :
    RemoveExportsExprs.fold_opt_pats lhs st l = (l, st) := by
  induction l with
  | nil => rfl
  | cons op rest ih =>
    cases op with
    | none =>
      have hr := ih (fun x hx => h x (List.mem_cons_of_mem none hx))
      simp only [RemoveExportsExprs.fold_opt_pats, hr]
    | some p =>
      have he := h p (List.mem_cons_self (some p) rest)
      have hr := ih (fun x hx => h x (List.mem_cons_of_mem (some p) hx))
      simp only [RemoveExportsExprs.fold_opt_pats, he, hr]

theorem RemoveExportsExprs.fold_object_props_id (lhs : Bool) (st : State)
    (l : List ObjectPatProp)
    (h : ∀ p ∈ l, PropIdem lhs st p) :
    RemoveExportsExprs.fold_object_props lhs st l = (l, st) := by
  induction l with
  | nil => rfl
  | cons p rest ih =>
    have hr := ih (fun x hx => h x (List.mem_cons_of_mem p hx))
    have he := h p (List.mem_cons_self p rest)
    cases p with
    | keyValue k v =>
      simp only [PropIdem] at he
      simp only [RemoveExportsExprs.fold_object_props, he, hr]
    | assign key val =>
      simp only [PropIdem] at he
      simp only [RemoveExportsExprs.fold_object_props, he, hr]
    | rest a =>
      simp only [PropIdem] at he
      simp only [RemoveExportsExprs.fold_object_props, he, hr]

theorem RemoveExportsExprs.fold_var_declarators_id (lhs : Bool)
    (st : State) (l : List VarDeclarator)
    (h : ∀ d ∈ l, RemoveExportsExprs.fold_var_declarator lhs st d =
      (d, st) ∧ d.name.isInvalid = false) :
    RemoveExportsExprs.fold_var_declarators lhs st l = (l, st) := by
  induction l with
  | nil => rfl
  | cons d rest ih =>
    have he := h d (List.mem_cons_self d rest)
    have hr := ih (fun x hx => h x (List.mem_cons_of_mem d hx))
    simp only [RemoveExportsExprs.fold_var_declarators, he.1, hr, he.2,
      Bool.false_eq_true, if_false]

theorem RemoveExportsExprs.import_specifiers_retain_id (st : State)
    (l : List ImportSpecifier)
    (h : ∀ s ∈ l, st.should_remove s.locl.toId = false) :
    RemoveExportsExprs.import_specifiers_retain st l = (l, st) := by
  induction l with
  | nil => rfl
  | cons s rest ih =>
    have he := h s (List.mem_cons_self s rest)
    have hr := ih (fun x hx => h x (List.mem_cons_of_mem s hx))
    simp only [RemoveExportsExprs.import_specifiers_retain, he,
      Bool.false_eq_true, if_false, hr]

theorem RemoveExportsExprs.export_specifiers_retain_id (st : State)
    (l : List ExportSpecifier)
    (h : ∀ s ∈ l, RemoveExportsExprs.keep_specifier st s = true) :
    RemoveExportsExprs.export_specifiers_retain st l = (l, st) := by
  induction l with
  | nil => rfl
  | cons s rest ih =>
    have he := h s (List.mem_cons_self s rest)
    have hr := ih (fun x hx => h x (List.mem_cons_of_mem s hx))
    simp only [RemoveExportsExprs.export_specifiers_retain, he, if_true, hr]

theorem RemoveExportsExprs.object_props_filter_mem (st : State)
    (l : List ObjectPatProp)
    (hrun : (RemoveExportsExprs.object_props_filter
      st l).2.should_run_again = false)
    (p : ObjectPatProp)
    (hp : p ∈ (RemoveExportsExprs.object_props_filter st l).1) :
    p ∈ l ∧ PropKept st p := by
  induction l with
  | nil => exact absurd hp (List.not_mem_nil p)
  | cons q rest ih =>
    cases q with
    | keyValue k v =>
      simp only [RemoveExportsExprs.object_props_filter] at hrun hp
      split at hp
      · next hc =>
        rw [if_pos hc] at hrun
        have := ih hrun hp
        exact ⟨List.mem_cons_of_mem _ this.1, this.2⟩
      · next hc =>
        rw [if_neg hc] at hrun
        rcases List.mem_cons.mp hp with hq | hq
        · subst hq
          exact ⟨List.mem_cons_self _ rest, neTrueEqFalse hc⟩
        · have := ih hrun hq
          exact ⟨List.mem_cons_of_mem _ this.1, this.2⟩
    | assign key val =>
      simp only [RemoveExportsExprs.object_props_filter] at hrun hp
      split at hp
      · next hc =>
        rw [if_pos hc] at hrun
        have hmono := (RemoveExportsExprs.object_props_filter_rbasic
          (markAsCandidateOptExpr st val).2 rest).2.2.2.1
        rw [hmono (markAsCandidateOptExpr_run st val)] at hrun
        exact Bool.noConfusion hrun
      · next hc =>
        rw [if_neg hc] at hrun
        rcases List.mem_cons.mp hp with hq | hq
        · subst hq
          exact ⟨List.mem_cons_self _ rest, neTrueEqFalse hc⟩
        · have := ih hrun hq
          exact ⟨List.mem_cons_of_mem _ this.1, this.2⟩
    | rest a =>
      simp only [RemoveExportsExprs.object_props_filter] at hrun hp
      split at hp
      · next hc =>
        rw [if_pos hc] at hrun
        have := ih hrun hp
        exact ⟨List.mem_cons_of_mem _ this.1, this.2⟩
      · next hc =>
        rw [if_neg hc] at hrun
        rcases List.mem_cons.mp hp with hq | hq
        · subst hq
          exact ⟨List.mem_cons_self _ rest, neTrueEqFalse hc⟩
        · have := ih hrun hq
          exact ⟨List.mem_cons_of_mem _ this.1, this.2⟩

theorem RemoveExportsExprs.object_props_filter_id (st : State)
    (l : List ObjectPatProp)
    (h : ∀ p ∈ l, PropKept st p) :
    RemoveExportsExprs.object_props_filter st l = (l, st) := by
  induction l with
  | nil => rfl
  | cons p rest ih =>
    have hr := ih (fun x hx => h x (List.mem_cons_of_mem p hx))
    have he := h p (List.mem_cons_self p rest)
    cases p with
    | keyValue k v =>
      simp only [PropKept] at he
      simp only [RemoveExportsExprs.object_props_filter, he,
        Bool.false_eq_true, if_false, hr]
    | assign key val =>
      simp only [PropKept] at he
      simp only [RemoveExportsExprs.object_props_filter, he,
        Bool.false_eq_true, if_false, hr]
    | rest a =>
      simp only [PropKept] at he
      simp only [RemoveExportsExprs.object_props_filter, he,
        Bool.false_eq_true, if_false, hr]

theorem RemoveExportsExprs.fold_module_items_id (lhs : Bool) (st : State)
    (l : ModuleAst)
    (h : ∀ i ∈ l, RemoveExportsExprs.fold_module_item lhs st i = (i, st)) :
    RemoveExportsExprs.fold_module_items lhs st l = (l, st) := by
  induction l with
  | nil => rfl
  | cons i rest ih =>
    have he := h i (List.mem_cons_self i rest)
    have hr := ih (fun x hx => h x (List.mem_cons_of_mem i hx))
    simp only [RemoveExportsExprs.fold_module_items, he, hr]

theorem PropKept.mono {st st2 : State}
    (hrel : ∀ id, st2.should_remove id = true → st.should_remove id = true)
    {p : ObjectPatProp} (h : PropKept st p) : PropKept st2 p := by
  cases p with
  | keyValue k v => exact h
  | rest a => exact h
  | assign key val =>
    simp only [PropKept] at h ⊢
    cases hs : st2.should_remove key.toId with
    | false => rfl
    | true => rw [hrel key.toId hs] at h; exact Bool.noConfusion h

theorem filter_mem_idem {A : Type} (p : A → Bool) (l : List A) :
    (l.filter p).filter p = l.filter p := by
  induction l with
  | nil => rfl
  | cons a r ih =>
    cases hp : p a with
    | true => simp [List.filter_cons, hp, ih]
    | false => simp [List.filter_cons, hp, ih]

/-!
Second-rewrite identity: rewriting the output of a flag-false rewrite,
with any state whose removable set is contained in the original's and
whose Removal Targets agree, changes nothing and leaves the state alone.
-/

mutual

theorem RemoveExportsExprs.fold_expr_idem (lhs : Bool) (st st2 : State)
    (e : Expr)
    (hrun : (RemoveExportsExprs.fold_expr lhs st e).2.should_run_again =
      false)
    (hrel : ∀ id, st2.should_remove id = true → st.should_remove id = true)
    (htgt : st2.remove_exports = st.remove_exports) :
    RemoveExportsExprs.fold_expr lhs st2
        (RemoveExportsExprs.fold_expr lhs st e).1 =
      ((RemoveExportsExprs.fold_expr lhs st e).1, st2) := by
  cases e with
  | ident i => rfl
  | lit n => rfl
  | call callee args =>
    simp only [RemoveExportsExprs.fold_expr] at hrun ⊢
    have hc := run_false_left (RemoveExportsExprs.fold_exprs_rbasic lhs
      (RemoveExportsExprs.fold_expr lhs st callee).2 args).2.2.2.1 hrun
    have hst1 := RemoveExportsExprs.fold_expr_stable lhs st callee hc
    rw [hst1] at hrun ⊢
    have hh := RemoveExportsExprs.fold_expr_idem lhs st st2 callee hc
      hrel htgt
    have ht := RemoveExportsExprs.fold_exprs_idem lhs st st2 args hrun
      hrel htgt
    simp only [hh, RemoveExportsExprs.fold_exprs_id lhs st2
      (RemoveExportsExprs.fold_exprs lhs st args).1 ht]
  | member obj prop =>
    simp only [RemoveExportsExprs.fold_expr] at hrun ⊢
    have hh := RemoveExportsExprs.fold_expr_idem lhs st st2 obj hrun
      hrel htgt
    simp only [hh]
  | fnE f =>
    simp only [RemoveExportsExprs.fold_expr] at hrun ⊢
    have hh := RemoveExportsExprs.fold_fn_expr_idem lhs st st2 f hrun
      hrel htgt
    simp only [hh]

theorem RemoveExportsExprs.fold_exprs_idem (lhs : Bool) (st st2 : State)
    (l : List Expr)
    (hrun : (RemoveExportsExprs.fold_exprs lhs st l).2.should_run_again =
      false)
    (hrel : ∀ id, st2.should_remove id = true → st.should_remove id = true)
    (htgt : st2.remove_exports = st.remove_exports) :
    ∀ x ∈ (RemoveExportsExprs.fold_exprs lhs st l).1,
      RemoveExportsExprs.fold_expr lhs st2 x = (x, st2) := by
  cases l with
  | nil => intro x hx; exact absurd hx (List.not_mem_nil x)
  | cons e rest =>
    simp only [RemoveExportsExprs.fold_exprs] at hrun
    have hc := run_false_left (RemoveExportsExprs.fold_exprs_rbasic lhs
      (RemoveExportsExprs.fold_expr lhs st e).2 rest).2.2.2.1 hrun
    have hst1 := RemoveExportsExprs.fold_expr_stable lhs st e hc
    rw [hst1] at hrun
    have hh := RemoveExportsExprs.fold_expr_idem lhs st st2 e hc hrel htgt
    have ht := RemoveExportsExprs.fold_exprs_idem lhs st st2 rest hrun
      hrel htgt
    intro x hx
    simp only [RemoveExportsExprs.fold_exprs, hst1] at hx
    rcases List.mem_cons.mp hx with hx | hx
    · subst hx; exact hh
    · exact ht x hx

theorem RemoveExportsExprs.fold_opt_expr_idem (lhs : Bool) (st st2 : State)
    (oe : Option Expr)
    (hrun : (RemoveExportsExprs.fold_opt_expr lhs st
      oe).2.should_run_again = false)
    (hrel : ∀ id, st2.should_remove id = true → st.should_remove id = true)
    (htgt : st2.remove_exports = st.remove_exports) :
    RemoveExportsExprs.fold_opt_expr lhs st2
        (RemoveExportsExprs.fold_opt_expr lhs st oe).1 =
      ((RemoveExportsExprs.fold_opt_expr lhs st oe).1, st2) := by
  cases oe with
  | none => rfl
  | some e =>
    simp only [RemoveExportsExprs.fold_opt_expr] at hrun ⊢
    have hh := RemoveExportsExprs.fold_expr_idem lhs st st2 e hrun
      hrel htgt
    simp only [hh]

theorem RemoveExportsExprs.fold_fn_expr_idem (lhs : Bool) (st st2 : State)
    (f : FnExpr)
    (hrun : (RemoveExportsExprs.fold_fn_expr lhs st
      f).2.should_run_again = false)
    (hrel : ∀ id, st2.should_remove id = true → st.should_remove id = true)
    (htgt : st2.remove_exports = st.remove_exports) :
    RemoveExportsExprs.fold_fn_expr lhs st2
        (RemoveExportsExprs.fold_fn_expr lhs st f).1 =
      ((RemoveExportsExprs.fold_fn_expr lhs st f).1, st2) := by
  cases f with
  | mk oid fn =>
    simp only [RemoveExportsExprs.fold_fn_expr] at hrun ⊢
    have hh := RemoveExportsExprs.fold_function_idem lhs st st2 fn hrun
      hrel htgt
    simp only [hh]

theorem RemoveExportsExprs.fold_function_idem (lhs : Bool) (st st2 : State)
    (f : Function)
    (hrun : (RemoveExportsExprs.fold_function lhs st
      f).2.should_run_again = false)
    (hrel : ∀ id, st2.should_remove id = true → st.should_remove id = true)
    (htgt : st2.remove_exports = st.remove_exports) :
    RemoveExportsExprs.fold_function lhs st2
        (RemoveExportsExprs.fold_function lhs st f).1 =
      ((RemoveExportsExprs.fold_function lhs st f).1, st2) := by
  cases f with
  | mk params body =>
    cases body with
    | none =>
      simp only [RemoveExportsExprs.fold_function] at hrun ⊢
      have hp := RemoveExportsExprs.fold_pats_idem lhs st st2 params hrun
        hrel htgt
      simp only [RemoveExportsExprs.fold_pats_id lhs st2
        (RemoveExportsExprs.fold_pats lhs st params).1 hp]
    | some ss =>
      simp only [RemoveExportsExprs.fold_function] at hrun ⊢
      have hc := run_false_left (RemoveExportsExprs.fold_stmts_rbasic lhs
        (RemoveExportsExprs.fold_pats lhs st params).2 ss).2.2.2.1 hrun
      have hst1 := RemoveExportsExprs.fold_pats_stable lhs st params hc
      rw [hst1] at hrun ⊢
      have hp := RemoveExportsExprs.fold_pats_idem lhs st st2 params hc
        hrel htgt
      have hs := RemoveExportsExprs.fold_stmts_idem lhs st st2 ss hrun
        hrel htgt
      simp only [RemoveExportsExprs.fold_pats_id lhs st2
        (RemoveExportsExprs.fold_pats lhs st params).1 hp,
        RemoveExportsExprs.fold_stmts_id lhs st2
        (RemoveExportsExprs.fold_stmts lhs st ss).1 hs]

theorem RemoveExportsExprs.fold_stmt_idem (lhs : Bool) (st st2 : State)
    (s : Stmt)
    (hrun : (RemoveExportsExprs.fold_stmt lhs st s).2.should_run_again =
      false)
    (hrel : ∀ id, st2.should_remove id = true → st.should_remove id = true)
    (htgt : st2.remove_exports = st.remove_exports) :
    RemoveExportsExprs.fold_stmt lhs st2
        (RemoveExportsExprs.fold_stmt lhs st s).1 =
      ((RemoveExportsExprs.fold_stmt lhs st s).1, st2) := by
  cases s with
  | decl d =>
    cases d with
    | fnD i fn =>
      simp only [RemoveExportsExprs.fold_stmt] at hrun ⊢
      split at hrun
      · next hc =>
        have h2 : (markAsCandidateFunction st fn).2.should_run_again =
          false := hrun
        rw [markAsCandidateFunction_run] at h2
        exact Bool.noConfusion h2
      · next hc =>
        rw [if_neg hc]
        have h2 : (RemoveExportsExprs.fold_function lhs st
          fn).2.should_run_again = false := hrun
        have hcf := neTrueEqFalse hc
        have hnew : st2.should_remove i.toId = false := by
          cases hs2 : st2.should_remove i.toId with
          | false => rfl
          | true => rw [hrel i.toId hs2] at hcf; exact Bool.noConfusion hcf
        have hfn := RemoveExportsExprs.fold_function_idem lhs st st2 fn h2
          hrel htgt
        simp only [RemoveExportsExprs.fold_stmt, hnew, Bool.false_eq_true,
          if_false, hfn]
    | varD ds =>
      have hstate : (RemoveExportsExprs.fold_stmt lhs st
          (.decl (.varD ds))).2 =
          (RemoveExportsExprs.fold_var_declarators lhs st ds).2 := by
        simp only [RemoveExportsExprs.fold_stmt]
        split <;> rfl
      rw [hstate] at hrun
      have helem := RemoveExportsExprs.fold_var_declarators_idem lhs st st2
        ds hrun hrel htgt
      have hasm := RemoveExportsExprs.fold_var_declarators_id lhs st2
        (RemoveExportsExprs.fold_var_declarators lhs st ds).1 helem
      simp only [RemoveExportsExprs.fold_stmt]
      split
      · next hemp => rfl
      · next hemp =>
        simp only [RemoveExportsExprs.fold_stmt, hasm]
        rw [if_neg hemp]
  | expr e =>
    simp only [RemoveExportsExprs.fold_stmt] at hrun ⊢
    have hh := RemoveExportsExprs.fold_expr_idem lhs st st2 e hrun
      hrel htgt
    simp only [hh]
  | empty => rfl
  | ret oe =>
    simp only [RemoveExportsExprs.fold_stmt] at hrun ⊢
    have hh := RemoveExportsExprs.fold_opt_expr_idem lhs st st2 oe hrun
      hrel htgt
    simp only [hh]

theorem RemoveExportsExprs.fold_stmts_idem (lhs : Bool) (st st2 : State)
    (l : List Stmt)
    (hrun : (RemoveExportsExprs.fold_stmts lhs st l).2.should_run_again =
      false)
    (hrel : ∀ id, st2.should_remove id = true → st.should_remove id = true)
    (htgt : st2.remove_exports = st.remove_exports) :
    ∀ x ∈ (RemoveExportsExprs.fold_stmts lhs st l).1,
      RemoveExportsExprs.fold_stmt lhs st2 x = (x, st2) := by
  cases l with
  | nil => intro x hx; exact absurd hx (List.not_mem_nil x)
  | cons s rest =>
    simp only [RemoveExportsExprs.fold_stmts] at hrun
    have hc := run_false_left (RemoveExportsExprs.fold_stmts_rbasic lhs
      (RemoveExportsExprs.fold_stmt lhs st s).2 rest).2.2.2.1 hrun
    have hst1 := RemoveExportsExprs.fold_stmt_stable lhs st s hc
    rw [hst1] at hrun
    have hh := RemoveExportsExprs.fold_stmt_idem lhs st st2 s hc hrel htgt
    have ht := RemoveExportsExprs.fold_stmts_idem lhs st st2 rest hrun
      hrel htgt
    intro x hx
    simp only [RemoveExportsExprs.fold_stmts, hst1] at hx
    rcases List.mem_cons.mp hx with hx | hx
    · subst hx; exact hh
    · exact ht x hx

theorem RemoveExportsExprs.fold_var_declarator_idem (lhs : Bool)
    (st st2 : State) (d : VarDeclarator)
    (hrun : (RemoveExportsExprs.fold_var_declarator lhs st
      d).2.should_run_again = false)
    (hrel : ∀ id, st2.should_remove id = true → st.should_remove id = true)
    (htgt : st2.remove_exports = st.remove_exports) :
    RemoveExportsExprs.fold_var_declarator lhs st2
        (RemoveExportsExprs.fold_var_declarator lhs st d).1 =
      ((RemoveExportsExprs.fold_var_declarator lhs st d).1, st2) ∧
    (RemoveExportsExprs.fold_var_declarator lhs st
      d).1.name.isInvalid = false := by
  cases d with
  | mk name init =>
    simp only [RemoveExportsExprs.fold_var_declarator] at hrun ⊢
    cases hinv : (RemoveExportsExprs.fold_pat true st name).1.isInvalid with
    | true =>
      rw [if_pos hinv] at hrun
      have hmono := (RemoveExportsExprs.fold_opt_expr_rbasic false
        (markAsCandidateOptExpr
          (RemoveExportsExprs.fold_pat true st name).2 init).2
        init).2.2.2.1
      rw [hmono (markAsCandidateOptExpr_run _ init)] at hrun
      exact Bool.noConfusion hrun
    | false =>
      rw [if_neg (eqFalseNeTrue hinv)] at hrun
      rw [if_neg Bool.false_ne_true]
      have hirun : (RemoveExportsExprs.fold_opt_expr false
          (RemoveExportsExprs.fold_pat true st name).2
          init).2.should_run_again = false := hrun
      have hnrun := run_false_left (RemoveExportsExprs.fold_opt_expr_rbasic
        false (RemoveExportsExprs.fold_pat true st name).2 init).2.2.2.1
        hirun
      have hnst := RemoveExportsExprs.fold_pat_stable true st name hnrun
      rw [hnst] at hirun
      have hname := RemoveExportsExprs.fold_pat_idem true st st2 name hnrun
        hrel htgt
      have hinit := RemoveExportsExprs.fold_opt_expr_idem false st st2 init
        hirun hrel htgt
      constructor
      · simp only [RemoveExportsExprs.fold_var_declarator, hnst,
          VarDeclarator.name, hname, hinv, Bool.false_eq_true, if_false,
          hinit]
      · simp only [VarDeclarator.name]
        exact hinv

theorem RemoveExportsExprs.fold_var_declarators_idem (lhs : Bool)
    (st st2 : State) (l : List VarDeclarator)
    (hrun : (RemoveExportsExprs.fold_var_declarators lhs st
      l).2.should_run_again = false)
    (hrel : ∀ id, st2.should_remove id = true → st.should_remove id = true)
    (htgt : st2.remove_exports = st.remove_exports) :
    ∀ d ∈ (RemoveExportsExprs.fold_var_declarators lhs st l).1,
      RemoveExportsExprs.fold_var_declarator lhs st2 d = (d, st2) ∧
      d.name.isInvalid = false := by
  cases l with
  | nil => intro d hd; exact absurd hd (List.not_mem_nil d)
  | cons d0 rest =>
    simp only [RemoveExportsExprs.fold_var_declarators] at hrun
    have hc := run_false_left
      (RemoveExportsExprs.fold_var_declarators_rbasic lhs
        (RemoveExportsExprs.fold_var_declarator lhs st d0).2
        rest).2.2.2.1 hrun
    have hst1 := RemoveExportsExprs.fold_var_declarator_stable lhs st d0 hc
    rw [hst1] at hrun
    have hh := RemoveExportsExprs.fold_var_declarator_idem lhs st st2 d0 hc
      hrel htgt
    have ht := RemoveExportsExprs.fold_var_declarators_idem lhs st st2 rest
      hrun hrel htgt
    intro d hd
    simp only [RemoveExportsExprs.fold_var_declarators, hst1] at hd
    rw [hh.2] at hd
    simp only [Bool.false_eq_true, if_false] at hd
    rcases List.mem_cons.mp hd with hd | hd
    · subst hd
      exact hh
    · exact ht d hd

theorem RemoveExportsExprs.fold_pat_idem (lhs : Bool) (st st2 : State)
    (p : Pat)
    (hrun : (RemoveExportsExprs.fold_pat lhs st p).2.should_run_again =
      false)
    (hrel : ∀ id, st2.should_remove id = true → st.should_remove id = true)
    (htgt : st2.remove_exports = st.remove_exports) :
    RemoveExportsExprs.fold_pat lhs st2
        (RemoveExportsExprs.fold_pat lhs st p).1 =
      ((RemoveExportsExprs.fold_pat lhs st p).1, st2) := by
  cases p with
  | ident i =>
    simp only [RemoveExportsExprs.fold_pat] at hrun ⊢
    split at hrun
    · next hc =>
      have h2 : ({ st with should_run_again := true } :
        State).should_run_again = false := hrun
      exact Bool.noConfusion h2
    · next hc =>
      rw [if_neg hc]
      have hcf := neTrueEqFalse hc
      have hnew : (lhs && st2.should_remove i.toId) = false := by
        cases hl : lhs with
        | false => rfl
        | true =>
          rw [hl] at hcf
          simp only [Bool.true_and] at hcf
          cases hs2 : st2.should_remove i.toId with
          | false => rfl
          | true =>
            rw [hrel i.toId hs2] at hcf
            exact Bool.noConfusion hcf
      simp only [RemoveExportsExprs.fold_pat, hnew, Bool.false_eq_true,
        if_false]
  | array elems =>
    have hst0 : (RemoveExportsExprs.fold_pat lhs st (.array elems)).2 =
        (RemoveExportsExprs.fold_opt_pats lhs st elems).2 := by
      simp only [RemoveExportsExprs.fold_pat]
      split
      · split
        · rfl
        · split <;> rfl
      · rfl
    rw [hst0] at hrun
    have helem := RemoveExportsExprs.fold_opt_pats_idem lhs st st2 elems
      hrun hrel htgt
    have hasm := RemoveExportsExprs.fold_opt_pats_id lhs st2
      (RemoveExportsExprs.fold_opt_pats lhs st elems).1 helem
    simp only [RemoveExportsExprs.fold_pat]
    split
    · next hl =>
      split
      · next hemp =>
        simp only [RemoveExportsExprs.fold_pat, hasm]
        rw [if_pos hl, if_pos hemp]
      · next hemp =>
        split
        · next hkept => rfl
        · next hkept =>
          have hkmem : ∀ q, some q ∈
              ((RemoveExportsExprs.fold_opt_pats lhs st
                elems).1.filter keepPatElem) →
              RemoveExportsExprs.fold_pat lhs st2 q = (q, st2) :=
            fun q hq => helem q (List.mem_of_mem_filter hq)
          have hasm2 := RemoveExportsExprs.fold_opt_pats_id lhs st2
            ((RemoveExportsExprs.fold_opt_pats lhs st
              elems).1.filter keepPatElem) hkmem
          have hfil := filter_mem_idem keepPatElem
            (RemoveExportsExprs.fold_opt_pats lhs st elems).1
          simp only [RemoveExportsExprs.fold_pat, hasm2]
          rw [if_pos hl, if_neg hkept, hfil, if_neg hkept]
    · next hl =>
      simp only [RemoveExportsExprs.fold_pat, hasm]
      rw [if_neg hl]
  | object props =>
    have hpsrun : (RemoveExportsExprs.fold_object_props lhs st
        props).2.should_run_again = false := by
      have hkey : (RemoveExportsExprs.fold_pat lhs st (.object props)).2 =
          (RemoveExportsExprs.object_props_filter
            (RemoveExportsExprs.fold_object_props lhs st props).2
            (RemoveExportsExprs.fold_object_props lhs st props).1).2 ∨
          (RemoveExportsExprs.fold_pat lhs st (.object props)).2 =
          (RemoveExportsExprs.fold_object_props lhs st props).2 := by
        simp only [RemoveExportsExprs.fold_pat]
        split
        · split
          · exact Or.inr rfl
          · split
            · exact Or.inl rfl
            · exact Or.inl rfl
        · exact Or.inr rfl
      rcases hkey with hk | hk
      · rw [hk] at hrun
        exact run_false_left (RemoveExportsExprs.object_props_filter_rbasic
          _ _).2.2.2.1 hrun
      · rw [hk] at hrun
        exact hrun
    have hstprops := RemoveExportsExprs.fold_object_props_stable lhs st
      props hpsrun
    have helem := RemoveExportsExprs.fold_object_props_idem lhs st st2
      props hpsrun hrel htgt
    have hasm := RemoveExportsExprs.fold_object_props_id lhs st2
      (RemoveExportsExprs.fold_object_props lhs st props).1 helem
    simp only [RemoveExportsExprs.fold_pat, hstprops]
    split
    · next hl =>
      split
      · next hemp =>
        simp only [RemoveExportsExprs.fold_pat, hasm]
        rw [if_pos hl, if_pos hemp]
      · next hemp =>
        have hfilrun : (RemoveExportsExprs.object_props_filter st
            (RemoveExportsExprs.fold_object_props lhs st
              props).1).2.should_run_again = false := by
          have hstate2 : (RemoveExportsExprs.fold_pat lhs st
              (.object props)).2 =
              (RemoveExportsExprs.object_props_filter st
                (RemoveExportsExprs.fold_object_props lhs st
                  props).1).2 := by
            simp only [RemoveExportsExprs.fold_pat, hstprops]
            rw [if_pos hl, if_neg hemp]
            split <;> rfl
          rw [← hstate2]
          exact hrun
        split
        · next hkept => rfl
        · next hkept =>
          have hmem2 : ∀ q ∈ (RemoveExportsExprs.object_props_filter st
              (RemoveExportsExprs.fold_object_props lhs st props).1).1,
              PropIdem lhs st2 q :=
            fun q hq => helem q (RemoveExportsExprs.object_props_filter_mem
              st _ hfilrun q hq).1
          have hasm2 := RemoveExportsExprs.fold_object_props_id lhs st2
            (RemoveExportsExprs.object_props_filter st
              (RemoveExportsExprs.fold_object_props lhs st props).1).1
            hmem2
          have hkept2 : ∀ q ∈ (RemoveExportsExprs.object_props_filter st
              (RemoveExportsExprs.fold_object_props lhs st props).1).1,
              PropKept st2 q :=
            fun q hq => PropKept.mono hrel
              (RemoveExportsExprs.object_props_filter_mem st _ hfilrun
                q hq).2
          have hfid := RemoveExportsExprs.object_props_filter_id st2
            (RemoveExportsExprs.object_props_filter st
              (RemoveExportsExprs.fold_object_props lhs st props).1).1
            hkept2
          simp only [RemoveExportsExprs.fold_pat, hasm2, hfid]
          rw [if_pos hl, if_neg hkept, if_neg hkept]
    · next hl =>
      simp only [RemoveExportsExprs.fold_pat, hasm]
      rw [if_neg hl]
  | rest a =>
    have hst0 : (RemoveExportsExprs.fold_pat lhs st (.rest a)).2 =
        (RemoveExportsExprs.fold_pat lhs st a).2 := by
      simp only [RemoveExportsExprs.fold_pat]
      split <;> rfl
    rw [hst0] at hrun
    have hh := RemoveExportsExprs.fold_pat_idem lhs st st2 a hrun hrel htgt
    simp only [RemoveExportsExprs.fold_pat]
    split
    · next hc => rfl
    · next hc =>
      simp only [RemoveExportsExprs.fold_pat, hh]
      rw [if_neg hc]
  | invalid => rfl

theorem RemoveExportsExprs.fold_pats_idem (lhs : Bool) (st st2 : State)
    (l : List Pat)
    (hrun : (RemoveExportsExprs.fold_pats lhs st l).2.should_run_again =
      false)
    (hrel : ∀ id, st2.should_remove id = true → st.should_remove id = true)
    (htgt : st2.remove_exports = st.remove_exports) :
    ∀ x ∈ (RemoveExportsExprs.fold_pats lhs st l).1,
      RemoveExportsExprs.fold_pat lhs st2 x = (x, st2) := by
  cases l with
  | nil => intro x hx; exact absurd hx (List.not_mem_nil x)
  | cons p rest =>
    simp only [RemoveExportsExprs.fold_pats] at hrun
    have hc := run_false_left (RemoveExportsExprs.fold_pats_rbasic lhs
      (RemoveExportsExprs.fold_pat lhs st p).2 rest).2.2.2.1 hrun
    have hst1 := RemoveExportsExprs.fold_pat_stable lhs st p hc
    rw [hst1] at hrun
    have hh := RemoveExportsExprs.fold_pat_idem lhs st st2 p hc hrel htgt
    have ht := RemoveExportsExprs.fold_pats_idem lhs st st2 rest hrun
      hrel htgt
    intro x hx
    simp only [RemoveExportsExprs.fold_pats, hst1] at hx
    rcases List.mem_cons.mp hx with hx | hx
    · subst hx; exact hh
    · exact ht x hx

theorem RemoveExportsExprs.fold_opt_pats_idem (lhs : Bool) (st st2 : State)
    (l : List (Option Pat))
    (hrun : (RemoveExportsExprs.fold_opt_pats lhs st
      l).2.should_run_again = false)
    (hrel : ∀ id, st2.should_remove id = true → st.should_remove id = true)
    (htgt : st2.remove_exports = st.remove_exports) :
    ∀ q, some q ∈ (RemoveExportsExprs.fold_opt_pats lhs st l).1 →
      RemoveExportsExprs.fold_pat lhs st2 q = (q, st2) := by
  cases l with
  | nil => intro q hq; exact absurd hq (List.not_mem_nil (some q))
  | cons op rest =>
    cases op with
    | none =>
      simp only [RemoveExportsExprs.fold_opt_pats] at hrun
      have ht := RemoveExportsExprs.fold_opt_pats_idem lhs st st2 rest hrun
        hrel htgt
      intro q hq
      simp only [RemoveExportsExprs.fold_opt_pats] at hq
      rcases List.mem_cons.mp hq with hq | hq
      · exact Option.noConfusion hq
      · exact ht q hq
    | some p =>
      simp only [RemoveExportsExprs.fold_opt_pats] at hrun
      have hc := run_false_left (RemoveExportsExprs.fold_opt_pats_rbasic
        lhs (RemoveExportsExprs.fold_pat lhs st p).2 rest).2.2.2.1 hrun
      have hst1 := RemoveExportsExprs.fold_pat_stable lhs st p hc
      rw [hst1] at hrun
      have hh := RemoveExportsExprs.fold_pat_idem lhs st st2 p hc hrel htgt
      have ht := RemoveExportsExprs.fold_opt_pats_idem lhs st st2 rest hrun
        hrel htgt
      intro q hq
      simp only [RemoveExportsExprs.fold_opt_pats, hst1] at hq
      rcases List.mem_cons.mp hq with hq | hq
      · have := Option.some.inj hq
        subst this
        exact hh
      · exact ht q hq

theorem RemoveExportsExprs.fold_object_props_idem (lhs : Bool)
    (st st2 : State) (l : List ObjectPatProp)
    (hrun : (RemoveExportsExprs.fold_object_props lhs st
      l).2.should_run_again = false)
    (hrel : ∀ id, st2.should_remove id = true → st.should_remove id = true)
    (htgt : st2.remove_exports = st.remove_exports) :
    ∀ q ∈ (RemoveExportsExprs.fold_object_props lhs st l).1,
      PropIdem lhs st2 q := by
  cases l with
  | nil => intro q hq; exact absurd hq (List.not_mem_nil q)
  | cons p rest =>
    cases p with
    | keyValue k v =>
      simp only [RemoveExportsExprs.fold_object_props] at hrun
      have hc := run_false_left
        (RemoveExportsExprs.fold_object_props_rbasic lhs
          (RemoveExportsExprs.fold_pat lhs st v).2 rest).2.2.2.1 hrun
      have hst1 := RemoveExportsExprs.fold_pat_stable lhs st v hc
      rw [hst1] at hrun
      have hh := RemoveExportsExprs.fold_pat_idem lhs st st2 v hc hrel htgt
      have ht := RemoveExportsExprs.fold_object_props_idem lhs st st2 rest
        hrun hrel htgt
      intro q hq
      simp only [RemoveExportsExprs.fold_object_props, hst1] at hq
      rcases List.mem_cons.mp hq with hq | hq
      · subst hq
        simp only [PropIdem]
        exact hh
      · exact ht q hq
    | assign key val =>
      simp only [RemoveExportsExprs.fold_object_props] at hrun
      have hc := run_false_left
        (RemoveExportsExprs.fold_object_props_rbasic lhs
          (RemoveExportsExprs.fold_opt_expr lhs st val).2 rest).2.2.2.1
        hrun
      have hst1 := RemoveExportsExprs.fold_opt_expr_stable lhs st val hc
      rw [hst1] at hrun
      have hh := RemoveExportsExprs.fold_opt_expr_idem lhs st st2 val hc
        hrel htgt
      have ht := RemoveExportsExprs.fold_object_props_idem lhs st st2 rest
        hrun hrel htgt
      intro q hq
      simp only [RemoveExportsExprs.fold_object_props, hst1] at hq
      rcases List.mem_cons.mp hq with hq | hq
      · subst hq
        simp only [PropIdem]
        exact hh
      · exact ht q hq
    | rest a =>
      simp only [RemoveExportsExprs.fold_object_props] at hrun
      have hc := run_false_left
        (RemoveExportsExprs.fold_object_props_rbasic lhs
          (RemoveExportsExprs.fold_pat lhs st a).2 rest).2.2.2.1 hrun
      have hst1 := RemoveExportsExprs.fold_pat_stable lhs st a hc
      rw [hst1] at hrun
      have hh := RemoveExportsExprs.fold_pat_idem lhs st st2 a hc hrel htgt
      have ht := RemoveExportsExprs.fold_object_props_idem lhs st st2 rest
        hrun hrel htgt
      intro q hq
      simp only [RemoveExportsExprs.fold_object_props, hst1] at hq
      rcases List.mem_cons.mp hq with hq | hq
      · subst hq
        simp only [PropIdem]
        exact hh
      · exact ht q hq

end

theorem RemoveExportsExprs.fold_decl_idem (lhs : Bool) (st st2 : State)
    (d : Decl)
    (hrun : (RemoveExportsExprs.fold_decl lhs st d).2.should_run_again =
      false)
    (hrel : ∀ id, st2.should_remove id = true → st.should_remove id = true)
    (htgt : st2.remove_exports = st.remove_exports) :
    RemoveExportsExprs.fold_decl lhs st2
        (RemoveExportsExprs.fold_decl lhs st d).1 =
      ((RemoveExportsExprs.fold_decl lhs st d).1, st2) := by
  cases d with
  | fnD i fn =>
    simp only [RemoveExportsExprs.fold_decl] at hrun ⊢
    have hh := RemoveExportsExprs.fold_function_idem lhs st st2 fn hrun
      hrel htgt
    simp only [hh]
  | varD ds =>
    simp only [RemoveExportsExprs.fold_decl] at hrun ⊢
    have helem := RemoveExportsExprs.fold_var_declarators_idem lhs st st2
      ds hrun hrel htgt
    simp only [RemoveExportsExprs.fold_var_declarators_id lhs st2
      (RemoveExportsExprs.fold_var_declarators lhs st ds).1 helem]

theorem RemoveExportsExprs.fold_module_item_idem (lhs : Bool)
    (st st2 : State) (i : ModuleItem)
    (hrun : (RemoveExportsExprs.fold_module_item lhs st
      i).2.should_run_again = false)
    (hrel : ∀ id, st2.should_remove id = true → st.should_remove id = true)
    (htgt : st2.remove_exports = st.remove_exports) :
    RemoveExportsExprs.fold_module_item lhs st2
        (RemoveExportsExprs.fold_module_item lhs st i).1 =
      ((RemoveExportsExprs.fold_module_item lhs st i).1, st2) := by
  cases i with
  | importI sp src =>
    cases sp with
    | nil => rfl
    | cons s0 rest =>
      have hstate : (RemoveExportsExprs.fold_module_item lhs st
          (.importI (s0 :: rest) src)).2 =
          (RemoveExportsExprs.fold_import_decl st (s0 :: rest)).2 := by
        simp only [RemoveExportsExprs.fold_module_item]
        split <;> rfl
      rw [hstate] at hrun
      have hrun2 : (RemoveExportsExprs.import_specifiers_retain st
          (s0 :: rest)).2.should_run_again = false := by
        unfold RemoveExportsExprs.fold_import_decl at hrun
        rw [if_neg (by simp)] at hrun
        exact hrun
      have hstab := RemoveExportsExprs.import_specifiers_retain_stable st
        (s0 :: rest) hrun2
      have helem2 : ∀ s ∈ (s0 :: rest),
          st2.should_remove s.locl.toId = false := by
        intro s hs
        cases h2 : st2.should_remove s.locl.toId with
        | false => rfl
        | true =>
          have := hrel _ h2
          rw [hstab.2 s hs] at this
          exact Bool.noConfusion this
      have hretain2 := RemoveExportsExprs.import_specifiers_retain_id st2
        (s0 :: rest) helem2
      simp only [RemoveExportsExprs.fold_module_item,
        RemoveExportsExprs.fold_import_decl, hstab.1, hretain2,
        List.isEmpty_cons, Bool.not_false, Bool.true_and,
        Bool.false_eq_true, if_false]
  | stmtI s =>
    simp only [RemoveExportsExprs.fold_module_item] at hrun ⊢
    have hh := RemoveExportsExprs.fold_stmt_idem lhs st st2 s hrun
      hrel htgt
    simp only [hh]
  | exportDecl d =>
    simp only [RemoveExportsExprs.fold_module_item] at hrun ⊢
    have hh := RemoveExportsExprs.fold_decl_idem lhs st st2 d hrun
      hrel htgt
    simp only [hh]
  | exportNamed sp src =>
    have hstate : (RemoveExportsExprs.fold_module_item lhs st
        (.exportNamed sp src)).2 =
        (RemoveExportsExprs.export_specifiers_retain st sp).2 := by
      simp only [RemoveExportsExprs.fold_module_item,
        RemoveExportsExprs.fold_named_export]
      split <;> rfl
    rw [hstate] at hrun
    have hkept := export_specifiers_retain_kept st sp
    cases hemp : (RemoveExportsExprs.export_specifiers_retain st
        sp).1.isEmpty with
    | true =>
      have hout : (RemoveExportsExprs.fold_module_item lhs st
          (.exportNamed sp src)).1 = .stmtI .empty := by
        simp only [RemoveExportsExprs.fold_module_item,
          RemoveExportsExprs.fold_named_export]
        rw [if_pos hemp]
      rw [hout]
      rfl
    | false =>
      have hout : (RemoveExportsExprs.fold_module_item lhs st
          (.exportNamed sp src)).1 =
          .exportNamed
            (RemoveExportsExprs.export_specifiers_retain st sp).1 src := by
        simp only [RemoveExportsExprs.fold_module_item,
          RemoveExportsExprs.fold_named_export]
        rw [if_neg (eqFalseNeTrue hemp)]
      rw [hout]
      have hkeep2 : ∀ s ∈ (RemoveExportsExprs.export_specifiers_retain st
          sp).1, RemoveExportsExprs.keep_specifier st2 s = true := by
        intro s hs
        rw [hkept] at hs
        rw [keep_specifier_congr htgt s]
        exact List.of_mem_filter hs
      have hasm := RemoveExportsExprs.export_specifiers_retain_id st2
        (RemoveExportsExprs.export_specifiers_retain st sp).1 hkeep2
      simp only [RemoveExportsExprs.fold_module_item,
        RemoveExportsExprs.fold_named_export, hasm]
      rw [if_neg (eqFalseNeTrue hemp)]
  | exportDefaultDecl d =>
    have hsd : st2.should_remove_default = st.should_remove_default := by
      simp only [State.should_remove_default, htgt]
    cases hc : st.should_remove_default with
    | true =>
      have hout : (RemoveExportsExprs.fold_module_item lhs st
          (.exportDefaultDecl d)).1 =
          .exportDefaultDecl (.fnDD create_empty_fn) := by
        simp only [RemoveExportsExprs.fold_module_item,
          RemoveExportsExprs.fold_default_decl]
        rw [if_pos hc]
      rw [hout]
      have hc2 : st2.should_remove_default = true := by rw [hsd]; exact hc
      simp only [RemoveExportsExprs.fold_module_item,
        RemoveExportsExprs.fold_default_decl]
      rw [if_pos hc2]
    | false =>
      have hout : (RemoveExportsExprs.fold_module_item lhs st
          (.exportDefaultDecl d)).1 = .exportDefaultDecl d := by
        simp only [RemoveExportsExprs.fold_module_item,
          RemoveExportsExprs.fold_default_decl]
        rw [if_neg (eqFalseNeTrue hc)]
      rw [hout]
      have hc2 : ¬(st2.should_remove_default = true) := by
        rw [hsd]; exact eqFalseNeTrue hc
      simp only [RemoveExportsExprs.fold_module_item,
        RemoveExportsExprs.fold_default_decl]
      rw [if_neg hc2]
  | exportDefaultExpr e =>
    have hsd : st2.should_remove_default = st.should_remove_default := by
      simp only [State.should_remove_default, htgt]
    cases hc : st.should_remove_default with
    | true =>
      have hout : (RemoveExportsExprs.fold_module_item lhs st
          (.exportDefaultExpr e)).1 =
          .exportDefaultExpr (.fnE create_empty_fn) := by
        simp only [RemoveExportsExprs.fold_module_item,
          RemoveExportsExprs.fold_export_default_expr]
        rw [if_pos hc]
      rw [hout]
      have hc2 : st2.should_remove_default = true := by rw [hsd]; exact hc
      simp only [RemoveExportsExprs.fold_module_item,
        RemoveExportsExprs.fold_export_default_expr]
      rw [if_pos hc2]
    | false =>
      have hout : (RemoveExportsExprs.fold_module_item lhs st
          (.exportDefaultExpr e)).1 = .exportDefaultExpr e := by
        simp only [RemoveExportsExprs.fold_module_item,
          RemoveExportsExprs.fold_export_default_expr]
        rw [if_neg (eqFalseNeTrue hc)]
      rw [hout]
      have hc2 : ¬(st2.should_remove_default = true) := by
        rw [hsd]; exact eqFalseNeTrue hc
      simp only [RemoveExportsExprs.fold_module_item,
        RemoveExportsExprs.fold_export_default_expr]
      rw [if_neg hc2]

theorem RemoveExportsExprs.fold_module_items_idem (lhs : Bool)
    (st st2 : State) (l : ModuleAst)
    (hrun : (RemoveExportsExprs.fold_module_items lhs st
      l).2.should_run_again = false)
    (hrel : ∀ id, st2.should_remove id = true → st.should_remove id = true)
    (htgt : st2.remove_exports = st.remove_exports) :
    ∀ i ∈ (RemoveExportsExprs.fold_module_items lhs st l).1,
      RemoveExportsExprs.fold_module_item lhs st2 i = (i, st2) := by
  cases l with
  | nil => intro i hi; exact absurd hi (List.not_mem_nil i)
  | cons j rest =>
    simp only [RemoveExportsExprs.fold_module_items] at hrun
    have hc := run_false_left (RemoveExportsExprs.fold_module_items_rbasic
      lhs (RemoveExportsExprs.fold_module_item lhs st j).2 rest).2.2.2.1
      hrun
    have hst1 := RemoveExportsExprs.fold_module_item_stable lhs st j hc
    rw [hst1] at hrun
    have hh := RemoveExportsExprs.fold_module_item_idem lhs st st2 j hc
      hrel htgt
    have ht := RemoveExportsExprs.fold_module_items_idem lhs st st2 rest
      hrun hrel htgt
    intro i hi
    simp only [RemoveExportsExprs.fold_module_items, hst1] at hi
    rcases List.mem_cons.mp hi with hi | hi
    · subst hi; exact hh
    · exact ht i hi

theorem AEquiv.aequiv_trans {a b c : State} (h1 : AEquiv a b) (h2 : AEquiv b c) :
    AEquiv a c :=
  ⟨h2.1.trans h1.1, h2.2.1.trans h1.2.1, h2.2.2.1.trans h1.2.2.1,
   fun x hx => h1.2.2.2 x (h2.2.2.2 x hx)⟩

theorem AEquiv.add_ref {s1 s2 : State} (h : AEquiv s1 s2) (data : Bool)
    (id : BindingId) :
    AEquiv (s1.add_ref data id) (s2.add_ref data id) := by
  unfold State.add_ref
  cases data with
  | true =>
    rw [if_pos rfl, if_pos rfl]
    refine ⟨h.1, h.2.1, h.2.2.1, ?_⟩
    intro x hx
    rcases mem_insertId_iff.mp hx with hx | hx
    · exact mem_insertId_iff.mpr (Or.inl hx)
    · exact mem_insertId_iff.mpr (Or.inr (h.2.2.2 x hx))
  | false =>
    rw [if_neg Bool.false_ne_true, if_neg Bool.false_ne_true]
    rw [h.2.1]
    by_cases hmem : id ∈ s1.cur_declaring
    · rw [if_pos hmem, if_pos hmem]
      exact h
    · rw [if_neg hmem, if_neg hmem]
      exact ⟨by rw [h.1], rfl, h.2.2.1, fun x hx => h.2.2.2 x hx⟩

/-- Folding with `in_data_fn` set only grows the persistent set and leaves
everything `AEquiv` tracks on the transient side untouched, so the whole
run can be absorbed on the left of the relation. -/
theorem AEquiv.absorb_left {s1 s1' s2 : State} (h : AEquiv s1 s2)
    (hrefs : ARefs true s1 s1') (hpres : AnalyzerPreserves s1 s1') :
    AEquiv s1' s2 :=
  ⟨h.1.trans (hrefs.2.2.2 rfl).symm, h.2.1.trans hpres.1.symm,
   h.2.2.1.trans hpres.2.2.symm,
   fun x hx => hrefs.1 x (h.2.2.2 x hx)⟩

theorem Pat.isInvalid_eq {p : Pat} (h : p.isInvalid = true) :
    p = .invalid := by
  cases p with
  | invalid => rfl
  | ident i => exact Bool.noConfusion h
  | array es => exact Bool.noConfusion h
  | object ps => exact Bool.noConfusion h
  | rest a => exact Bool.noConfusion h

theorem keepPatElem_eq_false {e : Option Pat} (h : keepPatElem e = false) :
    e = some Pat.invalid := by
  cases e with
  | none => exact Bool.noConfusion h
  | some p =>
    cases p with
    | invalid => rfl
    | ident i => exact Bool.noConfusion h
    | array es => exact Bool.noConfusion h
    | object ps => exact Bool.noConfusion h
    | rest a => exact Bool.noConfusion h

mutual

theorem Analyzer.fold_expr_cong (lhs data : Bool) (s1 s2 : State)
    (e : Expr) (heq : AEquiv s1 s2) :
    AEquiv (Analyzer.fold_expr lhs data s1 e).2
      (Analyzer.fold_expr lhs data s2 e).2 := by
  cases e with
  | ident i =>
    simp only [Analyzer.fold_expr]
    exact heq.add_ref data i.toId
  | lit n => exact heq
  | call callee args =>
    simp only [Analyzer.fold_expr]
    exact Analyzer.fold_exprs_cong lhs data _ _ args
      (Analyzer.fold_expr_cong lhs data s1 s2 callee heq)
  | member obj prop =>
    simp only [Analyzer.fold_expr]
    exact Analyzer.fold_expr_cong lhs data s1 s2 obj heq
  | fnE f =>
    simp only [Analyzer.fold_expr]
    exact Analyzer.fold_fn_expr_cong lhs data s1 s2 f heq

theorem Analyzer.fold_exprs_cong (lhs data : Bool) (s1 s2 : State)
    (l : List Expr) (heq : AEquiv s1 s2) :
    AEquiv (Analyzer.fold_exprs lhs data s1 l).2
      (Analyzer.fold_exprs lhs data s2 l).2 := by
  cases l with
  | nil => exact heq
  | cons e rest =>
    simp only [Analyzer.fold_exprs]
    exact Analyzer.fold_exprs_cong lhs data _ _ rest
      (Analyzer.fold_expr_cong lhs data s1 s2 e heq)

theorem Analyzer.fold_opt_expr_cong (lhs data : Bool) (s1 s2 : State)
    (oe : Option Expr) (heq : AEquiv s1 s2) :
    AEquiv (Analyzer.fold_opt_expr lhs data s1 oe).2
      (Analyzer.fold_opt_expr lhs data s2 oe).2 := by
  cases oe with
  | none => exact heq
  | some e =>
    simp only [Analyzer.fold_opt_expr]
    exact Analyzer.fold_expr_cong lhs data s1 s2 e heq

theorem Analyzer.fold_fn_expr_cong (lhs data : Bool) (s1 s2 : State)
    (f : FnExpr) (heq : AEquiv s1 s2) :
    AEquiv (Analyzer.fold_fn_expr lhs data s1 f).2
      (Analyzer.fold_fn_expr lhs data s2 f).2 := by
  cases f with
  | mk oid fn =>
    have hfn := Analyzer.fold_function_cong lhs data s1 s2 fn heq
    cases oid with
    | none => exact hfn
    | some id =>
      simp only [Analyzer.fold_fn_expr]
      exact hfn.add_ref data id.toId

theorem Analyzer.fold_function_cong (lhs data : Bool) (s1 s2 : State)
    (f : Function) (heq : AEquiv s1 s2) :
    AEquiv (Analyzer.fold_function lhs data s1 f).2
      (Analyzer.fold_function lhs data s2 f).2 := by
  cases f with
  | mk params body =>
    have hp := Analyzer.fold_pats_cong lhs data s1 s2 params heq
    cases body with
    | none => exact hp
    | some ss =>
      simp only [Analyzer.fold_function]
      exact Analyzer.fold_stmts_cong lhs data _ _ ss hp

theorem Analyzer.fold_stmt_cong (lhs data : Bool) (s1 s2 : State)
    (s : Stmt) (heq : AEquiv s1 s2) :
    AEquiv (Analyzer.fold_stmt lhs data s1 s).2
      (Analyzer.fold_stmt lhs data s2 s).2 := by
  cases s with
  | decl d =>
    simp only [Analyzer.fold_stmt]
    exact Analyzer.fold_decl_cong lhs data s1 s2 d heq
  | expr e =>
    simp only [Analyzer.fold_stmt]
    exact Analyzer.fold_expr_cong lhs data s1 s2 e heq
  | empty => exact heq
  | ret oe =>
    simp only [Analyzer.fold_stmt]
    exact Analyzer.fold_opt_expr_cong lhs data s1 s2 oe heq

theorem Analyzer.fold_stmts_cong (lhs data : Bool) (s1 s2 : State)
    (l : List Stmt) (heq : AEquiv s1 s2) :
    AEquiv (Analyzer.fold_stmts lhs data s1 l).2
      (Analyzer.fold_stmts lhs data s2 l).2 := by
  cases l with
  | nil => exact heq
  | cons s rest =>
    simp only [Analyzer.fold_stmts]
    exact Analyzer.fold_stmts_cong lhs data _ _ rest
      (Analyzer.fold_stmt_cong lhs data s1 s2 s heq)

theorem Analyzer.fold_decl_cong (lhs data : Bool) (s1 s2 : State)
    (d : Decl) (heq : AEquiv s1 s2) :
    AEquiv (Analyzer.fold_decl lhs data s1 d).2
      (Analyzer.fold_decl lhs data s2 d).2 := by
  cases d with
  | fnD i fn =>
    have hfn := Analyzer.fold_function_cong lhs data s1 s2 fn heq
    simp only [Analyzer.fold_decl]
    cases data with
    | true =>
      rw [if_pos rfl, if_pos rfl]
      exact hfn.add_ref true i.toId
    | false =>
      rw [if_neg Bool.false_ne_true, if_neg Bool.false_ne_true]
      exact hfn
  | varD ds =>
    simp only [Analyzer.fold_decl]
    exact Analyzer.fold_var_declarators_cong lhs data s1 s2 ds heq

theorem Analyzer.fold_var_declarator_cong (lhs data : Bool) (s1 s2 : State)
    (d : VarDeclarator) (heq : AEquiv s1 s2) :
    AEquiv (Analyzer.fold_var_declarator lhs data s1 d).2
      (Analyzer.fold_var_declarator lhs data s2 d).2 := by
  cases d with
  | mk name init =>
    simp only [Analyzer.fold_var_declarator]
    exact Analyzer.fold_opt_expr_cong false data _ _ init
      (Analyzer.fold_pat_cong true data s1 s2 name heq)

theorem Analyzer.fold_var_declarators_cong (lhs data : Bool)
    (s1 s2 : State) (l : List VarDeclarator) (heq : AEquiv s1 s2) :
    AEquiv (Analyzer.fold_var_declarators lhs data s1 l).2
      (Analyzer.fold_var_declarators lhs data s2 l).2 := by
  cases l with
  | nil => exact heq
  | cons d rest =>
    simp only [Analyzer.fold_var_declarators]
    exact Analyzer.fold_var_declarators_cong lhs data _ _ rest
      (Analyzer.fold_var_declarator_cong lhs data s1 s2 d heq)

theorem Analyzer.fold_pat_cong (lhs data : Bool) (s1 s2 : State)
    (p : Pat) (heq : AEquiv s1 s2) :
    AEquiv (Analyzer.fold_pat lhs data s1 p).2
      (Analyzer.fold_pat lhs data s2 p).2 := by
  cases p with
  | ident i =>
    simp only [Analyzer.fold_pat]
    by_cases hc : (!lhs || data) = true
    · rw [if_pos hc, if_pos hc]
      exact heq.add_ref data i.toId
    · rw [if_neg hc, if_neg hc]
      exact heq
  | array elems =>
    simp only [Analyzer.fold_pat]
    exact Analyzer.fold_opt_pats_cong lhs data s1 s2 elems heq
  | object props =>
    simp only [Analyzer.fold_pat]
    exact Analyzer.fold_object_props_cong lhs data s1 s2 props heq
  | rest a =>
    simp only [Analyzer.fold_pat]
    exact Analyzer.fold_pat_cong lhs data s1 s2 a heq
  | invalid => exact heq

theorem Analyzer.fold_pats_cong (lhs data : Bool) (s1 s2 : State)
    (l : List Pat) (heq : AEquiv s1 s2) :
    AEquiv (Analyzer.fold_pats lhs data s1 l).2
      (Analyzer.fold_pats lhs data s2 l).2 := by
  cases l with
  | nil => exact heq
  | cons p rest =>
    simp only [Analyzer.fold_pats]
    exact Analyzer.fold_pats_cong lhs data _ _ rest
      (Analyzer.fold_pat_cong lhs data s1 s2 p heq)

theorem Analyzer.fold_opt_pats_cong (lhs data : Bool) (s1 s2 : State)
    (l : List (Option Pat)) (heq : AEquiv s1 s2) :
    AEquiv (Analyzer.fold_opt_pats lhs data s1 l).2
      (Analyzer.fold_opt_pats lhs data s2 l).2 := by
  cases l with
  | nil => exact heq
  | cons op rest =>
    cases op with
    | none =>
      simp only [Analyzer.fold_opt_pats]
      exact Analyzer.fold_opt_pats_cong lhs data s1 s2 rest heq
    | some p =>
      simp only [Analyzer.fold_opt_pats]
      exact Analyzer.fold_opt_pats_cong lhs data _ _ rest
        (Analyzer.fold_pat_cong lhs data s1 s2 p heq)

theorem Analyzer.fold_object_props_cong (lhs data : Bool) (s1 s2 : State)
    (l : List ObjectPatProp) (heq : AEquiv s1 s2) :
    AEquiv (Analyzer.fold_object_props lhs data s1 l).2
      (Analyzer.fold_object_props lhs data s2 l).2 := by
  cases l with
  | nil => exact heq
  | cons p rest =>
    cases p with
    | keyValue k v =>
      simp only [Analyzer.fold_object_props]
      exact Analyzer.fold_object_props_cong lhs data _ _ rest
        (Analyzer.fold_pat_cong lhs data s1 s2 v heq)
    | assign key val =>
      simp only [Analyzer.fold_object_props]
      have hst1 : AEquiv
          (if (!lhs || data) = true then s1.add_ref data key.toId else s1)
          (if (!lhs || data) = true then s2.add_ref data key.toId
            else s2) := by
        by_cases hc : (!lhs || data) = true
        · rw [if_pos hc, if_pos hc]
          exact heq.add_ref data key.toId
        · rw [if_neg hc, if_neg hc]
          exact heq
      exact Analyzer.fold_object_props_cong lhs data _ _ rest
        (Analyzer.fold_opt_expr_cong lhs data _ _ val hst1)
    | rest a =>
      simp only [Analyzer.fold_object_props]
      exact Analyzer.fold_object_props_cong lhs data _ _ rest
        (Analyzer.fold_pat_cong lhs data s1 s2 a heq)

end

theorem Analyzer.fold_export_specifiers_cong (lhs data : Bool)
    (s1 s2 : State) (l : List ExportSpecifier) (heq : AEquiv s1 s2) :
    AEquiv (Analyzer.fold_export_specifiers lhs data s1 l).2
      (Analyzer.fold_export_specifiers lhs data s2 l).2 := by
  induction l generalizing s1 s2 with
  | nil => exact heq
  | cons s rest ih =>
    cases s with
    | namespaceS n =>
      simp only [Analyzer.fold_export_specifiers]
      exact ih _ _ heq
    | defaultS e =>
      simp only [Analyzer.fold_export_specifiers]
      exact ih _ _ heq
    | named o ex =>
      cases o with
      | str so =>
        simp only [Analyzer.fold_export_specifiers,
          Analyzer.fold_export_named_specifier]
        exact ih _ _ heq
      | ident id =>
        simp only [Analyzer.fold_export_specifiers,
          Analyzer.fold_export_named_specifier]
        rw [heq.2.2.1]
        by_cases hc : (!(s1.remove_exports.contains id.sym)) = true
        · rw [if_pos hc, if_pos hc]
          exact ih _ _ (heq.add_ref data id.toId)
        · rw [if_neg hc, if_neg hc]
          exact ih _ _ heq

theorem Analyzer.fold_opt_pats_filter_state (lhs data : Bool) (s : State)
    (l : List (Option Pat)) :
    (Analyzer.fold_opt_pats lhs data s (l.filter keepPatElem)).2 =
      (Analyzer.fold_opt_pats lhs data s l).2 := by
  induction l generalizing s with
  | nil => rfl
  | cons e rest ih =>
    cases he : keepPatElem e with
    | false =>
      have heinv := keepPatElem_eq_false he
      subst heinv
      simp only [List.filter_cons, he, Bool.false_eq_true, if_false]
      simp only [Analyzer.fold_opt_pats, Analyzer.fold_pat]
      exact ih s
    | true =>
      simp only [List.filter_cons, he, if_true]
      cases e with
      | none =>
        simp only [Analyzer.fold_opt_pats]
        exact ih s
      | some p =>
        simp only [Analyzer.fold_opt_pats]
        exact ih (Analyzer.fold_pat lhs data s p).2

theorem Analyzer.fold_object_props_filter_state (lhs data : Bool)
    (s stX : State) (l : List ObjectPatProp)
    (hrun : (RemoveExportsExprs.object_props_filter stX
      l).2.should_run_again = false) :
    (Analyzer.fold_object_props lhs data s
      (RemoveExportsExprs.object_props_filter stX l).1).2 =
      (Analyzer.fold_object_props lhs data s l).2 := by
  induction l generalizing s with
  | nil => rfl
  | cons p rest ih =>
    cases p with
    | keyValue k v =>
      simp only [RemoveExportsExprs.object_props_filter] at hrun ⊢
      split at hrun
      · next hc =>
        rw [if_pos hc]
        have hv := Pat.isInvalid_eq hc
        subst hv
        simp only [Analyzer.fold_object_props, Analyzer.fold_pat]
        exact ih s hrun
      · next hc =>
        rw [if_neg hc]
        simp only [Analyzer.fold_object_props]
        exact ih _ hrun
    | assign key val =>
      simp only [RemoveExportsExprs.object_props_filter] at hrun ⊢
      split at hrun
      · next hc =>
        have hmono := (RemoveExportsExprs.object_props_filter_rbasic
          (markAsCandidateOptExpr stX val).2 rest).2.2.2.1
        rw [hmono (markAsCandidateOptExpr_run stX val)] at hrun
        exact Bool.noConfusion hrun
      · next hc =>
        rw [if_neg hc]
        simp only [Analyzer.fold_object_props]
        exact ih _ hrun
    | rest a =>
      simp only [RemoveExportsExprs.object_props_filter] at hrun ⊢
      split at hrun
      · next hc =>
        rw [if_pos hc]
        have hv := Pat.isInvalid_eq hc
        subst hv
        simp only [Analyzer.fold_object_props, Analyzer.fold_pat]
        exact ih s hrun
      · next hc =>
        rw [if_neg hc]
        simp only [Analyzer.fold_object_props]
        exact ih _ hrun

theorem Analyzer.fold_module_items_retain_state (lhs data : Bool)
    (s : State) (l : ModuleAst) :
    (Analyzer.fold_module_items lhs data s
      (RemoveExportsExprs.retain_items l)).2 =
      (Analyzer.fold_module_items lhs data s l).2 := by
  induction l generalizing s with
  | nil => rfl
  | cons i rest ih =>
    cases i with
    | stmtI s0 =>
      cases s0 with
      | empty =>
        rw [show RemoveExportsExprs.retain_items
          (ModuleItem.stmtI Stmt.empty :: rest) =
          RemoveExportsExprs.retain_items rest from rfl]
        rw [ih s]
        simp only [Analyzer.fold_module_items, Analyzer.fold_module_item,
          Analyzer.fold_stmt]
      | decl d =>
        rw [show RemoveExportsExprs.retain_items
          (ModuleItem.stmtI (Stmt.decl d) :: rest) =
          ModuleItem.stmtI (Stmt.decl d) ::
            RemoveExportsExprs.retain_items rest from rfl]
        simp only [Analyzer.fold_module_items]
        exact ih _
      | expr e =>
        rw [show RemoveExportsExprs.retain_items
          (ModuleItem.stmtI (Stmt.expr e) :: rest) =
          ModuleItem.stmtI (Stmt.expr e) ::
            RemoveExportsExprs.retain_items rest from rfl]
        simp only [Analyzer.fold_module_items]
        exact ih _
      | ret oe =>
        rw [show RemoveExportsExprs.retain_items
          (ModuleItem.stmtI (Stmt.ret oe) :: rest) =
          ModuleItem.stmtI (Stmt.ret oe) ::
            RemoveExportsExprs.retain_items rest from rfl]
        simp only [Analyzer.fold_module_items]
        exact ih _
    | importI sp src =>
      rw [show RemoveExportsExprs.retain_items
        (ModuleItem.importI sp src :: rest) =
        ModuleItem.importI sp src ::
          RemoveExportsExprs.retain_items rest from rfl]
      simp only [Analyzer.fold_module_items]
      exact ih _
    | exportDecl d =>
      rw [show RemoveExportsExprs.retain_items
        (ModuleItem.exportDecl d :: rest) =
        ModuleItem.exportDecl d ::
          RemoveExportsExprs.retain_items rest from rfl]
      simp only [Analyzer.fold_module_items]
      exact ih _
    | exportNamed sp src =>
      rw [show RemoveExportsExprs.retain_items
        (ModuleItem.exportNamed sp src :: rest) =
        ModuleItem.exportNamed sp src ::
          RemoveExportsExprs.retain_items rest from rfl]
      simp only [Analyzer.fold_module_items]
      exact ih _
    | exportDefaultDecl d =>
      rw [show RemoveExportsExprs.retain_items
        (ModuleItem.exportDefaultDecl d :: rest) =
        ModuleItem.exportDefaultDecl d ::
          RemoveExportsExprs.retain_items rest from rfl]
      simp only [Analyzer.fold_module_items]
      exact ih _
    | exportDefaultExpr e =>
      rw [show RemoveExportsExprs.retain_items
        (ModuleItem.exportDefaultExpr e :: rest) =
        ModuleItem.exportDefaultExpr e ::
          RemoveExportsExprs.retain_items rest from rfl]
      simp only [Analyzer.fold_module_items]
      exact ih _

theorem Analyzer.fold_export_specifiers_retain_state (lhs data : Bool)
    (s stX : State) (l : List ExportSpecifier)
    (hrun : (RemoveExportsExprs.export_specifiers_retain stX
      l).2.should_run_again = false) :
    (Analyzer.fold_export_specifiers lhs data s
      (RemoveExportsExprs.export_specifiers_retain stX l).1).2 =
      (Analyzer.fold_export_specifiers lhs data s l).2 := by
  induction l generalizing s with
  | nil => rfl
  | cons sp rest ih =>
    simp only [RemoveExportsExprs.export_specifiers_retain] at hrun ⊢
    split at hrun
    · next hc =>
      rw [if_pos hc]
      simp only [Analyzer.fold_export_specifiers]
      exact ih _ hrun
    · next hc =>
      cases sp with
      | namespaceS n =>
        rw [if_neg hc]
        simp only [Analyzer.fold_export_specifiers]
        exact ih s hrun
      | defaultS e =>
        rw [if_neg hc]
        simp only [Analyzer.fold_export_specifiers]
        exact ih s hrun
      | named o ex =>
        cases o with
        | str so =>
          rw [if_neg hc]
          simp only [Analyzer.fold_export_specifiers,
            Analyzer.fold_export_named_specifier]
          exact ih s hrun
        | ident oid =>
          have hmono := (RemoveExportsExprs.export_specifiers_retain_rbasic
            { stX with
              should_run_again := true
              refs_from_data_fn := insertId oid.toId stX.refs_from_data_fn }
            rest).2.2.2.1
          have hrunx : ({ stX with
              should_run_again := true
              refs_from_data_fn := insertId oid.toId
                stX.refs_from_data_fn } : State).should_run_again =
              true := rfl
          rw [hmono hrunx] at hrun
          exact Bool.noConfusion hrun

theorem listEmpty {A : Type} {l : List A} (h : l.isEmpty = true) :
    l = [] := by
  cases l with
  | nil => rfl
  | cons a r => exact Bool.noConfusion h

theorem RemoveExportsExprs.fold_var_declarator_name_ok (lhs : Bool)
    (st : State) (d : VarDeclarator)
    (h : (RemoveExportsExprs.fold_var_declarator lhs st
      d).2.should_run_again = false) :
    (RemoveExportsExprs.fold_var_declarator lhs st
      d).1.name.isInvalid = false := by
  cases d with
  | mk name init =>
    simp only [RemoveExportsExprs.fold_var_declarator] at h ⊢
    cases hinv : (RemoveExportsExprs.fold_pat true st name).1.isInvalid with
    | true =>
      rw [if_pos hinv] at h
      have hmono := (RemoveExportsExprs.fold_opt_expr_rbasic false
        (markAsCandidateOptExpr
          (RemoveExportsExprs.fold_pat true st name).2 init).2
        init).2.2.2.1
      rw [hmono (markAsCandidateOptExpr_run _ init)] at h
      exact Bool.noConfusion h
    | false =>
      simp only [VarDeclarator.name]
      exact hinv

/-!
The correspondence family: re-analysing the output of a flag-false
rewrite from an `AEquiv`-related state lands in an `AEquiv`-related state.
-/

mutual

theorem Analyzer.fold_expr_corr (lhsv lhs data : Bool) (stO s1 s2 : State)
    (e : Expr)
    (hrun : (RemoveExportsExprs.fold_expr lhsv stO e).2.should_run_again =
      false)
    (heq : AEquiv s1 s2) :
    AEquiv (Analyzer.fold_expr lhs data s1 e).2
      (Analyzer.fold_expr lhs data s2
        (RemoveExportsExprs.fold_expr lhsv stO e).1).2 := by
  cases e with
  | ident i =>
    simp only [RemoveExportsExprs.fold_expr, Analyzer.fold_expr]
    exact heq.add_ref data i.toId
  | lit n => exact heq
  | call callee args =>
    simp only [RemoveExportsExprs.fold_expr] at hrun ⊢
    have hc := run_false_left (RemoveExportsExprs.fold_exprs_rbasic lhsv
      (RemoveExportsExprs.fold_expr lhsv stO callee).2 args).2.2.2.1 hrun
    have hst1 := RemoveExportsExprs.fold_expr_stable lhsv stO callee hc
    rw [hst1] at hrun ⊢
    simp only [Analyzer.fold_expr]
    exact Analyzer.fold_exprs_corr lhsv lhs data stO _ _ args hrun
      (Analyzer.fold_expr_corr lhsv lhs data stO s1 s2 callee hc heq)
  | member obj prop =>
    simp only [RemoveExportsExprs.fold_expr] at hrun ⊢
    simp only [Analyzer.fold_expr]
    exact Analyzer.fold_expr_corr lhsv lhs data stO s1 s2 obj hrun heq
  | fnE f =>
    simp only [RemoveExportsExprs.fold_expr] at hrun ⊢
    simp only [Analyzer.fold_expr]
    exact Analyzer.fold_fn_expr_corr lhsv lhs data stO s1 s2 f hrun heq

theorem Analyzer.fold_exprs_corr (lhsv lhs data : Bool) (stO s1 s2 : State)
    (l : List Expr)
    (hrun : (RemoveExportsExprs.fold_exprs lhsv stO
      l).2.should_run_again = false)
    (heq : AEquiv s1 s2) :
    AEquiv (Analyzer.fold_exprs lhs data s1 l).2
      (Analyzer.fold_exprs lhs data s2
        (RemoveExportsExprs.fold_exprs lhsv stO l).1).2 := by
  cases l with
  | nil => exact heq
  | cons e rest =>
    simp only [RemoveExportsExprs.fold_exprs] at hrun ⊢
    have hc := run_false_left (RemoveExportsExprs.fold_exprs_rbasic lhsv
      (RemoveExportsExprs.fold_expr lhsv stO e).2 rest).2.2.2.1 hrun
    have hst1 := RemoveExportsExprs.fold_expr_stable lhsv stO e hc
    rw [hst1] at hrun ⊢
    simp only [Analyzer.fold_exprs]
    exact Analyzer.fold_exprs_corr lhsv lhs data stO _ _ rest hrun
      (Analyzer.fold_expr_corr lhsv lhs data stO s1 s2 e hc heq)

theorem Analyzer.fold_opt_expr_corr (lhsv lhs data : Bool)
    (stO s1 s2 : State) (oe : Option Expr)
    (hrun : (RemoveExportsExprs.fold_opt_expr lhsv stO
      oe).2.should_run_again = false)
    (heq : AEquiv s1 s2) :
    AEquiv (Analyzer.fold_opt_expr lhs data s1 oe).2
      (Analyzer.fold_opt_expr lhs data s2
        (RemoveExportsExprs.fold_opt_expr lhsv stO oe).1).2 := by
  cases oe with
  | none => exact heq
  | some e =>
    simp only [RemoveExportsExprs.fold_opt_expr] at hrun ⊢
    simp only [Analyzer.fold_opt_expr]
    exact Analyzer.fold_expr_corr lhsv lhs data stO s1 s2 e hrun heq

theorem Analyzer.fold_fn_expr_corr (lhsv lhs data : Bool)
    (stO s1 s2 : State) (f : FnExpr)
    (hrun : (RemoveExportsExprs.fold_fn_expr lhsv stO
      f).2.should_run_again = false)
    (heq : AEquiv s1 s2) :
    AEquiv (Analyzer.fold_fn_expr lhs data s1 f).2
      (Analyzer.fold_fn_expr lhs data s2
        (RemoveExportsExprs.fold_fn_expr lhsv stO f).1).2 := by
  cases f with
  | mk oid fn =>
    simp only [RemoveExportsExprs.fold_fn_expr] at hrun ⊢
    have hfn := Analyzer.fold_function_corr lhsv lhs data stO s1 s2 fn
      hrun heq
    cases oid with
    | none =>
      simp only [Analyzer.fold_fn_expr]
      exact hfn
    | some id =>
      simp only [Analyzer.fold_fn_expr]
      exact hfn.add_ref data id.toId

theorem Analyzer.fold_function_corr (lhsv lhs data : Bool)
    (stO s1 s2 : State) (f : Function)
    (hrun : (RemoveExportsExprs.fold_function lhsv stO
      f).2.should_run_again = false)
    (heq : AEquiv s1 s2) :
    AEquiv (Analyzer.fold_function lhs data s1 f).2
      (Analyzer.fold_function lhs data s2
        (RemoveExportsExprs.fold_function lhsv stO f).1).2 := by
  cases f with
  | mk params body =>
    cases body with
    | none =>
      simp only [RemoveExportsExprs.fold_function] at hrun ⊢
      simp only [Analyzer.fold_function]
      exact Analyzer.fold_pats_corr lhsv lhs data stO s1 s2 params
        hrun heq
    | some ss =>
      simp only [RemoveExportsExprs.fold_function] at hrun ⊢
      have hc := run_false_left (RemoveExportsExprs.fold_stmts_rbasic lhsv
        (RemoveExportsExprs.fold_pats lhsv stO params).2 ss).2.2.2.1 hrun
      have hst1 := RemoveExportsExprs.fold_pats_stable lhsv stO params hc
      rw [hst1] at hrun ⊢
      simp only [Analyzer.fold_function]
      exact Analyzer.fold_stmts_corr lhsv lhs data stO _ _ ss hrun
        (Analyzer.fold_pats_corr lhsv lhs data stO s1 s2 params hc heq)

theorem Analyzer.fold_stmt_corr (lhsv lhs data : Bool) (stO s1 s2 : State)
    (s : Stmt)
    (hrun : (RemoveExportsExprs.fold_stmt lhsv stO s).2.should_run_again =
      false)
    (heq : AEquiv s1 s2) :
    AEquiv (Analyzer.fold_stmt lhs data s1 s).2
      (Analyzer.fold_stmt lhs data s2
        (RemoveExportsExprs.fold_stmt lhsv stO s).1).2 := by
  cases s with
  | decl d =>
    cases d with
    | fnD i fn =>
      simp only [RemoveExportsExprs.fold_stmt] at hrun ⊢
      split at hrun
      · next hc =>
        have h2 : (markAsCandidateFunction stO fn).2.should_run_again =
          false := hrun
        rw [markAsCandidateFunction_run] at h2
        exact Bool.noConfusion h2
      · next hc =>
        rw [if_neg hc]
        have h2 : (RemoveExportsExprs.fold_function lhsv stO
          fn).2.should_run_again = false := hrun
        have hfn := Analyzer.fold_function_corr lhsv lhs data stO s1 s2 fn
          h2 heq
        simp only [Analyzer.fold_stmt, Analyzer.fold_decl]
        cases data with
        | true =>
          rw [if_pos rfl, if_pos rfl]
          exact hfn.add_ref true i.toId
        | false =>
          rw [if_neg Bool.false_ne_true, if_neg Bool.false_ne_true]
          exact hfn
    | varD ds =>
      have hstate : (RemoveExportsExprs.fold_stmt lhsv stO
          (.decl (.varD ds))).2 =
          (RemoveExportsExprs.fold_var_declarators lhsv stO ds).2 := by
        simp only [RemoveExportsExprs.fold_stmt]
        split <;> rfl
      rw [hstate] at hrun
      cases ds with
      | nil => exact heq
      | cons d0 rest =>
        have hc0 := run_false_left
          (RemoveExportsExprs.fold_var_declarators_rbasic lhsv
            (RemoveExportsExprs.fold_var_declarator lhsv stO d0).2
            rest).2.2.2.1 hrun
        have hname := RemoveExportsExprs.fold_var_declarator_name_ok lhsv
          stO d0 hc0
        have hstd0 := RemoveExportsExprs.fold_var_declarator_stable lhsv
          stO d0 hc0
        have hlist : (RemoveExportsExprs.fold_var_declarators lhsv stO
            (d0 :: rest)).1 =
            (RemoveExportsExprs.fold_var_declarator lhsv stO d0).1 ::
            (RemoveExportsExprs.fold_var_declarators lhsv stO rest).1 := by
          simp only [RemoveExportsExprs.fold_var_declarators, hstd0,
            hname, Bool.false_eq_true, if_false]
        have hemp : (RemoveExportsExprs.fold_var_declarators lhsv stO
            (d0 :: rest)).1.isEmpty = false := by
          rw [hlist]
          rfl
        simp only [RemoveExportsExprs.fold_stmt]
        rw [if_neg (eqFalseNeTrue hemp)]
        simp only [Analyzer.fold_stmt, Analyzer.fold_decl]
        exact Analyzer.fold_var_declarators_corr lhsv lhs data stO s1 s2
          (d0 :: rest) hrun heq
  | expr e =>
    simp only [RemoveExportsExprs.fold_stmt] at hrun ⊢
    simp only [Analyzer.fold_stmt]
    exact Analyzer.fold_expr_corr lhsv lhs data stO s1 s2 e hrun heq
  | empty => exact heq
  | ret oe =>
    simp only [RemoveExportsExprs.fold_stmt] at hrun ⊢
    simp only [Analyzer.fold_stmt]
    exact Analyzer.fold_opt_expr_corr lhsv lhs data stO s1 s2 oe hrun heq

theorem Analyzer.fold_stmts_corr (lhsv lhs data : Bool) (stO s1 s2 : State)
    (l : List Stmt)
    (hrun : (RemoveExportsExprs.fold_stmts lhsv stO
      l).2.should_run_again = false)
    (heq : AEquiv s1 s2) :
    AEquiv (Analyzer.fold_stmts lhs data s1 l).2
      (Analyzer.fold_stmts lhs data s2
        (RemoveExportsExprs.fold_stmts lhsv stO l).1).2 := by
  cases l with
  | nil => exact heq
  | cons s rest =>
    simp only [RemoveExportsExprs.fold_stmts] at hrun ⊢
    have hc := run_false_left (RemoveExportsExprs.fold_stmts_rbasic lhsv
      (RemoveExportsExprs.fold_stmt lhsv stO s).2 rest).2.2.2.1 hrun
    have hst1 := RemoveExportsExprs.fold_stmt_stable lhsv stO s hc
    rw [hst1] at hrun ⊢
    simp only [Analyzer.fold_stmts]
    exact Analyzer.fold_stmts_corr lhsv lhs data stO _ _ rest hrun
      (Analyzer.fold_stmt_corr lhsv lhs data stO s1 s2 s hc heq)

theorem Analyzer.fold_var_declarator_corr (lhsv lhs data : Bool)
    (stO s1 s2 : State) (d : VarDeclarator)
    (hrun : (RemoveExportsExprs.fold_var_declarator lhsv stO
      d).2.should_run_again = false)
    (heq : AEquiv s1 s2) :
    AEquiv (Analyzer.fold_var_declarator lhs data s1 d).2
      (Analyzer.fold_var_declarator lhs data s2
        (RemoveExportsExprs.fold_var_declarator lhsv stO d).1).2 := by
  cases d with
  | mk name init =>
    simp only [RemoveExportsExprs.fold_var_declarator] at hrun ⊢
    cases hinv : (RemoveExportsExprs.fold_pat true stO
        name).1.isInvalid with
    | true =>
      rw [if_pos hinv] at hrun
      have hmono := (RemoveExportsExprs.fold_opt_expr_rbasic false
        (markAsCandidateOptExpr
          (RemoveExportsExprs.fold_pat true stO name).2 init).2
        init).2.2.2.1
      rw [hmono (markAsCandidateOptExpr_run _ init)] at hrun
      exact Bool.noConfusion hrun
    | false =>
      rw [if_neg (eqFalseNeTrue hinv)] at hrun
      rw [if_neg Bool.false_ne_true]
      have hirun : (RemoveExportsExprs.fold_opt_expr false
          (RemoveExportsExprs.fold_pat true stO name).2
          init).2.should_run_again = false := hrun
      have hnrun := run_false_left (RemoveExportsExprs.fold_opt_expr_rbasic
        false (RemoveExportsExprs.fold_pat true stO name).2 init).2.2.2.1
        hirun
      have hnst := RemoveExportsExprs.fold_pat_stable true stO name hnrun
      rw [hnst] at hirun
      simp only [hnst, Analyzer.fold_var_declarator]
      exact Analyzer.fold_opt_expr_corr false false data stO _ _ init
        hirun (Analyzer.fold_pat_corr true true data stO s1 s2 name
          hnrun heq)

theorem Analyzer.fold_var_declarators_corr (lhsv lhs data : Bool)
    (stO s1 s2 : State) (l : List VarDeclarator)
    (hrun : (RemoveExportsExprs.fold_var_declarators lhsv stO
      l).2.should_run_again = false)
    (heq : AEquiv s1 s2) :
    AEquiv (Analyzer.fold_var_declarators lhs data s1 l).2
      (Analyzer.fold_var_declarators lhs data s2
        (RemoveExportsExprs.fold_var_declarators lhsv stO l).1).2 := by
  cases l with
  | nil => exact heq
  | cons d0 rest =>
    simp only [RemoveExportsExprs.fold_var_declarators] at hrun ⊢
    have hc0 := run_false_left
      (RemoveExportsExprs.fold_var_declarators_rbasic lhsv
        (RemoveExportsExprs.fold_var_declarator lhsv stO d0).2
        rest).2.2.2.1 hrun
    have hname := RemoveExportsExprs.fold_var_declarator_name_ok lhsv stO
      d0 hc0
    have hstd0 := RemoveExportsExprs.fold_var_declarator_stable lhsv stO
      d0 hc0
    rw [hstd0] at hrun ⊢
    rw [hname]
    simp only [Bool.false_eq_true, if_false]
    simp only [Analyzer.fold_var_declarators]
    exact Analyzer.fold_var_declarators_corr lhsv lhs data stO _ _ rest
      hrun (Analyzer.fold_var_declarator_corr lhsv lhs data stO s1 s2 d0
        hc0 heq)

theorem Analyzer.fold_pat_corr (lhsv lhs data : Bool) (stO s1 s2 : State)
    (p : Pat)
    (hrun : (RemoveExportsExprs.fold_pat lhsv stO p).2.should_run_again =
      false)
    (heq : AEquiv s1 s2) :
    AEquiv (Analyzer.fold_pat lhs data s1 p).2
      (Analyzer.fold_pat lhs data s2
        (RemoveExportsExprs.fold_pat lhsv stO p).1).2 := by
  cases p with
  | ident i =>
    simp only [RemoveExportsExprs.fold_pat] at hrun ⊢
    split at hrun
    · next hc =>
      have h2 : ({ stO with should_run_again := true } :
        State).should_run_again = false := hrun
      exact Bool.noConfusion h2
    · next hc =>
      rw [if_neg hc]
      simp only [Analyzer.fold_pat]
      by_cases hg : (!lhs || data) = true
      · rw [if_pos hg, if_pos hg]
        exact heq.add_ref data i.toId
      · rw [if_neg hg, if_neg hg]
        exact heq
  | array elems =>
    have hst0 : (RemoveExportsExprs.fold_pat lhsv stO (.array elems)).2 =
        (RemoveExportsExprs.fold_opt_pats lhsv stO elems).2 := by
      simp only [RemoveExportsExprs.fold_pat]
      split
      · split
        · rfl
        · split <;> rfl
      · rfl
    rw [hst0] at hrun
    have hcorr := Analyzer.fold_opt_pats_corr lhsv lhs data stO s1 s2
      elems hrun heq
    simp only [RemoveExportsExprs.fold_pat]
    split
    · next hl =>
      split
      · next hemp =>
        simp only [Analyzer.fold_pat]
        exact hcorr
      · next hemp =>
        split
        · next hkept =>
          have hnil := listEmpty hkept
          have hfs := Analyzer.fold_opt_pats_filter_state lhs data s2
            (RemoveExportsExprs.fold_opt_pats lhsv stO elems).1
          rw [hnil] at hfs
          simp only [Analyzer.fold_pat]
          rw [show (Analyzer.fold_opt_pats lhs data s2
            ([] : List (Option Pat))).2 = s2 from rfl] at hfs
          rw [← hfs] at hcorr
          exact hcorr
        · next hkept =>
          have hfs := Analyzer.fold_opt_pats_filter_state lhs data s2
            (RemoveExportsExprs.fold_opt_pats lhsv stO elems).1
          simp only [Analyzer.fold_pat]
          rw [hfs]
          exact hcorr
    · next hl =>
      simp only [Analyzer.fold_pat]
      exact hcorr
  | object props =>
    have hpsrun : (RemoveExportsExprs.fold_object_props lhsv stO
        props).2.should_run_again = false := by
      have hkey : (RemoveExportsExprs.fold_pat lhsv stO (.object props)).2
          = (RemoveExportsExprs.object_props_filter
            (RemoveExportsExprs.fold_object_props lhsv stO props).2
            (RemoveExportsExprs.fold_object_props lhsv stO props).1).2 ∨
          (RemoveExportsExprs.fold_pat lhsv stO (.object props)).2 =
          (RemoveExportsExprs.fold_object_props lhsv stO props).2 := by
        simp only [RemoveExportsExprs.fold_pat]
        split
        · split
          · exact Or.inr rfl
          · split
            · exact Or.inl rfl
            · exact Or.inl rfl
        · exact Or.inr rfl
      rcases hkey with hk | hk
      · have h2 := hrun
        rw [hk] at h2
        exact run_false_left (RemoveExportsExprs.object_props_filter_rbasic
          _ _).2.2.2.1 h2
      · have h2 := hrun
        rw [hk] at h2
        exact h2
    have hstprops := RemoveExportsExprs.fold_object_props_stable lhsv stO
      props hpsrun
    have hcorr := Analyzer.fold_object_props_corr lhsv lhs data stO s1 s2
      props hpsrun heq
    simp only [RemoveExportsExprs.fold_pat, hstprops]
    split
    · next hl =>
      split
      · next hemp =>
        simp only [Analyzer.fold_pat]
        exact hcorr
      · next hemp =>
        have hfilrun : (RemoveExportsExprs.object_props_filter stO
            (RemoveExportsExprs.fold_object_props lhsv stO
              props).1).2.should_run_again = false := by
          have hstate2 : (RemoveExportsExprs.fold_pat lhsv stO
              (.object props)).2 =
              (RemoveExportsExprs.object_props_filter stO
                (RemoveExportsExprs.fold_object_props lhsv stO
                  props).1).2 := by
            simp only [RemoveExportsExprs.fold_pat, hstprops]
            rw [if_pos hl, if_neg hemp]
            split <;> rfl
          rw [← hstate2]
          exact hrun
        have hfs := Analyzer.fold_object_props_filter_state lhs data s2
          stO (RemoveExportsExprs.fold_object_props lhsv stO props).1
          hfilrun
        split
        · next hkept =>
          have hnil := listEmpty hkept
          rw [hnil] at hfs
          simp only [Analyzer.fold_pat]
          rw [show (Analyzer.fold_object_props lhs data s2
            ([] : List ObjectPatProp)).2 = s2 from rfl] at hfs
          rw [← hfs] at hcorr
          exact hcorr
        · next hkept =>
          simp only [Analyzer.fold_pat]
          rw [hfs]
          exact hcorr
    · next hl =>
      simp only [Analyzer.fold_pat]
      exact hcorr
  | rest a =>
    have hst0 : (RemoveExportsExprs.fold_pat lhsv stO (.rest a)).2 =
        (RemoveExportsExprs.fold_pat lhsv stO a).2 := by
      simp only [RemoveExportsExprs.fold_pat]
      split <;> rfl
    rw [hst0] at hrun
    have hcorr := Analyzer.fold_pat_corr lhsv lhs data stO s1 s2 a
      hrun heq
    simp only [RemoveExportsExprs.fold_pat]
    split
    · next hc =>
      have hinv : (RemoveExportsExprs.fold_pat lhsv stO
          a).1.isInvalid = true := by
        cases hx : (RemoveExportsExprs.fold_pat lhsv stO a).1.isInvalid with
        | true => rfl
        | false =>
          rw [hx, Bool.and_false] at hc
          exact Bool.noConfusion hc
      have hainv := Pat.isInvalid_eq hinv
      rw [hainv] at hcorr
      simp only [Analyzer.fold_pat]
      exact hcorr
    · next hc =>
      simp only [Analyzer.fold_pat]
      exact hcorr
  | invalid => exact heq

theorem Analyzer.fold_pats_corr (lhsv lhs data : Bool) (stO s1 s2 : State)
    (l : List Pat)
    (hrun : (RemoveExportsExprs.fold_pats lhsv stO l).2.should_run_again =
      false)
    (heq : AEquiv s1 s2) :
    AEquiv (Analyzer.fold_pats lhs data s1 l).2
      (Analyzer.fold_pats lhs data s2
        (RemoveExportsExprs.fold_pats lhsv stO l).1).2 := by
  cases l with
  | nil => exact heq
  | cons p rest =>
    simp only [RemoveExportsExprs.fold_pats] at hrun ⊢
    have hc := run_false_left (RemoveExportsExprs.fold_pats_rbasic lhsv
      (RemoveExportsExprs.fold_pat lhsv stO p).2 rest).2.2.2.1 hrun
    have hst1 := RemoveExportsExprs.fold_pat_stable lhsv stO p hc
    rw [hst1] at hrun ⊢
    simp only [Analyzer.fold_pats]
    exact Analyzer.fold_pats_corr lhsv lhs data stO _ _ rest hrun
      (Analyzer.fold_pat_corr lhsv lhs data stO s1 s2 p hc heq)

theorem Analyzer.fold_opt_pats_corr (lhsv lhs data : Bool)
    (stO s1 s2 : State) (l : List (Option Pat))
    (hrun : (RemoveExportsExprs.fold_opt_pats lhsv stO
      l).2.should_run_again = false)
    (heq : AEquiv s1 s2) :
    AEquiv (Analyzer.fold_opt_pats lhs data s1 l).2
      (Analyzer.fold_opt_pats lhs data s2
        (RemoveExportsExprs.fold_opt_pats lhsv stO l).1).2 := by
  cases l with
  | nil => exact heq
  | cons op rest =>
    cases op with
    | none =>
      simp only [RemoveExportsExprs.fold_opt_pats] at hrun ⊢
      simp only [Analyzer.fold_opt_pats]
      exact Analyzer.fold_opt_pats_corr lhsv lhs data stO s1 s2 rest
        hrun heq
    | some p =>
      simp only [RemoveExportsExprs.fold_opt_pats] at hrun ⊢
      have hc := run_false_left (RemoveExportsExprs.fold_opt_pats_rbasic
        lhsv (RemoveExportsExprs.fold_pat lhsv stO p).2 rest).2.2.2.1 hrun
      have hst1 := RemoveExportsExprs.fold_pat_stable lhsv stO p hc
      rw [hst1] at hrun ⊢
      simp only [Analyzer.fold_opt_pats]
      exact Analyzer.fold_opt_pats_corr lhsv lhs data stO _ _ rest hrun
        (Analyzer.fold_pat_corr lhsv lhs data stO s1 s2 p hc heq)

theorem Analyzer.fold_object_props_corr (lhsv lhs data : Bool)
    (stO s1 s2 : State) (l : List ObjectPatProp)
    (hrun : (RemoveExportsExprs.fold_object_props lhsv stO
      l).2.should_run_again = false)
    (heq : AEquiv s1 s2) :
    AEquiv (Analyzer.fold_object_props lhs data s1 l).2
      (Analyzer.fold_object_props lhs data s2
        (RemoveExportsExprs.fold_object_props lhsv stO l).1).2 := by
  cases l with
  | nil => exact heq
  | cons p rest =>
    cases p with
    | keyValue k v =>
      simp only [RemoveExportsExprs.fold_object_props] at hrun ⊢
      have hc := run_false_left
        (RemoveExportsExprs.fold_object_props_rbasic lhsv
          (RemoveExportsExprs.fold_pat lhsv stO v).2 rest).2.2.2.1 hrun
      have hst1 := RemoveExportsExprs.fold_pat_stable lhsv stO v hc
      rw [hst1] at hrun ⊢
      simp only [Analyzer.fold_object_props]
      exact Analyzer.fold_object_props_corr lhsv lhs data stO _ _ rest
        hrun (Analyzer.fold_pat_corr lhsv lhs data stO s1 s2 v hc heq)
    | assign key val =>
      simp only [RemoveExportsExprs.fold_object_props] at hrun ⊢
      have hc := run_false_left
        (RemoveExportsExprs.fold_object_props_rbasic lhsv
          (RemoveExportsExprs.fold_opt_expr lhsv stO val).2
          rest).2.2.2.1 hrun
      have hst1 := RemoveExportsExprs.fold_opt_expr_stable lhsv stO val hc
      rw [hst1] at hrun ⊢
      simp only [Analyzer.fold_object_props]
      have hst1eq : AEquiv
          (if (!lhs || data) = true then s1.add_ref data key.toId else s1)
          (if (!lhs || data) = true then s2.add_ref data key.toId
            else s2) := by
        by_cases hg : (!lhs || data) = true
        · rw [if_pos hg, if_pos hg]
          exact heq.add_ref data key.toId
        · rw [if_neg hg, if_neg hg]
          exact heq
      exact Analyzer.fold_object_props_corr lhsv lhs data stO _ _ rest
        hrun (Analyzer.fold_opt_expr_corr lhsv lhs data stO _ _ val hc
          hst1eq)
    | rest a =>
      simp only [RemoveExportsExprs.fold_object_props] at hrun ⊢
      have hc := run_false_left
        (RemoveExportsExprs.fold_object_props_rbasic lhsv
          (RemoveExportsExprs.fold_pat lhsv stO a).2 rest).2.2.2.1 hrun
      have hst1 := RemoveExportsExprs.fold_pat_stable lhsv stO a hc
      rw [hst1] at hrun ⊢
      simp only [Analyzer.fold_object_props]
      exact Analyzer.fold_object_props_corr lhsv lhs data stO _ _ rest
        hrun (Analyzer.fold_pat_corr lhsv lhs data stO s1 s2 a hc heq)

end

theorem Analyzer.fold_decl_corr (lhsv lhs data : Bool) (stO s1 s2 : State)
    (d : Decl)
    (hrun : (RemoveExportsExprs.fold_decl lhsv stO d).2.should_run_again =
      false)
    (heq : AEquiv s1 s2) :
    AEquiv (Analyzer.fold_decl lhs data s1 d).2
      (Analyzer.fold_decl lhs data s2
        (RemoveExportsExprs.fold_decl lhsv stO d).1).2 := by
  cases d with
  | fnD i fn =>
    simp only [RemoveExportsExprs.fold_decl] at hrun ⊢
    have hfn := Analyzer.fold_function_corr lhsv lhs data stO s1 s2 fn
      hrun heq
    simp only [Analyzer.fold_decl]
    cases data with
    | true =>
      rw [if_pos rfl, if_pos rfl]
      exact hfn.add_ref true i.toId
    | false =>
      rw [if_neg Bool.false_ne_true, if_neg Bool.false_ne_true]
      exact hfn
  | varD ds =>
    simp only [RemoveExportsExprs.fold_decl] at hrun ⊢
    simp only [Analyzer.fold_decl]
    exact Analyzer.fold_var_declarators_corr lhsv lhs data stO s1 s2 ds
      hrun heq

theorem RemoveExportsExprs.fold_pat_ident_ok (lhsv : Bool) (st : State)
    (nm : Ident)
    (h : (RemoveExportsExprs.fold_pat lhsv st
      (.ident nm)).2.should_run_again = false) :
    RemoveExportsExprs.fold_pat lhsv st (.ident nm) = (.ident nm, st) := by
  simp only [RemoveExportsExprs.fold_pat] at h ⊢
  split at h
  · next hc =>
    have h2 : ({ st with should_run_again := true} :
      State).should_run_again = false := h
    exact Bool.noConfusion h2
  · next hc =>
    rw [if_neg hc]

theorem RemoveExportsExprs.fold_var_declarator_name_run (lhsv : Bool)
    (st : State) (name : Pat) (init : Option Expr)
    (h : (RemoveExportsExprs.fold_var_declarator lhsv st
      (.mk name init)).2.should_run_again = false) :
    (RemoveExportsExprs.fold_pat true st name).2.should_run_again =
      false := by
  simp only [RemoveExportsExprs.fold_var_declarator] at h
  cases hinv : (RemoveExportsExprs.fold_pat true st name).1.isInvalid with
  | true =>
    rw [if_pos hinv] at h
    have hmono := (RemoveExportsExprs.fold_opt_expr_rbasic false
      (markAsCandidateOptExpr
        (RemoveExportsExprs.fold_pat true st name).2 init).2
      init).2.2.2.1
    rw [hmono (markAsCandidateOptExpr_run _ init)] at h
    exact Bool.noConfusion h
  | false =>
    rw [if_neg (eqFalseNeTrue hinv)] at h
    exact run_false_left (RemoveExportsExprs.fold_opt_expr_rbasic false
      (RemoveExportsExprs.fold_pat true st name).2 init).2.2.2.1 h

theorem RemoveExportsExprs.fold_pat_shape_array (lhsv : Bool) (st : State)
    (es : List (Option Pat)) :
    (∃ x, (RemoveExportsExprs.fold_pat lhsv st (.array es)).1 =
      .array x) ∨
    (RemoveExportsExprs.fold_pat lhsv st (.array es)).1 = .invalid := by
  simp only [RemoveExportsExprs.fold_pat]
  split
  · split
    · exact Or.inl ⟨_, rfl⟩
    · split
      · exact Or.inr rfl
      · exact Or.inl ⟨_, rfl⟩
  · exact Or.inl ⟨_, rfl⟩

theorem RemoveExportsExprs.fold_pat_shape_object (lhsv : Bool) (st : State)
    (ps : List ObjectPatProp) :
    (∃ x, (RemoveExportsExprs.fold_pat lhsv st (.object ps)).1 =
      .object x) ∨
    (RemoveExportsExprs.fold_pat lhsv st (.object ps)).1 = .invalid := by
  simp only [RemoveExportsExprs.fold_pat]
  split
  · split
    · exact Or.inl ⟨_, rfl⟩
    · split
      · exact Or.inr rfl
      · exact Or.inl ⟨_, rfl⟩
  · exact Or.inl ⟨_, rfl⟩

theorem RemoveExportsExprs.fold_pat_shape_rest (lhsv : Bool) (st : State)
    (a : Pat) :
    (∃ x, (RemoveExportsExprs.fold_pat lhsv st (.rest a)).1 = .rest x) ∨
    (RemoveExportsExprs.fold_pat lhsv st (.rest a)).1 = .invalid := by
  simp only [RemoveExportsExprs.fold_pat]
  split
  · exact Or.inr rfl
  · exact Or.inl ⟨_, rfl⟩

theorem Analyzer.fold_export_decl_corr (lhsv lhs data : Bool)
    (stO s1 s2 : State) (d : Decl)
    (hrun : (RemoveExportsExprs.fold_decl lhsv stO d).2.should_run_again =
      false)
    (heq : AEquiv s1 s2) :
    AEquiv (Analyzer.fold_export_decl lhs data s1 d).2
      (Analyzer.fold_export_decl lhs data s2
        (RemoveExportsExprs.fold_decl lhsv stO d).1).2 := by
  cases d with
  | fnD i fn =>
    have hdc := Analyzer.fold_decl_corr lhsv lhs (data || true) stO
      (s1.add_ref true i.toId) (s2.add_ref true i.toId) (.fnD i fn) hrun
      (heq.add_ref true i.toId)
    have hdc2 := Analyzer.fold_decl_corr lhsv lhs (data || false) stO
      s1 s2 (.fnD i fn) hrun heq
    simp only [RemoveExportsExprs.fold_decl] at hdc hdc2 ⊢
    simp only [Analyzer.fold_export_decl, State.should_remove_identifier]
    simp only [heq.2.2.1]
    rcases Bool.eq_false_or_eq_true (s1.remove_exports.contains i.sym)
      with hc | hc
    · simp only [hc, if_true]
      exact hdc
    · simp only [hc, Bool.false_eq_true, if_false]
      exact hdc2
  | varD ds =>
    cases ds with
    | nil => exact heq
    | cons d0 rest =>
      have hc0 : (RemoveExportsExprs.fold_var_declarator lhsv stO
          d0).2.should_run_again = false := by
        have h2 : (RemoveExportsExprs.fold_var_declarators lhsv
            (RemoveExportsExprs.fold_var_declarator lhsv stO
              d0).2 rest).2.should_run_again = false := hrun
        exact run_false_left
          (RemoveExportsExprs.fold_var_declarators_rbasic lhsv
            (RemoveExportsExprs.fold_var_declarator lhsv stO d0).2
            rest).2.2.2.1 h2
      have hname := RemoveExportsExprs.fold_var_declarator_name_ok lhsv
        stO d0 hc0
      have hlist : (RemoveExportsExprs.fold_decl lhsv stO
          (.varD (d0 :: rest))).1 =
          .varD ((RemoveExportsExprs.fold_var_declarator lhsv stO
            d0).1 ::
          (RemoveExportsExprs.fold_var_declarators lhsv
            (RemoveExportsExprs.fold_var_declarator lhsv stO
              d0).2 rest).1) := by
        simp only [RemoveExportsExprs.fold_decl,
          RemoveExportsExprs.fold_var_declarators]
        rw [hname]
        simp only [Bool.false_eq_true, if_false]
      rw [hlist]
      cases d0 with
      | mk name init =>
      cases name with
      | ident nm =>
        have hnr := RemoveExportsExprs.fold_var_declarator_name_run lhsv
          stO (.ident nm) init hc0
        have hok := RemoveExportsExprs.fold_pat_ident_ok true stO nm hnr
        have hhd : (RemoveExportsExprs.fold_var_declarator lhsv stO
            (.mk (.ident nm) init)).1.name = Pat.ident nm := by
          show (RemoveExportsExprs.fold_pat true stO (.ident nm)).1 =
            Pat.ident nm
          rw [hok]
        simp only [Analyzer.fold_export_decl]
        rw [hhd]
        simp only [VarDeclarator.name]
        simp only [heq.2.2.1]
        rcases Bool.eq_false_or_eq_true (s1.remove_exports.contains nm.sym)
          with hc | hc
        · simp only [hc, if_true]
          rw [← hlist]
          exact Analyzer.fold_decl_corr lhsv lhs (data || true) stO
            (s1.add_ref true nm.toId) (s2.add_ref true nm.toId)
            (.varD (.mk (.ident nm) init :: rest)) hrun
            (heq.add_ref true nm.toId)
        · simp only [hc, Bool.false_eq_true, if_false]
          rw [← hlist]
          exact Analyzer.fold_decl_corr lhsv lhs (data || false) stO
            s1 s2 (.varD (.mk (.ident nm) init :: rest)) hrun heq
      | array es =>
        have hn2 : (RemoveExportsExprs.fold_pat true stO
            (.array es)).1.isInvalid = false := hname
        rcases RemoveExportsExprs.fold_pat_shape_array true stO es with
          ⟨x, hx⟩ | hx
        · have hhd : (RemoveExportsExprs.fold_var_declarator lhsv stO
              (.mk (.array es) init)).1.name = Pat.array x := hx
          simp only [Analyzer.fold_export_decl]
          rw [hhd]
          simp only [VarDeclarator.name]
          rw [← hlist]
          exact Analyzer.fold_decl_corr lhsv lhs (data || false) stO
            s1 s2 (.varD (.mk (.array es) init :: rest)) hrun heq
        · rw [hx] at hn2
          exact Bool.noConfusion hn2
      | object ps =>
        have hn2 : (RemoveExportsExprs.fold_pat true stO
            (.object ps)).1.isInvalid = false := hname
        rcases RemoveExportsExprs.fold_pat_shape_object true stO ps with
          ⟨x, hx⟩ | hx
        · have hhd : (RemoveExportsExprs.fold_var_declarator lhsv stO
              (.mk (.object ps) init)).1.name = Pat.object x := hx
          simp only [Analyzer.fold_export_decl]
          rw [hhd]
          simp only [VarDeclarator.name]
          rw [← hlist]
          exact Analyzer.fold_decl_corr lhsv lhs (data || false) stO
            s1 s2 (.varD (.mk (.object ps) init :: rest)) hrun heq
        · rw [hx] at hn2
          exact Bool.noConfusion hn2
      | rest a =>
        have hn2 : (RemoveExportsExprs.fold_pat true stO
            (.rest a)).1.isInvalid = false := hname
        rcases RemoveExportsExprs.fold_pat_shape_rest true stO a with
          ⟨x, hx⟩ | hx
        · have hhd : (RemoveExportsExprs.fold_var_declarator lhsv stO
              (.mk (.rest a) init)).1.name = Pat.rest x := hx
          simp only [Analyzer.fold_export_decl]
          rw [hhd]
          simp only [VarDeclarator.name]
          rw [← hlist]
          exact Analyzer.fold_decl_corr lhsv lhs (data || false) stO
            s1 s2 (.varD (.mk (.rest a) init :: rest)) hrun heq
        · rw [hx] at hn2
          exact Bool.noConfusion hn2
      | invalid =>
        have hn2 : (Pat.invalid).isInvalid = false := hname
        exact Bool.noConfusion hn2

theorem Analyzer.fold_module_item_exportDecl_state (lhs data : Bool)
    (s : State) (d : Decl) :
    (Analyzer.fold_module_item lhs data s (.exportDecl d)).2 =
      (Analyzer.fold_export_decl lhs data s d).2 := by
  simp only [Analyzer.fold_module_item]
  split
  · split <;> rfl
  · rfl
  · rfl

theorem Analyzer.fold_module_item_exportNamed_state (lhs data : Bool)
    (s : State) (sp : List ExportSpecifier) (src : Option String) :
    (Analyzer.fold_module_item lhs data s (.exportNamed sp src)).2 =
      (Analyzer.fold_named_export lhs data s sp src).2 := by
  simp only [Analyzer.fold_module_item]
  split
  · rfl
  · split <;> rfl

theorem Analyzer.fold_module_item_corr (lhsv lhs data : Bool)
    (stO s1 s2 : State) (i : ModuleItem)
    (htgtO : stO.remove_exports = s1.remove_exports)
    (hrun : (RemoveExportsExprs.fold_module_item lhsv stO
      (analyzerItemShape s1.remove_exports i)).2.should_run_again = false)
    (heq : AEquiv s1 s2) :
    AEquiv (Analyzer.fold_module_item lhs data s1 i).2
      (Analyzer.fold_module_item lhs data s2
        (RemoveExportsExprs.fold_module_item lhsv stO
          (analyzerItemShape s1.remove_exports i)).1).2 := by
  cases i with
  | stmtI s =>
    rw [analyzerItemShape_stmtI] at hrun ⊢
    have hrun2 : (RemoveExportsExprs.fold_stmt lhsv stO
        s).2.should_run_again = false := hrun
    exact Analyzer.fold_stmt_corr lhsv lhs data stO s1 s2 s hrun2 heq
  | importI sp src =>
    rw [analyzerItemShape_importI] at hrun ⊢
    simp only [RemoveExportsExprs.fold_module_item]
    split
    · exact heq
    · exact heq
  | exportNamed sp src =>
    rw [analyzerItemShape_exportNamed] at hrun ⊢
    have hstR : (RemoveExportsExprs.fold_module_item lhsv stO
        (.exportNamed sp src)).2 =
        (RemoveExportsExprs.export_specifiers_retain stO sp).2 := by
      simp only [RemoveExportsExprs.fold_module_item,
        RemoveExportsExprs.fold_named_export]
      split <;> rfl
    rw [hstR] at hrun
    rw [Analyzer.fold_module_item_exportNamed_state]
    rcases Bool.eq_false_or_eq_true
        (RemoveExportsExprs.export_specifiers_retain stO sp).1.isEmpty
      with hemp | hemp
    · have hout : (RemoveExportsExprs.fold_module_item lhsv stO
          (.exportNamed sp src)).1 = .stmtI .empty := by
        simp only [RemoveExportsExprs.fold_module_item,
          RemoveExportsExprs.fold_named_export]
        rw [if_pos hemp]
      rw [hout]
      cases src with
      | none => exact heq
      | some str =>
        have hcong := Analyzer.fold_export_specifiers_cong lhs data s1 s2
          sp heq
        have hfs := Analyzer.fold_export_specifiers_retain_state lhs data
          s2 stO sp hrun
        rw [listEmpty hemp] at hfs
        have hfs2 : s2 = (Analyzer.fold_export_specifiers lhs data s2
            sp).2 := hfs
        rw [← hfs2] at hcong
        exact hcong
    · have hout : (RemoveExportsExprs.fold_module_item lhsv stO
          (.exportNamed sp src)).1 = .exportNamed
          (RemoveExportsExprs.export_specifiers_retain stO sp).1 src := by
        simp only [RemoveExportsExprs.fold_module_item,
          RemoveExportsExprs.fold_named_export]
        rw [if_neg (eqFalseNeTrue hemp)]
      rw [hout]
      rw [Analyzer.fold_module_item_exportNamed_state]
      cases src with
      | none => exact heq
      | some str =>
        show AEquiv (Analyzer.fold_export_specifiers lhs data s1 sp).2
          (Analyzer.fold_export_specifiers lhs data s2
            (RemoveExportsExprs.export_specifiers_retain stO sp).1).2
        rw [Analyzer.fold_export_specifiers_retain_state lhs data s2 stO
          sp hrun]
        exact Analyzer.fold_export_specifiers_cong lhs data s1 s2 sp heq
  | exportDecl d =>
    cases d with
    | fnD i f =>
      rw [analyzerItemShape_fn] at hrun ⊢
      rcases Bool.eq_false_or_eq_true (s1.remove_exports.contains i.sym)
        with htarg | htarg
      · rw [htarg] at hrun ⊢
        rw [if_pos rfl] at hrun ⊢
        rw [Analyzer.fold_module_item_exportDecl_state]
        have h0 : AEquiv (s1.add_ref true i.toId) s2 :=
          heq.absorb_left (add_ref_arefs s1 true i.toId)
            (add_ref_preserves s1 true i.toId)
        have h1 : AEquiv (Analyzer.fold_decl lhs true
            (s1.add_ref true i.toId) (.fnD i f)).2 s2 :=
          h0.absorb_left
            (Analyzer.fold_decl_refs lhs true (s1.add_ref true i.toId)
              (.fnD i f))
            (Analyzer.fold_decl_spec lhs true (s1.add_ref true i.toId)
              (.fnD i f)).2
        simp only [Analyzer.fold_export_decl,
          State.should_remove_identifier, htarg, if_true, Bool.or_true]
        exact h1
      · rw [htarg] at hrun ⊢
        rw [if_neg Bool.false_ne_true] at hrun ⊢
        have hrun2 : (RemoveExportsExprs.fold_decl lhsv stO
            (.fnD i f)).2.should_run_again = false := hrun
        have hargs : (RemoveExportsExprs.fold_module_item lhsv stO
            (.exportDecl (.fnD i f))).1 =
            .exportDecl (RemoveExportsExprs.fold_decl lhsv stO
              (.fnD i f)).1 := rfl
        rw [hargs]
        simp only [Analyzer.fold_module_item_exportDecl_state]
        exact Analyzer.fold_export_decl_corr lhsv lhs data stO s1 s2
          (.fnD i f) hrun2 heq
    | varD ds =>
      cases ds with
      | nil =>
        rw [analyzerItemShape_varNil] at hrun ⊢
        rw [Analyzer.fold_module_item_exportDecl_state]
        exact heq
      | cons d0 rest =>
        rw [analyzerItemShape_varCons] at hrun ⊢
        have hrun2 : (RemoveExportsExprs.fold_decl lhsv stO
            (.varD (d0 :: rest))).2.should_run_again = false := hrun
        have hargs : (RemoveExportsExprs.fold_module_item lhsv stO
            (.exportDecl (.varD (d0 :: rest)))).1 =
            .exportDecl (RemoveExportsExprs.fold_decl lhsv stO
              (.varD (d0 :: rest))).1 := rfl
        rw [hargs]
        simp only [Analyzer.fold_module_item_exportDecl_state]
        exact Analyzer.fold_export_decl_corr lhsv lhs data stO s1 s2
          (.varD (d0 :: rest)) hrun2 heq
  | exportDefaultDecl d =>
    cases d with
    | fnDD f =>
      rw [analyzerItemShape_exportDefaultDecl] at hrun ⊢
      have hsd : stO.should_remove_default = s1.should_remove_default :=
        by simp only [State.should_remove_default, htgtO]
      rcases Bool.eq_false_or_eq_true stO.should_remove_default
        with hdef | hdef
      · have hout : (RemoveExportsExprs.fold_module_item lhsv stO
            (.exportDefaultDecl (.fnDD f))).1 =
            .exportDefaultDecl (.fnDD create_empty_fn) := by
          simp only [RemoveExportsExprs.fold_module_item,
            RemoveExportsExprs.fold_default_decl]
          rw [if_pos hdef]
        rw [hout]
        have hsd1 : s1.should_remove_default = true := by
          rw [← hsd]
          exact hdef
        simp only [Analyzer.fold_module_item,
          Analyzer.fold_default_decl, hsd1, if_true]
        exact heq.absorb_left (Analyzer.fold_fn_expr_refs lhs true s1 f)
          (Analyzer.fold_fn_expr_spec lhs true s1 f).2
      · have hout : (RemoveExportsExprs.fold_module_item lhsv stO
            (.exportDefaultDecl (.fnDD f))).1 =
            .exportDefaultDecl (.fnDD f) := by
          simp only [RemoveExportsExprs.fold_module_item,
            RemoveExportsExprs.fold_default_decl]
          rw [if_neg (eqFalseNeTrue hdef)]
        rw [hout]
        simp only [Analyzer.fold_module_item, Analyzer.fold_default_decl,
          State.should_remove_default, heq.2.2.1]
        exact Analyzer.fold_fn_expr_cong lhs
          (if s1.remove_exports.contains "default" = true then true
            else data) s1 s2 f heq
  | exportDefaultExpr e =>
    rw [analyzerItemShape_exportDefaultExpr] at hrun ⊢
    have hsd : stO.should_remove_default = s1.should_remove_default :=
      by simp only [State.should_remove_default, htgtO]
    rcases Bool.eq_false_or_eq_true stO.should_remove_default
      with hdef | hdef
    · have hout : (RemoveExportsExprs.fold_module_item lhsv stO
          (.exportDefaultExpr e)).1 = .exportDefaultExpr
          (.fnE create_empty_fn) := by
        simp only [RemoveExportsExprs.fold_module_item,
          RemoveExportsExprs.fold_export_default_expr]
        rw [if_pos hdef]
      rw [hout]
      have hsd1 : s1.should_remove_default = true := by
        rw [← hsd]
        exact hdef
      simp only [Analyzer.fold_module_item,
        Analyzer.fold_export_default_expr, hsd1, if_true]
      exact heq.absorb_left (Analyzer.fold_expr_refs lhs true s1 e)
        (Analyzer.fold_expr_spec lhs true s1 e).2
    · have hout : (RemoveExportsExprs.fold_module_item lhsv stO
          (.exportDefaultExpr e)).1 = .exportDefaultExpr e := by
        simp only [RemoveExportsExprs.fold_module_item,
          RemoveExportsExprs.fold_export_default_expr]
        rw [if_neg (eqFalseNeTrue hdef)]
      rw [hout]
      simp only [Analyzer.fold_module_item,
        Analyzer.fold_export_default_expr, State.should_remove_default,
        heq.2.2.1]
      exact Analyzer.fold_expr_cong lhs
        (if s1.remove_exports.contains "default" = true then true
          else data) s1 s2 e heq

theorem Analyzer.fold_module_items_corr (lhsv lhs data : Bool)
    (stO s1 s2 : State) (l : ModuleAst)
    (htgtO : stO.remove_exports = s1.remove_exports)
    (hrun : ∀ j ∈ l, (RemoveExportsExprs.fold_module_item lhsv stO
      (analyzerItemShape s1.remove_exports j)).2.should_run_again = false)
    (heq : AEquiv s1 s2) :
    AEquiv (Analyzer.fold_module_items lhs data s1 l).2
      (Analyzer.fold_module_items lhs data s2
        (l.map (fun j => (RemoveExportsExprs.fold_module_item lhsv stO
          (analyzerItemShape s1.remove_exports j)).1))).2 := by
  induction l generalizing s1 s2 with
  | nil => exact heq
  | cons i rest ih =>
    have hpres := (Analyzer.fold_module_item_spec lhs data s1 i).2
    have hhead := Analyzer.fold_module_item_corr lhsv lhs data stO s1 s2 i
      htgtO (hrun i (List.mem_cons_self i rest)) heq
    have htgtO2 : stO.remove_exports =
        (Analyzer.fold_module_item lhs data s1 i).2.remove_exports :=
      htgtO.trans hpres.2.2.symm
    have hr : ∀ j ∈ rest, (RemoveExportsExprs.fold_module_item lhsv stO
        (analyzerItemShape (Analyzer.fold_module_item lhs data s1
          i).2.remove_exports j)).2.should_run_again = false := by
      intro j hj
      rw [hpres.2.2]
      exact hrun j (List.mem_cons_of_mem i hj)
    have htail := ih _ _ htgtO2 hr hhead
    simp only [hpres.2.2] at htail
    simp only [List.map, Analyzer.fold_module_items]
    exact htail

theorem AEquiv.should_remove_mono {s1 s2 : State} (h : AEquiv s1 s2)
    (id : BindingId) (hid : s2.should_remove id = true) :
    s1.should_remove id = true := by
  unfold State.should_remove at hid ⊢
  rw [h.1] at hid
  simp only [Bool.and_eq_true] at hid ⊢
  refine ⟨?_, hid.2⟩
  have hmem : id ∈ s2.refs_from_data_fn := by
    have h2 := hid.1
    simpa [List.elem_iff] using h2
  have hmem1 : id ∈ s1.refs_from_data_fn := h.2.2.2 id hmem
  simpa [List.elem_iff] using hmem1

theorem listMapId {A : Type} {f : A → A} {l : List A}
    (h : ∀ a ∈ l, f a = a) : l.map f = l := by
  induction l with
  | nil => rfl
  | cons a rest ih =>
    simp only [List.map, h a (List.mem_cons_self a rest),
      ih (fun x hx => h x (List.mem_cons_of_mem a hx))]

theorem RemoveExportsExprs.fold_module_targets (st : State)
    (m : ModuleAst) :
    (RemoveExportsExprs.fold_module st m).2.remove_exports =
      st.remove_exports := by
  have ha := (Analyzer.fold_module_items_spec false false st m).2.2.2
  have hr := (RemoveExportsExprs.fold_module_items_rbasic false
    (Analyzer.fold_module_items false false st m).2
    (Analyzer.fold_module_items false false st m).1).2.2.1
  exact hr.trans ha

theorem analyzerItemShape_rewrite_out (lhsv : Bool) (st : State)
    (tgts : List String) (j : ModuleItem)
    (hrun : (RemoveExportsExprs.fold_module_item lhsv st
      (analyzerItemShape tgts j)).2.should_run_again = false) :
    analyzerItemShape tgts (RemoveExportsExprs.fold_module_item lhsv st
        (analyzerItemShape tgts j)).1 =
      (RemoveExportsExprs.fold_module_item lhsv st
        (analyzerItemShape tgts j)).1 ∨
    (RemoveExportsExprs.fold_module_item lhsv st
      (analyzerItemShape tgts j)).1 = ModuleItem.stmtI Stmt.empty := by
  cases j with
  | stmtI s =>
    rw [analyzerItemShape_stmtI] at hrun ⊢
    exact Or.inl (analyzerItemShape_stmtI tgts _)
  | importI sp src =>
    rw [analyzerItemShape_importI] at hrun ⊢
    simp only [RemoveExportsExprs.fold_module_item]
    split
    · exact Or.inr rfl
    · exact Or.inl (analyzerItemShape_importI tgts _ _)
  | exportNamed sp src =>
    rw [analyzerItemShape_exportNamed] at hrun ⊢
    simp only [RemoveExportsExprs.fold_module_item]
    split
    · exact Or.inr rfl
    · exact Or.inl (analyzerItemShape_exportNamed tgts _ _)
  | exportDefaultDecl d =>
    rw [analyzerItemShape_exportDefaultDecl] at hrun ⊢
    exact Or.inl (analyzerItemShape_exportDefaultDecl tgts _)
  | exportDefaultExpr e =>
    rw [analyzerItemShape_exportDefaultExpr] at hrun ⊢
    exact Or.inl (analyzerItemShape_exportDefaultExpr tgts _)
  | exportDecl d =>
    cases d with
    | fnD i f =>
      rw [analyzerItemShape_fn] at hrun ⊢
      rcases Bool.eq_false_or_eq_true (tgts.contains i.sym)
        with htarg | htarg
      · rw [htarg] at hrun ⊢
        rw [if_pos rfl] at hrun ⊢
        exact Or.inr rfl
      · rw [htarg] at hrun ⊢
        rw [if_neg Bool.false_ne_true] at hrun ⊢
        have hout : (RemoveExportsExprs.fold_module_item lhsv st
            (.exportDecl (.fnD i f))).1 =
            .exportDecl (.fnD i
              (RemoveExportsExprs.fold_function lhsv st f).1) := rfl
        rw [hout, analyzerItemShape_fn, htarg]
        rw [if_neg Bool.false_ne_true]
        exact Or.inl rfl
    | varD ds =>
      cases ds with
      | nil =>
        rw [analyzerItemShape_varNil] at hrun ⊢
        exact Or.inr rfl
      | cons d0 rest =>
        rw [analyzerItemShape_varCons] at hrun ⊢
        have hrun2 : (RemoveExportsExprs.fold_decl lhsv st
            (.varD (d0 :: rest))).2.should_run_again = false := hrun
        have hc0 : (RemoveExportsExprs.fold_var_declarator lhsv st
            d0).2.should_run_again = false := by
          have h2 : (RemoveExportsExprs.fold_var_declarators lhsv
              (RemoveExportsExprs.fold_var_declarator lhsv st
                d0).2 rest).2.should_run_again = false := hrun2
          exact run_false_left
            (RemoveExportsExprs.fold_var_declarators_rbasic lhsv
              (RemoveExportsExprs.fold_var_declarator lhsv st d0).2
              rest).2.2.2.1 h2
        have hname := RemoveExportsExprs.fold_var_declarator_name_ok lhsv
          st d0 hc0
        have hout : (RemoveExportsExprs.fold_module_item lhsv st
            (.exportDecl (.varD (d0 :: rest)))).1 =
            .exportDecl (.varD
              ((RemoveExportsExprs.fold_var_declarator lhsv st d0).1 ::
              (RemoveExportsExprs.fold_var_declarators lhsv
                (RemoveExportsExprs.fold_var_declarator lhsv st
                  d0).2 rest).1)) := by
          show ModuleItem.exportDecl (RemoveExportsExprs.fold_decl lhsv st
            (.varD (d0 :: rest))).1 = _
          rw [show (RemoveExportsExprs.fold_decl lhsv st
              (.varD (d0 :: rest))).1 = .varD
              ((RemoveExportsExprs.fold_var_declarators lhsv st
                (d0 :: rest)).1) from rfl]
          simp only [RemoveExportsExprs.fold_var_declarators]
          rw [hname]
          simp only [Bool.false_eq_true, if_false]
        rw [hout]
        exact Or.inl (analyzerItemShape_varCons tgts _ _)

theorem RemoveExportsExprs.fold_module_pass2 (st : State) (m : ModuleAst)
    (hother : st.refs_from_other = [])
    (hdecl : st.cur_declaring = [])
    (hrun : (RemoveExportsExprs.fold_module st m).2.should_run_again =
      false) :
    RemoveExportsExprs.fold_module (initialState st.remove_exports)
        (RemoveExportsExprs.fold_module st m).1 =
      ((RemoveExportsExprs.fold_module st m).1,
        (Analyzer.fold_module_items false false
          (initialState st.remove_exports)
          (RemoveExportsExprs.fold_module st m).1).2) ∧
    (Analyzer.fold_module_items false false
      (initialState st.remove_exports)
      (RemoveExportsExprs.fold_module st m).1).2.should_run_again =
      false := by
  have ha := Analyzer.fold_module_items_spec false false st m
  have hrunR : (RemoveExportsExprs.fold_module_items false
      (Analyzer.fold_module_items false false st m).2
      (Analyzer.fold_module_items false false st
        m).1).2.should_run_again = false := hrun
  have hstable := RemoveExportsExprs.fold_module_items_stable false
    (Analyzer.fold_module_items false false st m).2
    (Analyzer.fold_module_items false false st m).1 hrunR
  have hM1 : (RemoveExportsExprs.fold_module st m).1 =
      RemoveExportsExprs.retain_items
        (RemoveExportsExprs.fold_module_items false
          (Analyzer.fold_module_items false false st m).2
          (Analyzer.fold_module_items false false st m).1).1 := rfl
  have hY : (RemoveExportsExprs.fold_module_items false
      (Analyzer.fold_module_items false false st m).2
      (Analyzer.fold_module_items false false st m).1).1 =
      m.map (fun j => (RemoveExportsExprs.fold_module_item false
        (Analyzer.fold_module_items false false st m).2
        (analyzerItemShape st.remove_exports j)).1) := by
    rw [hstable.2.1, ha.1, List.map_map]
    rfl
  have hitem : ∀ j ∈ m, (RemoveExportsExprs.fold_module_item false
      (Analyzer.fold_module_items false false st m).2
      (analyzerItemShape st.remove_exports
        j)).2.should_run_again = false := by
    intro j hj
    exact (hstable.2.2 _ (by
      rw [ha.1]
      exact List.mem_map_of_mem _ hj)).1
  have heq0 : AEquiv st (initialState st.remove_exports) :=
    ⟨hother.symm, hdecl.symm, rfl,
      fun x hx => absurd hx (List.not_mem_nil x)⟩
  have hcorr := Analyzer.fold_module_items_corr false false false
    (Analyzer.fold_module_items false false st m).2 st
    (initialState st.remove_exports) m ha.2.2.2 hitem heq0
  rw [← hY] at hcorr
  rw [← Analyzer.fold_module_items_retain_state false false
    (initialState st.remove_exports)
    (RemoveExportsExprs.fold_module_items false
      (Analyzer.fold_module_items false false st m).2
      (Analyzer.fold_module_items false false st m).1).1] at hcorr
  rw [← hM1] at hcorr
  have hshapeid : ∀ i_ ∈ (RemoveExportsExprs.fold_module st m).1,
      analyzerItemShape st.remove_exports i_ = i_ := by
    intro i hi
    rw [hM1] at hi
    have hi2 := List.mem_filter.mp hi
    have hiX := hi2.1
    rw [hY] at hiX
    rcases List.mem_map.mp hiX with ⟨j, hj, hij⟩
    rcases analyzerItemShape_rewrite_out false
      (Analyzer.fold_module_items false false st m).2
      st.remove_exports j (hitem j hj) with hsh | hsh
    · rw [hij] at hsh
      exact hsh
    · rw [hij] at hsh
      rw [hsh] at hi2
      exact Bool.noConfusion hi2.2
  have htree : (Analyzer.fold_module_items false false
      (initialState st.remove_exports)
      ((RemoveExportsExprs.fold_module st m).1)).1 =
      (RemoveExportsExprs.fold_module st m).1 := by
    rw [(Analyzer.fold_module_items_spec false false
      (initialState st.remove_exports)
      ((RemoveExportsExprs.fold_module st m).1)).1]
    exact listMapId hshapeid
  have hidem := RemoveExportsExprs.fold_module_items_idem false
    (Analyzer.fold_module_items false false st m).2
    ((Analyzer.fold_module_items false false
      (initialState st.remove_exports)
      ((RemoveExportsExprs.fold_module st m).1)).2)
    (Analyzer.fold_module_items false false st m).1 hrunR
    (fun id h => hcorr.should_remove_mono id h) hcorr.2.2.1
  have hid : ∀ i_ ∈ (RemoveExportsExprs.fold_module st m).1,
      RemoveExportsExprs.fold_module_item false
        ((Analyzer.fold_module_items false false
          (initialState st.remove_exports)
          ((RemoveExportsExprs.fold_module st m).1)).2) i_ =
      (i_, (Analyzer.fold_module_items false false
        (initialState st.remove_exports)
        ((RemoveExportsExprs.fold_module st m).1)).2) := by
    intro i hi
    rw [hM1] at hi
    exact hidem i (List.mem_filter.mp hi).1
  have hR2 := RemoveExportsExprs.fold_module_items_id false
    ((Analyzer.fold_module_items false false
      (initialState st.remove_exports)
      ((RemoveExportsExprs.fold_module st m).1)).2)
    ((RemoveExportsExprs.fold_module st m).1) hid
  have hret : RemoveExportsExprs.retain_items
      ((RemoveExportsExprs.fold_module st m).1) =
      (RemoveExportsExprs.fold_module st m).1 := by
    rw [hM1]
    exact List.filter_eq_self.mpr
      (fun a ha => (List.mem_filter.mp ha).2)
  have hpres2 := (Analyzer.fold_module_items_spec false false
    (initialState st.remove_exports)
    ((RemoveExportsExprs.fold_module st m).1)).2.2.1
  have hfinal : ∀ M : ModuleAst,
      (Analyzer.fold_module_items false false
        (initialState st.remove_exports) M).1 = M →
      RemoveExportsExprs.fold_module_items false
        (Analyzer.fold_module_items false false
          (initialState st.remove_exports) M).2 M =
        (M, (Analyzer.fold_module_items false false
          (initialState st.remove_exports) M).2) →
      RemoveExportsExprs.retain_items M = M →
      RemoveExportsExprs.fold_module (initialState st.remove_exports) M =
        (M, (Analyzer.fold_module_items false false
          (initialState st.remove_exports) M).2) := by
    intro M h1 h2 h3
    simp only [RemoveExportsExprs.fold_module]
    rw [h1, h2]
    dsimp only
    rw [h3]
  constructor
  · exact hfinal _ htree hR2 hret
  · rw [hpres2]
    rfl

theorem repeatLoop_fixed (fuel : Nat) (st : State) (m : ModuleAst)
    (hfuel : sizeItems m < fuel) :
    ∃ st2 m2, repeatLoop fuel st m =
        RemoveExportsExprs.fold_module (State.reset st2) m2 ∧
      (RemoveExportsExprs.fold_module (State.reset st2)
        m2).2.should_run_again = false ∧
      st2.remove_exports = st.remove_exports := by
  induction fuel generalizing st m with
  | zero => exact absurd hfuel (Nat.not_lt_zero _)
  | succ fuel ih =>
    simp only [repeatLoop]
    cases hrun : (RemoveExportsExprs.fold_module st.reset
        m).2.should_run_again with
    | true =>
      rw [if_pos rfl]
      have hp := RemoveExportsExprs.fold_module_size st.reset m
      have hreset : (State.reset st).should_run_again = false := rfl
      rcases hp.2.1 hrun with hrun0 | hlt
      · rw [hreset] at hrun0
        exact Bool.noConfusion hrun0
      · rcases ih (RemoveExportsExprs.fold_module st.reset m).2
          (RemoveExportsExprs.fold_module st.reset m).1 (by omega)
          with ⟨st2, m2, he, hf, ht⟩
        refine ⟨st2, m2, he, hf, ?_⟩
        rw [ht, RemoveExportsExprs.fold_module_targets]
        rfl
    | false =>
      rw [if_neg Bool.false_ne_true]
      exact ⟨st, m, rfl, hrun, rfl⟩

/-- C10: the transform is idempotent — running `remove_export_exprs` a
second time with the same Removal Targets on its own output returns that
output unchanged: the second invocation's first analyze-plus-rewrite pass
deletes nothing and leaves the Run-Again flag unset, so its fixed point is
reached immediately. -/
theorem claim_C10 (tgts : List String) (m : ModuleAst) :
    remove_export_exprs tgts (remove_export_exprs tgts m) =
      remove_export_exprs tgts m := by
  rcases repeatLoop_fixed (sizeItems m + 1) (initialState tgts) m
    (Nat.lt_succ_self _) with ⟨st2, m2, he, hf, ht⟩
  have htgt2 : (State.reset st2).remove_exports = tgts := ht
  have hp2 := RemoveExportsExprs.fold_module_pass2 (State.reset st2) m2
    rfl rfl hf
  rw [htgt2] at hp2
  have h1 : remove_export_exprs tgts m =
      (RemoveExportsExprs.fold_module (State.reset st2) m2).1 := by
    unfold remove_export_exprs
    rw [he]
  rw [h1]
  unfold remove_export_exprs
  simp only [repeatLoop]
  rw [show State.reset (initialState tgts) = initialState tgts from rfl]
  rw [hp2.1]
  dsimp only
  simp only [hp2.2, Bool.false_eq_true, if_false]
